import Mathlib

/-!
# Contour2D: a shallow embedding of the contour validity / closure engine

The C++ classes `MyPoint`, `LineSegment2D`, `ArcSegment2D` and `Contour2D` and
the function `polylineContourFromPoints` of `ContourUtils` are translated
function by function.

Modelling conventions

* `double` is idealised as a real number: arithmetic is exact, there is no
  NaN, no infinity and no rounding.  `std::sqrt`, `std::cos`, `std::sin`,
  `atan2` and `M_PI` are the real functions of the same name (`atan2 y x` is
  the argument of `x + iy`, in `(-π, π]`).  The only infinite value the code
  writes on purpose, the vertical slope of a line, lives in `EReal`.
* Where rounding decides a result, the code is read in binary64 instead: the
  line segment, the contour of line segments and the radius clamp of the arc
  are embedded a second time over `Binary64` (namespace `B64`), round to
  nearest, ties to even.  An angle that a caller writes with the macro, as in
  the full circle `2 * M_PI`, is the double value `M_PI`, not π.
* The class hierarchy `Segment2D <- {LineSegment2D, ArcSegment2D}` is the
  sum type `Segment2D`; a virtual call is a `match`.  The private members
  `pointA`, `pointB`, `myLength` of the abstract base are never read or
  written and are left out.
* A member function that writes `this` returns the new object.  `isValid`
  and `isClosedShape` are `const` in C++ but write the two `mutable` cache
  fields, so they return the result together with the new object.
* A function that throws `std::out_of_range` returns `Except.error` with the
  message, paired with the object as it is when the exception leaves.
* `static_cast<int>(segments.size())` is the two's complement wrap to 32 bits.
* Where a statement is about two contour objects that could share a segment
  (copy construction), the `unique_ptr` targets are made explicit: segment
  objects live in a `Store` and a contour object holds their addresses.
-/

namespace Contour

noncomputable section

/-! ## MyPoint -/

/-- A point `MyPoint` with its three `double` members. -/
structure MyPoint where
  x : ℝ
  y : ℝ
  z : ℝ

/-- The constructor `MyPoint(X, Y)` with the defaulted `Z = 0`. -/
def MyPoint.mk2 (X Y : ℝ) : MyPoint := ⟨X, Y, 0⟩

/-- The setter `MyPoint::setX`. -/
def MyPoint.setX (p : MyPoint) (val : ℝ) : MyPoint := { p with x := val }

/-- The setter `MyPoint::setY`. -/
def MyPoint.setY (p : MyPoint) (val : ℝ) : MyPoint := { p with y := val }

/-- The method `MyPoint::distanceTo_2D`: `sqrt(pow(x - p.x, 2) + pow(y - p.y, 2))`. -/
def MyPoint.distanceTo_2D (a p : MyPoint) : ℝ :=
  Real.sqrt ((a.x - p.x) ^ 2 + (a.y - p.y) ^ 2)

/-- The method `MyPoint::distanceTo_3D`. -/
def MyPoint.distanceTo_3D (a p : MyPoint) : ℝ :=
  Real.sqrt ((a.x - p.x) ^ 2 + (a.y - p.y) ^ 2 + (a.z - p.z) ^ 2)

/-! ## LineSegment2D -/

/-- The members of `LineSegment2D`, in declaration order. -/
structure LineSegment2D where
  length_ : ℝ
  slope : EReal
  pointA : MyPoint
  pointB : MyPoint

/-- The method `LineSegment2D::calcSlope`. -/
def LineSegment2D.calcSlope (s : LineSegment2D) : LineSegment2D :=
  let dx := s.pointB.x - s.pointA.x
  let dy := s.pointB.y - s.pointA.y
  if |dx| < 1e-9 then
    { s with slope := ⊤ }
  else
    { s with slope := ((dy / dx : ℝ) : EReal) }

/-- The method `LineSegment2D::length`. -/
def LineSegment2D.length (s : LineSegment2D) : LineSegment2D :=
  { s with length_ := s.pointA.distanceTo_2D s.pointB }

/-- The constructor `LineSegment2D(a, b)`: the member initialisers set the two
points, the body runs `calcSlope()` then `length()`.  The two scalar members are
not initialised before the body overwrites them; they start here as `0`. -/
def LineSegment2D.ctor (a b : MyPoint) : LineSegment2D :=
  LineSegment2D.length (LineSegment2D.calcSlope ⟨0, 0, a, b⟩)

/-- The method `LineSegment2D::setPointA`. -/
def LineSegment2D.setPointA (s : LineSegment2D) (newA : MyPoint) : LineSegment2D :=
  LineSegment2D.length (LineSegment2D.calcSlope { s with pointA := newA })

/-- The method `LineSegment2D::setPointB`. -/
def LineSegment2D.setPointB (s : LineSegment2D) (newB : MyPoint) : LineSegment2D :=
  LineSegment2D.length (LineSegment2D.calcSlope { s with pointB := newB })

/-- The method `LineSegment2D::move`: four coordinate writes, then `calcSlope()`
(and no `length()`). -/
def LineSegment2D.move (s : LineSegment2D) (dx dy : ℝ) : LineSegment2D :=
  let s1 := { s with pointA := s.pointA.setX (s.pointA.x + dx) }
  let s2 := { s1 with pointB := s1.pointB.setX (s1.pointB.x + dx) }
  let s3 := { s2 with pointA := s2.pointA.setY (s2.pointA.y + dy) }
  let s4 := { s3 with pointB := s3.pointB.setY (s3.pointB.y + dy) }
  LineSegment2D.calcSlope s4

/-- The method `LineSegment2D::isNonZeroLength`. -/
def LineSegment2D.isNonZeroLength (s : LineSegment2D) (epsilon : ℝ) : Bool :=
  decide (s.length_ > epsilon)

/-! ## ArcSegment2D -/

/-- The library function `atan2(y, x)` on reals: the angle of the vector
`(x, y)`, in `(-π, π]`, and `0` at the origin. -/
def atan2 (y x : ℝ) : ℝ := Complex.arg ⟨x, y⟩

/-- The members of `ArcSegment2D`, in declaration order. -/
structure ArcSegment2D where
  radius : ℝ
  startAngle : ℝ
  endAngle : ℝ
  length_ : ℝ
  clockwise : Bool
  center : MyPoint
  pointA : MyPoint
  pointB : MyPoint

/-- The method `ArcSegment2D::length`. -/
def ArcSegment2D.length (s : ArcSegment2D) : ArcSegment2D :=
  let arc_ := s.endAngle - s.startAngle
  let arc_ := if arc_ < 0 then arc_ + 2 * Real.pi else arc_
  { s with length_ := s.radius * arc_ }

/-- The method `ArcSegment2D::calculateFromEndpoints` (the diagnostic written
to `std::cerr` when the radius is clamped is not modelled). -/
def ArcSegment2D.calculateFromEndpoints (s : ArcSegment2D) : ArcSegment2D :=
  let dx := s.pointB.x - s.pointA.x
  let dy := s.pointB.y - s.pointA.y
  let chordLen := Real.sqrt (dx * dx + dy * dy)
  let minRadius := chordLen / 2
  let radius := if minRadius > s.radius then minRadius * 1.1 else s.radius
  let mx := (s.pointB.x + s.pointA.x) / 2
  let my := (s.pointB.y + s.pointA.y) / 2
  let h := Real.sqrt (radius * radius - (chordLen * chordLen) / 4)
  let perp_dx := -dy
  let perp_dy := dx
  let mag := Real.sqrt (perp_dx * perp_dx + perp_dy * perp_dy)
  let perp_dx := perp_dx / mag
  let perp_dy := perp_dy / mag
  let perp_dx := if !s.clockwise then -perp_dx else perp_dx
  let perp_dy := if !s.clockwise then -perp_dy else perp_dy
  let cx := mx + h * perp_dx
  let cy := my + h * perp_dy
  ArcSegment2D.length
    { s with
      radius := radius
      center := MyPoint.mk2 cx cy
      startAngle := atan2 (s.pointA.y - cy) (s.pointA.x - cx)
      endAngle := atan2 (s.pointB.y - cy) (s.pointB.x - cx) }

/-- The constructor `ArcSegment2D(start, end, radius_, clockwise_)`.  The
members it does not initialise (`startAngle`, `endAngle`, `length_`) start as
`0` and `center` as the default point; `calculateFromEndpoints` overwrites all
of them. -/
def ArcSegment2D.ctorEndpoints (start end_ : MyPoint) (radius_ : ℝ) (clockwise_ : Bool) :
    ArcSegment2D :=
  ArcSegment2D.calculateFromEndpoints
    { radius := radius_, startAngle := 0, endAngle := 0, length_ := 0,
      clockwise := clockwise_, center := MyPoint.mk2 0 0, pointA := start, pointB := end_ }

/-- The static method `ArcSegment2D::polarToCartesian`. -/
def ArcSegment2D.polarToCartesian (c : MyPoint) (r angle : ℝ) : MyPoint :=
  ⟨c.x + r * Real.cos angle, c.y + r * Real.sin angle, c.z⟩

/-- The constructor `ArcSegment2D(c, r, startAng, endAng)`. -/
def ArcSegment2D.ctorPolar (c : MyPoint) (r startAng endAng : ℝ) : ArcSegment2D :=
  let s0 : ArcSegment2D :=
    { radius := r, startAngle := startAng, endAngle := endAng, length_ := 0,
      clockwise := false, center := c, pointA := MyPoint.mk2 0 0, pointB := MyPoint.mk2 0 0 }
  let s1 := { s0 with pointB := ArcSegment2D.polarToCartesian s0.center s0.radius s0.endAngle }
  let s2 := { s1 with pointA := ArcSegment2D.polarToCartesian s1.center s1.radius s1.startAngle }
  let s3 := ArcSegment2D.length s2
  let angleSweep := s3.endAngle - s3.startAngle
  let angleSweep := if angleSweep < 0 then angleSweep + 2 * Real.pi else angleSweep
  { s3 with clockwise := decide (angleSweep > Real.pi) }

/-- The method `ArcSegment2D::move`. -/
def ArcSegment2D.move (s : ArcSegment2D) (dx dy : ℝ) : ArcSegment2D :=
  let s1 := { s with pointA := s.pointA.setX (s.pointA.x + dx) }
  let s2 := { s1 with pointA := s1.pointA.setY (s1.pointA.y + dy) }
  let s3 := { s2 with pointB := s2.pointB.setX (s2.pointB.x + dx) }
  let s4 := { s3 with pointB := s3.pointB.setY (s3.pointB.y + dy) }
  ArcSegment2D.calculateFromEndpoints s4

/-- The method `ArcSegment2D::isNonZeroLength`. -/
def ArcSegment2D.isNonZeroLength (s : ArcSegment2D) (epsilon : ℝ) : Bool :=
  decide (s.length_ > epsilon)

/-! ## Segment2D: the polymorphic interface -/

/-- The abstract class `Segment2D` with its two concrete kinds. -/
inductive Segment2D where
  | line (s : LineSegment2D)
  | arc (s : ArcSegment2D)

/-- The virtual method `clone`: `make_unique<T>(*this)`, a member-wise copy of
the same concrete kind. -/
def Segment2D.clone : Segment2D → Segment2D
  | .line s =>
    .line { length_ := s.length_, slope := s.slope, pointA := s.pointA, pointB := s.pointB }
  | .arc s =>
    .arc { radius := s.radius, startAngle := s.startAngle, endAngle := s.endAngle,
           length_ := s.length_, clockwise := s.clockwise, center := s.center,
           pointA := s.pointA, pointB := s.pointB }

/-- The virtual method `getPointA`. -/
def Segment2D.getPointA : Segment2D → MyPoint
  | .line s => s.pointA
  | .arc s => s.pointA

/-- The virtual method `getPointB`. -/
def Segment2D.getPointB : Segment2D → MyPoint
  | .line s => s.pointB
  | .arc s => s.pointB

/-- The virtual method `move`. -/
def Segment2D.move (seg : Segment2D) (dx dy : ℝ) : Segment2D :=
  match seg with
  | .line s => .line (s.move dx dy)
  | .arc s => .arc (s.move dx dy)

/-- The virtual method `isNonZeroLength`. -/
def Segment2D.isNonZeroLength (seg : Segment2D) (epsilon : ℝ) : Bool :=
  match seg with
  | .line s => s.isNonZeroLength epsilon
  | .arc s => s.isNonZeroLength epsilon

/-! ## Contour2D -/

/-- The constant `Contour2D::defaultEpsilon`. -/
def defaultEpsilon : ℝ := 1e-5

/-- The const member `epsilon`, initialised to `defaultEpsilon` in every
constructor and never assigned. -/
def epsilon : ℝ := defaultEpsilon

/-- The data members of `Contour2D` (the const member `epsilon` is the
constant above). -/
structure Contour2D where
  segments : List Segment2D
  cachedIsValid : Bool
  cacheValidity : Bool

/-- The defaulted constructor `Contour2D()`: no segment, both cache members
`false` by their default member initialisers. -/
def Contour2D.empty : Contour2D := ⟨[], false, false⟩

/-- The copy constructor `Contour2D(const Contour2D& other)`. -/
def Contour2D.copyCtor (other : Contour2D) : Contour2D :=
  { segments := other.segments.foldl (fun segs seg => segs ++ [seg.clone]) []
    cachedIsValid := false
    cacheValidity := false }

/-- The copy assignment `operator=` for `this` and `other` two distinct
objects (for `this == &other` the C++ does nothing). -/
def Contour2D.assign (self other : Contour2D) : Contour2D :=
  { self with segments := other.segments.foldl (fun segs seg => segs ++ [seg.clone]) [] }

/-- The method `addSegment(std::unique_ptr<Segment2D>)`. -/
def Contour2D.addSegment (c : Contour2D) (segment : Segment2D) : Contour2D :=
  { c with segments := c.segments ++ [segment], cacheValidity := false }

/-- The method `addSegment(const Segment2D&)`. -/
def Contour2D.addSegmentCopy (c : Contour2D) (segment : Segment2D) : Contour2D :=
  { c with segments := c.segments ++ [segment.clone], cacheValidity := false }

/-- The conversion `static_cast<int>(n)` of a `size_t`: two's complement wrap
to 32 bits. -/
def static_cast_int (n : Nat) : Int := Int.bmod n (2 ^ 32)

/-- The method `insertSegment(segment, position)`. -/
def Contour2D.insertSegment (c : Contour2D) (segment : Segment2D) (position : Int) :
    Except String Unit × Contour2D :=
  if position < 0 ∨ position > static_cast_int c.segments.length then
    (.error "Invalid position in insertSegment()", c)
  else
    (.ok (), { c with segments := c.segments.insertIdx position.toNat segment
                      cacheValidity := false })

/-- The method `removeSegment(position)`. -/
def Contour2D.removeSegment (c : Contour2D) (position : Int) :
    Except String Unit × Contour2D :=
  if position < 0 ∨ position ≥ static_cast_int c.segments.length then
    (.error "Invalid position in removeSegment()", c)
  else
    (.ok (), { c with segments := c.segments.eraseIdx position.toNat
                      cacheValidity := false })

/-- The body of the loop of `isValid` for one `i`: segment `i` is `p.1`,
segment `i + 1` is `p.2`, and `acc` is `cachedIsValid`. -/
def isValidStep (acc : Bool) (p : Segment2D × Segment2D) : Bool :=
  if p.1.getPointB.distanceTo_2D p.2.getPointA > epsilon then false else acc

/-- The loop of `isValid`, `for (i = 0; i + 1 < segments.size(); ++i)`, run
from `cachedIsValid = true`: `segs.zip segs.tail` lists the pairs
`(segments[i], segments[i + 1])` in the order of `i`. -/
def isValidLoop (segs : List Segment2D) : Bool :=
  (segs.zip segs.tail).foldl isValidStep true

/-- The method `isValid`. -/
def Contour2D.isValid (c : Contour2D) : Bool × Contour2D :=
  if !c.cacheValidity then
    let c1 := { c with cachedIsValid := isValidLoop c.segments }
    let c2 := { c1 with cacheValidity := true }
    (c2.cachedIsValid, c2)
  else
    (c.cachedIsValid, c)

/-- The method `getSegmentAt(index)`, returning the segment the reference
designates. -/
def Contour2D.getSegmentAt (c : Contour2D) (index : Nat) : Except String Segment2D × Contour2D :=
  if h : index ≥ c.segments.length then
    (.error "Invalid index in getSegmentAt()", c)
  else
    (.ok (c.segments[index]), c)

/-- The method `getSegmentCount`. -/
def Contour2D.getSegmentCount (c : Contour2D) : Nat := c.segments.length

/-- The method `Contour2D::move`. -/
def Contour2D.move (c : Contour2D) (dx dy : ℝ) : Contour2D :=
  { c with segments := c.segments.map (fun segPtr => segPtr.move dx dy) }

/-- The method `isClosedShape`. -/
def Contour2D.isClosedShape (c : Contour2D) : Bool × Contour2D :=
  let r := c.isValid
  let c1 := r.2
  if !r.1 then
    (false, c1)
  else if c1.segments.length = 1 then
    match c1.segments.head? with
    | some front =>
      if front.isNonZeroLength epsilon then
        (decide (front.getPointA.distanceTo_2D front.getPointB < epsilon), c1)
      else (false, c1)
    | none => (false, c1)
  else if c1.segments.length > 1 then
    match c1.segments.getLast?, c1.segments.head? with
    | some back, some front =>
      if back.getPointB.distanceTo_2D front.getPointA < epsilon then (true, c1) else (false, c1)
    | _, _ => (false, c1)
  else
    (false, c1)

/-- The caller statement `c.getSegmentAt(index).move(dx, dy)`: a virtual
`move` on the segment the returned reference designates.  Nothing else of the
contour is written. -/
def Contour2D.moveSegmentAt (c : Contour2D) (index : Nat) (dx dy : ℝ) :
    Except String Unit × Contour2D :=
  match (c.getSegmentAt index).1 with
  | .error what => (.error what, c)
  | .ok seg => (.ok (), { c with segments := c.segments.set index (seg.move dx dy) })

/-! ## Ownership: the contour in memory

The definitions above treat a contour as a value.  To speak about two contour
objects that could share a segment, the same code is read once more with the
`unique_ptr` targets made explicit: segment objects live in a store, a contour
holds their addresses. -/

/-- The address of a segment object. -/
abbrev Addr := Nat

/-- The free store: cell `p` holds the segment object at address `p`. -/
structure Store where
  cells : List Segment2D

/-- The call `std::make_unique<T>(obj)`: a new object at an address not in use
so far. -/
def Store.make_unique (st : Store) (obj : Segment2D) : Addr × Store :=
  (st.cells.length, ⟨st.cells ++ [obj]⟩)

/-- A virtual `move(dx, dy)` through the pointer `p`. -/
def Store.moveAt (st : Store) (p : Addr) (dx dy : ℝ) : Store :=
  match st.cells[p]? with
  | some obj => ⟨st.cells.set p (obj.move dx dy)⟩
  | none => st

/-- The data members of `Contour2D` with `segments` as the vector of owning
pointers. -/
structure Contour2DMem where
  segments : List Addr
  cachedIsValid : Bool
  cacheValidity : Bool

/-- The contour value a contour object stands for in a store. -/
def Contour2DMem.load (c : Contour2DMem) (st : Store) : Contour2D :=
  { segments := c.segments.filterMap (fun p => st.cells[p]?)
    cachedIsValid := c.cachedIsValid
    cacheValidity := c.cacheValidity }

/-- One iteration of the loop of the copy constructor:
`segments.push_back(seg->clone())`, with `clone` being `make_unique<T>(*this)`. -/
def copyCtorStep (acc : Store × List Addr) (seg : Addr) : Store × List Addr :=
  match acc.1.cells[seg]? with
  | some obj => ((acc.1.make_unique obj.clone).2, acc.2 ++ [(acc.1.make_unique obj.clone).1])
  | none => acc

/-- The copy constructor `Contour2D(const Contour2D& other)` in memory: the
new store and the new contour object. -/
def Contour2DMem.copyCtor (st : Store) (other : Contour2DMem) : Store × Contour2DMem :=
  let r := other.segments.foldl copyCtorStep (st, [])
  (r.1, { segments := r.2, cachedIsValid := false, cacheValidity := false })

/-- The method `Contour2D::move` in memory. -/
def Contour2DMem.move (c : Contour2DMem) (st : Store) (dx dy : ℝ) : Store :=
  c.segments.foldl (fun s segPtr => s.moveAt segPtr dx dy) st

/-- The method `getSegmentAt(index)` in memory: the address the returned
reference designates. -/
def Contour2DMem.getSegmentAt (c : Contour2DMem) (index : Nat) : Except String Addr :=
  if h : index ≥ c.segments.length then
    .error "Invalid index in getSegmentAt()"
  else
    .ok (c.segments[index])

/-- The caller statement `c.getSegmentAt(index).move(dx, dy)` in memory. -/
def Contour2DMem.moveSegmentAt (c : Contour2DMem) (st : Store) (index : Nat) (dx dy : ℝ) :
    Except String Unit × Store :=
  match c.getSegmentAt index with
  | .error what => (.error what, st)
  | .ok p => (.ok (), st.moveAt p dx dy)

/-! ## Specification-side vocabulary -/

/-- The connectivity predicate of the specification: every junction
`segment[i].pointB`, `segment[i+1].pointA` is at most `epsilon` apart in X/Y. -/
def Connected (segs : List Segment2D) : Prop :=
  ∀ (i : Nat) (h : i + 1 < segs.length),
    (segs[i]).getPointB.distanceTo_2D (segs[i + 1]).getPointA ≤ epsilon

/-- One call of `addSegment`, by either overload. -/
inductive AddCall where
  | byPtr (segment : Segment2D)
  | byRef (segment : Segment2D)

/-- Run one `addSegment` call. -/
def AddCall.run (c : Contour2D) : AddCall → Contour2D
  | .byPtr segment => c.addSegment segment
  | .byRef segment => c.addSegmentCopy segment

/-- The contour obtained from the empty contour by a sequence of `addSegment`
calls. -/
def buildByAdds (calls : List AddCall) : Contour2D :=
  calls.foldl AddCall.run Contour2D.empty

/-- The cache of `c` is stale, or it is fresh and holds the connectivity of the
current segments. -/
def CacheConsistent (c : Contour2D) : Prop :=
  c.cacheValidity = true → (c.cachedIsValid = true ↔ Connected c.segments)

/-- A closed triangle of three line segments, added one by one. -/
def triangle : Contour2D :=
  buildByAdds
    [.byPtr (.line (LineSegment2D.ctor (MyPoint.mk2 0 0) (MyPoint.mk2 1 0))),
     .byPtr (.line (LineSegment2D.ctor (MyPoint.mk2 1 0) (MyPoint.mk2 0 1))),
     .byPtr (.line (LineSegment2D.ctor (MyPoint.mk2 0 1) (MyPoint.mk2 0 0)))]

/-- One call on a contour among the structural mutators and the two cached
queries. -/
inductive ContourOp where
  | addSegment (segment : Segment2D)
  | addSegmentCopy (segment : Segment2D)
  | insertSegment (segment : Segment2D) (position : Int)
  | removeSegment (position : Int)
  | isValid
  | isClosedShape

/-- The contour after one call; a call that throws leaves the contour as the
exception found it. -/
def ContourOp.run (c : Contour2D) : ContourOp → Contour2D
  | .addSegment segment => c.addSegment segment
  | .addSegmentCopy segment => c.addSegmentCopy segment
  | .insertSegment segment position => (c.insertSegment segment position).2
  | .removeSegment position => (c.removeSegment position).2
  | .isValid => c.isValid.2
  | .isClosedShape => c.isClosedShape.2

/-- The contour reached from the empty contour by a sequence of calls. -/
def runOps (ops : List ContourOp) : Contour2D :=
  ops.foldl ContourOp.run Contour2D.empty

/-- The segment argument of an `addSegment` call. -/
def AddCall.segment : AddCall → Segment2D
  | .byPtr segment => segment
  | .byRef segment => segment

/-- The arguments of a segment constructor call: `LineSegment2D(a, b)` or
`ArcSegment2D(start, end, radius, clockwise)`; `viaCopy` tells which overload of
`addSegment` receives the constructed segment. -/
inductive SegmentArgs where
  | line (a b : MyPoint) (viaCopy : Bool)
  | arc (start end_ : MyPoint) (radius : ℝ) (clockwise : Bool) (viaCopy : Bool)

/-- The start point given to the constructor. -/
def SegmentArgs.givenA : SegmentArgs → MyPoint
  | .line a _ _ => a
  | .arc start _ _ _ _ => start

/-- The end point given to the constructor. -/
def SegmentArgs.givenB : SegmentArgs → MyPoint
  | .line _ b _ => b
  | .arc _ end_ _ _ _ => end_

/-- Construct the segment. -/
def SegmentArgs.construct : SegmentArgs → Segment2D
  | .line a b _ => .line (LineSegment2D.ctor a b)
  | .arc start end_ radius clockwise _ =>
    .arc (ArcSegment2D.ctorEndpoints start end_ radius clockwise)

/-- Construct the segment and hand it to `addSegment`. -/
def SegmentArgs.addCall : SegmentArgs → AddCall
  | .line a b viaCopy =>
    if viaCopy then .byRef (.line (LineSegment2D.ctor a b))
    else .byPtr (.line (LineSegment2D.ctor a b))
  | .arc start end_ radius clockwise viaCopy =>
    if viaCopy then .byRef (.arc (ArcSegment2D.ctorEndpoints start end_ radius clockwise))
    else .byPtr (.arc (ArcSegment2D.ctorEndpoints start end_ radius clockwise))

/-- The contour obtained by constructing the segments and adding them in
order to the empty contour. -/
def contourOf (args : List SegmentArgs) : Contour2D :=
  buildByAdds (args.map SegmentArgs.addCall)

/-- The call left by throwing `std::out_of_range`. -/
def threw {α : Type} : Except String α → Bool
  | .error _ => true
  | .ok _ => false

/-- Two line segments that do not meet: `(0,0)-(1,0)` then `(5,5)-(6,6)`. -/
def broken : Contour2D :=
  buildByAdds
    [.byPtr (.line (LineSegment2D.ctor (MyPoint.mk2 0 0) (MyPoint.mk2 1 0))),
     .byPtr (.line (LineSegment2D.ctor (MyPoint.mk2 5 5) (MyPoint.mk2 6 6)))]

/-- The contour `c2` of the scenario `Contour2D c2; c2.isValid(); c2 = broken;`. -/
def assignedAfterQuery : Contour2D :=
  Contour2D.assign Contour2D.empty.isValid.2 broken

/-- A store holding the two segments of `broken`. -/
def demoStore : Store :=
  ⟨[.line (LineSegment2D.ctor (MyPoint.mk2 0 0) (MyPoint.mk2 1 0)),
    .line (LineSegment2D.ctor (MyPoint.mk2 5 5) (MyPoint.mk2 6 6))]⟩

/-- A contour object owning the two segments of `demoStore`, cache fresh. -/
def demoContour : Contour2DMem :=
  { segments := [0, 1], cachedIsValid := false, cacheValidity := true }

/-- Two line segments that meet: `(0,0)-(1,0)` then `(1,0)-(2,0)`. -/
def twoLines : Contour2D :=
  buildByAdds
    [.byPtr (.line (LineSegment2D.ctor (MyPoint.mk2 0 0) (MyPoint.mk2 1 0))),
     .byPtr (.line (LineSegment2D.ctor (MyPoint.mk2 1 0) (MyPoint.mk2 2 0)))]

/-- The contour of the scenario
`twoLines.isValid(); twoLines.getSegmentAt(1).move(5, 5);`. -/
def segmentMovedAfterQuery : Contour2D :=
  (Contour2D.moveSegmentAt twoLines.isValid.2 1 5 5).2

/-- A line followed by an arc that starts where the line ends. -/
def lineThenArc : List SegmentArgs :=
  [.line (MyPoint.mk2 0 0) (MyPoint.mk2 1 0) false,
   .arc (MyPoint.mk2 1 0) (MyPoint.mk2 2 0) 5 true false]

/-- The calls `addSegment(l1); addSegment(l2); isValid();` with the two
segments of `broken`. -/
def brokenThenQuery : List ContourOp :=
  [.addSegment (.line (LineSegment2D.ctor (MyPoint.mk2 0 0) (MyPoint.mk2 1 0))),
   .addSegment (.line (LineSegment2D.ctor (MyPoint.mk2 5 5) (MyPoint.mk2 6 6))),
   .isValid]

/-- The angular span `length()` uses: `endAngle - startAngle`, plus `2π` when
that difference is negative. -/
def ArcSegment2D.sweep (s : ArcSegment2D) : ℝ :=
  if s.endAngle - s.startAngle < 0 then s.endAngle - s.startAngle + 2 * Real.pi
  else s.endAngle - s.startAngle

/-- The value of the macro `M_PI`: the double nearest to π,
`884279719003555 / 2 ^ 48 = 3.141592653589793115997963...`, which is smaller than
π by about `1.2246e-16`. -/
def M_PI : ℝ := 884279719003555 / 281474976710656

/-- The contour holding the single arc `ArcSegment2D(center, r, 0, 2 * M_PI)`,
the full circle as a caller can write it. -/
def fullCircle (center : MyPoint) (r : ℝ) : Contour2D :=
  buildByAdds [.byPtr (.arc (ArcSegment2D.ctorPolar center r 0 (2 * M_PI)))]

/-- The arc `u` after the four coordinate writes of `ArcSegment2D::move`: both
endpoints shifted by `(dx, dy)`, every other member as it was. -/
def ArcSegment2D.shiftEndpoints (u : ArcSegment2D) (dx dy : ℝ) : ArcSegment2D :=
  { u with pointA := ⟨u.pointA.x + dx, u.pointA.y + dy, u.pointA.z⟩
           pointB := ⟨u.pointB.x + dx, u.pointB.y + dy, u.pointB.z⟩ }

/-! ## ContourUtils: the polyline builder -/

/-- The body of the first loop of `polylineContourFromPoints` for one `i`:
`p.1` is `ptr[i]`, `p.2` is `ptr[i + 1]`. -/
def polylineStep (myContour : Contour2D) (p : MyPoint × MyPoint) : Contour2D :=
  if p.1.distanceTo_2D p.2 > defaultEpsilon then
    myContour.addSegment (.line (LineSegment2D.ctor p.1 p.2))
  else
    myContour

/-- The function `polylineContourFromPoints(ptr, closedContour)`.  The loop
`for (i = 0; i + 1 < ptr.size(); ++i)` runs over `ptr.zip ptr.tail`, the pairs
`(ptr[i], ptr[i + 1])` in the order of `i`; `ptr.front()` and `ptr.back()` exist
exactly when `ptr` is not empty. -/
def polylineContourFromPoints (ptr : List MyPoint) (closedContour : Bool) : Contour2D :=
  let myContour := Contour2D.empty
  match ptr.head?, ptr.getLast? with
  | some front, some back =>
    let myContour := (ptr.zip ptr.tail).foldl polylineStep myContour
    if closedContour then
      if front.distanceTo_2D back > defaultEpsilon then
        myContour.addSegment (.line (LineSegment2D.ctor back front))
      else
        myContour
    else
      myContour
  | _, _ => myContour

/-- Specification side: the span the claim lists for index `i`, the straight
segment `(P[i], P[i+1])` when the two points are more than `1e-5` apart. -/
def spanAt (P : List MyPoint) (i : Nat) : Option Segment2D :=
  match P[i]?, P[i + 1]? with
  | some a, some b =>
    if a.distanceTo_2D b > 1e-5 then some (.line (LineSegment2D.ctor a b)) else none
  | _, _ => none

/-- Specification side: the closing span, one segment `(P.last, P.first)` iff
`close` is set, `P` is non-empty and `dist2D(P.first, P.last) > 1e-5`. -/
def closingSpan (P : List MyPoint) (close : Bool) : List Segment2D :=
  match P.head?, P.getLast? with
  | some first, some last =>
    if close = true ∧ first.distanceTo_2D last > 1e-5 then
      [.line (LineSegment2D.ctor last first)]
    else []
  | _, _ => []

/-- Specification side: the segments of the polyline contour as the claim
lists them. -/
def polylineSpec (P : List MyPoint) (close : Bool) : List Segment2D :=
  (List.range (P.length - 1)).filterMap (spanAt P) ++ closingSpan P close

/-- The segment a pair of points gives when it is kept. -/
def keptSpan (p : MyPoint × MyPoint) : Option Segment2D :=
  if p.1.distanceTo_2D p.2 > defaultEpsilon then some (.line (LineSegment2D.ctor p.1 p.2))
  else none

/-- The points of the skip-degenerate example of the specification. -/
def duplicatePoints : List MyPoint := [MyPoint.mk2 0 0, MyPoint.mk2 0 0, MyPoint.mk2 1 0]

/-- A polyline with two near-duplicate points in a row: the three points at
`x = 1`, `1.000008`, `1.000016` are pairwise consecutive within `1e-5`, the
first and the third are not. -/
def crowdedPoints : List MyPoint :=
  [MyPoint.mk2 0 0, MyPoint.mk2 1 0, MyPoint.mk2 1.000008 0, MyPoint.mk2 1.000016 0,
   MyPoint.mk2 2 0]

/-- The straight segments joining the consecutive points of `Q`, none left
out. -/
def chainLines : List MyPoint → List Segment2D
  | a :: b :: rest => .line (LineSegment2D.ctor a b) :: chainLines (b :: rest)
  | _ => []

/-- The arc `ArcSegment2D(MyPoint(0, 0), 1, 0, M_PI / 2)`: a quarter circle. -/
def quarterArc : ArcSegment2D := ArcSegment2D.ctorPolar (MyPoint.mk2 0 0) 1 0 (Real.pi / 2)

/-- The arc `ArcSegment2D(MyPoint(0, 0), 4e-6, 0, 3 * M_PI / 2)`: three quarters
of a small circle. -/
def smallArc : ArcSegment2D :=
  ArcSegment2D.ctorPolar (MyPoint.mk2 0 0) 4e-6 0 (3 * Real.pi / 2)

/-- The contour holding the single arc `smallArc`. -/
def smallArcContour : Contour2D := buildByAdds [.byPtr (.arc smallArc)]

/-- The contour of the scenario
`c.isValid(); c.isClosedShape(); c.move(1, 2);` on `smallArcContour`. -/
def smallArcMoved : Contour2D :=
  Contour2D.move smallArcContour.isValid.2.isClosedShape.2 1 2

/-- Three points of a triangle. -/
def trianglePoints : List MyPoint := [MyPoint.mk2 0 0, MyPoint.mk2 1 0, MyPoint.mk2 0 1]

/-! ## The contour search of the tests, reversed segments, calls through a reference -/

/-- One iteration of the loop of `findValidContours_test`: `acc.1` is `result`,
its pointers written as indices into the vector, and `acc.2` holds the contours
visited so far as the `isValid()` call left them. -/
def findValidStep (acc : List Nat × List Contour2D) (contour : Contour2D) :
    List Nat × List Contour2D :=
  if contour.isValid.1 then
    (acc.1 ++ [acc.2.length], acc.2 ++ [contour.isValid.2])
  else
    (acc.1, acc.2 ++ [contour.isValid.2])

/-- The test helper `findValidContours_test`: the result and the vector after
the calls. -/
def findValidContours_test (contours : List Contour2D) : List Nat × List Contour2D :=
  contours.foldl findValidStep ([], [])

/-- One iteration of the loop of `findInvalidContours_test`. -/
def findInvalidStep (acc : List Nat × List Contour2D) (contour : Contour2D) :
    List Nat × List Contour2D :=
  if !contour.isValid.1 then
    (acc.1 ++ [acc.2.length], acc.2 ++ [contour.isValid.2])
  else
    (acc.1, acc.2 ++ [contour.isValid.2])

/-- The test helper `findInvalidContours_test`. -/
def findInvalidContours_test (contours : List Contour2D) : List Nat × List Contour2D :=
  contours.foldl findInvalidStep ([], [])

/-- The indices `k + j` of the contours `cs[j]` on which `p` holds. -/
def idxWhere (p : Contour2D → Bool) : List Contour2D → Nat → List Nat
  | [], _ => []
  | c :: cs, k => if p c then k :: idxWhere p cs (k + 1) else idxWhere p cs (k + 1)

/-- The line segment `LineSegment2D(MyPoint(x1, y1), MyPoint(x2, y2))` handed to
`addSegment` as a `unique_ptr`. -/
def addLine (x1 y1 x2 y2 : ℝ) : AddCall :=
  .byPtr (.line (LineSegment2D.ctor (MyPoint.mk2 x1 y1) (MyPoint.mk2 x2 y2)))

/-- The vector `contourVec` of the test `ValidInvalidContourSearch`: copies of
the four contours `c1` to `c4`. -/
def contourVec : List Contour2D :=
  [Contour2D.copyCtor (buildByAdds
      [addLine 1 1 1 2, addLine 1 2 4 2, addLine 4 2 5 5, addLine 5 5 5 6, addLine 5 6 6 7]),
   Contour2D.copyCtor (buildByAdds
      [addLine 1 1 1 2, addLine 1 2 4 2, addLine 4 2 5 5, addLine 5 5 8 6, addLine 5 6 6 7]),
   Contour2D.copyCtor (buildByAdds
      [addLine 1 1 1 2, addLine 1 2 4 2, addLine 4 2 5 5, addLine 5 6 5 6, addLine 5 6 6 7]),
   Contour2D.copyCtor (buildByAdds
      [addLine 1 1 1 2, addLine 1 2 4 2, addLine 4 2 5 5, addLine 5 4 5 6, addLine 5 6 6 7])]

/-- The chain `lines` with segment `k` replaced by the line segment built from
the same two endpoints in swapped order, each segment added in order to the
empty contour. -/
def contourWithReversed (lines : List LineSegment2D) (k : Nat) (hk : k < lines.length) :
    Contour2D :=
  buildByAdds
    ((lines.set k (LineSegment2D.ctor (lines[k]).pointB (lines[k]).pointA)).map
      (fun l => AddCall.byPtr (.line l)))

/-- The virtual method `length`. -/
def Segment2D.length : Segment2D → Segment2D
  | .line s => .line s.length
  | .arc s => .arc s.length

/-- The caller statement `c.getSegmentAt(index).m(...)` for a member function
of the segment whose effect on the segment object is `m`.  A segment object
holds points and scalars and no reference to a contour, so the call writes the
designated segment and nothing else. -/
def Contour2D.callSegmentAt (c : Contour2D) (index : Nat) (m : Segment2D → Segment2D) :
    Except String Unit × Contour2D :=
  match (c.getSegmentAt index).1 with
  | .error what => (.error what, c)
  | .ok seg => (.ok (), { c with segments := c.segments.set index (m seg) })

/-- The five connected line segments of the valid contour of the tests. -/
def testChain : List LineSegment2D :=
  [LineSegment2D.ctor (MyPoint.mk2 1 1) (MyPoint.mk2 1 2),
   LineSegment2D.ctor (MyPoint.mk2 1 2) (MyPoint.mk2 4 2),
   LineSegment2D.ctor (MyPoint.mk2 4 2) (MyPoint.mk2 5 5),
   LineSegment2D.ctor (MyPoint.mk2 5 5) (MyPoint.mk2 5 6),
   LineSegment2D.ctor (MyPoint.mk2 5 6) (MyPoint.mk2 6 7)]

/-! ## Binary64 arithmetic

The definitions above read `double` as a real number.  For the statements that
depend on rounding, the line segment, the contour of line segments and the
radius clamp of the arc are read once more in IEEE 754 binary64 arithmetic,
round to nearest with ties to even.  Their arithmetic is `+`, `-`, `*`, `/`,
`sqrt` and comparisons, which IEEE 754 fixes bit for bit.  Values are finite;
the exponent is not bounded, so the model is the format as long as no result
overflows or is subnormal. -/

/-- A finite binary64 value `m * 2 ^ e`, kept with `m` odd, or `m = 0` and
`e = 0`. -/
structure Binary64 where
  m : Int
  e : Int

/-- The loop of `Binary64.size`. -/
def Binary64.sizeLoop : Nat → Nat → Nat
  | 0, _ => 0
  | fuel + 1, n => if n = 0 then 0 else Binary64.sizeLoop fuel (n / 2) + 1

/-- The number of binary digits of `n`. -/
def Binary64.size (n : Nat) : Nat := Binary64.sizeLoop n n

/-- Removes up to `fuel` factors of two from `n`, counting them into `e`. -/
def Binary64.strip : Nat → Nat → Int → Nat × Int
  | 0, n, e => (n, e)
  | fuel + 1, n, e => if n % 2 = 0 then Binary64.strip fuel (n / 2) (e + 1) else (n, e)

/-- The value `± n * 2 ^ e` with the mantissa made odd. -/
def Binary64.normal (neg : Bool) (n : Nat) (e : Int) : Binary64 :=
  if n = 0 then ⟨0, 0⟩
  else
    let p := Binary64.strip (Binary64.size n) n e
    ⟨if neg then -(p.1 : Int) else (p.1 : Int), p.2⟩

/-- Rounding of the exact value `± n * 2 ^ e` to 53 significant bits: the `s`
low bits of `n` beyond the 53rd are dropped, and the kept part is incremented
when the dropped part is more than half a unit, or exactly half a unit with the
kept part odd. -/
def Binary64.round (neg : Bool) (n : Nat) (e : Int) : Binary64 :=
  let s := Binary64.size n - 53
  let q := n / 2 ^ s
  let r := n % 2 ^ s
  let q := if 2 * r > 2 ^ s ∨ (2 * r = 2 ^ s ∧ q % 2 = 1) then q + 1 else q
  Binary64.normal neg q (e + s)

/-- Rounding of the exact value `v * 2 ^ e`. -/
def Binary64.roundInt (v : Int) (e : Int) : Binary64 :=
  Binary64.round (decide (v < 0)) v.natAbs e

/-- The sum `a + b` of two doubles. -/
def Binary64.add (a b : Binary64) : Binary64 :=
  let e := min a.e b.e
  Binary64.roundInt (a.m * 2 ^ (a.e - e).toNat + b.m * 2 ^ (b.e - e).toNat) e

/-- The difference `a - b` of two doubles. -/
def Binary64.sub (a b : Binary64) : Binary64 :=
  let e := min a.e b.e
  Binary64.roundInt (a.m * 2 ^ (a.e - e).toNat - b.m * 2 ^ (b.e - e).toNat) e

/-- The product `a * b` of two doubles; also `pow(a, 2)` for `b = a`. -/
def Binary64.mul (a b : Binary64) : Binary64 :=
  Binary64.roundInt (a.m * b.m) (a.e + b.e)

/-- The rounded quotient `± (na / nb) * 2 ^ e` for `nb ≠ 0`: the integer
quotient is taken with more than 64 bits and one more bit records whether the
division left a remainder. -/
def Binary64.quot (neg : Bool) (na nb : Nat) (e : Int) : Binary64 :=
  let k := 64 + Binary64.size nb
  let q := (na * 2 ^ k) / nb
  let sticky := if (na * 2 ^ k) % nb = 0 then 0 else 1
  Binary64.round neg (2 * q + sticky) (e - k - 1)

/-- The quotient `a / b` of two doubles for `b ≠ 0`.  A division by zero gives
an infinity or a NaN, which this type does not hold; none of the statements
embedded below divides by zero, and here it is given the value `0`. -/
def Binary64.div (a b : Binary64) : Binary64 :=
  if b.m = 0 then ⟨0, 0⟩
  else Binary64.quot (decide (a.m < 0) != decide (b.m < 0)) a.m.natAbs b.m.natAbs (a.e - b.e)

/-- The loop of the integer square root: the bits of the root are decided from
bit `k - 1` down to bit `0`. -/
def Binary64.isqrtLoop : Nat → Nat → Nat → Nat
  | 0, _, r => r
  | k + 1, n, r =>
    if (r + 2 ^ k) * (r + 2 ^ k) ≤ n then Binary64.isqrtLoop k n (r + 2 ^ k)
    else Binary64.isqrtLoop k n r

/-- The integer square root of `n`, rounded down. -/
def Binary64.isqrt (n : Nat) : Nat := Binary64.isqrtLoop (Binary64.size n / 2 + 1) n 0

/-- The function `sqrt` on a double `a >= 0`, correctly rounded: the root of
the mantissa scaled by `2 ^ 128` or `2 ^ 129` (whichever leaves an even
exponent) is taken with one more bit recording whether it is exact.  The
statements embedded below take roots of sums of squares only. -/
def Binary64.sqrt (a : Binary64) : Binary64 :=
  let k : Nat := if (a.e - 128) % 2 = 0 then 128 else 129
  let n := a.m.natAbs * 2 ^ k
  let r := Binary64.isqrt n
  let sticky := if r * r = n then 0 else 1
  Binary64.round false (2 * r + sticky) ((a.e - k) / 2 - 1)

/-- The comparison `a < b` of two doubles. -/
def Binary64.lt (a b : Binary64) : Bool :=
  let e := min a.e b.e
  decide (a.m * 2 ^ (a.e - e).toNat < b.m * 2 ^ (b.e - e).toNat)

/-- The function `std::abs` on a double. -/
def Binary64.abs (a : Binary64) : Binary64 := ⟨|a.m|, a.e⟩

/-- The double denoted by a decimal literal with the value `p / q`, such as
`1e-9` (`p = 1`, `q = 10 ^ 9`) or `1.1` (`p = 11`, `q = 10`): the nearest
double. -/
def Binary64.lit (p q : Nat) : Binary64 := Binary64.quot false p q 0

namespace B64

/-- A point `MyPoint` with its three `double` members. -/
structure MyPoint where
  x : Binary64
  y : Binary64
  z : Binary64

/-- The constructor `MyPoint(X, Y)` with the defaulted `Z = 0`. -/
def MyPoint.mk2 (X Y : Binary64) : MyPoint := ⟨X, Y, Binary64.lit 0 1⟩

/-- The setter `MyPoint::setX`. -/
def MyPoint.setX (p : MyPoint) (val : Binary64) : MyPoint := { p with x := val }

/-- The setter `MyPoint::setY`. -/
def MyPoint.setY (p : MyPoint) (val : Binary64) : MyPoint := { p with y := val }

/-- The method `MyPoint::distanceTo_2D`: `sqrt(pow(x - p.x, 2) + pow(y - p.y, 2))`,
with `pow(t, 2)` the rounded square of `t`. -/
def MyPoint.distanceTo_2D (a p : MyPoint) : Binary64 :=
  Binary64.sqrt (Binary64.add
    (Binary64.mul (Binary64.sub a.x p.x) (Binary64.sub a.x p.x))
    (Binary64.mul (Binary64.sub a.y p.y) (Binary64.sub a.y p.y)))

/-- The values of the member `slope`: a finite double, or the
`std::numeric_limits<double>::infinity()` that `calcSlope` writes for a
vertical line. -/
inductive Slope where
  | finite (v : Binary64)
  | infinity

/-- The members of `LineSegment2D`, in declaration order. -/
structure LineSegment2D where
  length_ : Binary64
  slope : Slope
  pointA : MyPoint
  pointB : MyPoint

/-- The method `LineSegment2D::calcSlope`.  The division is reached only with
`|dx| >= 1e-9`. -/
def LineSegment2D.calcSlope (s : LineSegment2D) : LineSegment2D :=
  let dx := Binary64.sub s.pointB.x s.pointA.x
  let dy := Binary64.sub s.pointB.y s.pointA.y
  if Binary64.lt (Binary64.abs dx) (Binary64.lit 1 1000000000) then
    { s with slope := Slope.infinity }
  else
    { s with slope := Slope.finite (Binary64.div dy dx) }

/-- The method `LineSegment2D::length`. -/
def LineSegment2D.length (s : LineSegment2D) : LineSegment2D :=
  { s with length_ := s.pointA.distanceTo_2D s.pointB }

/-- The constructor `LineSegment2D(a, b)`: the member initialisers set the two
points, the body runs `calcSlope()` then `length()`; both scalar members are
written by the body, and start here as `0`. -/
def LineSegment2D.ctor (a b : MyPoint) : LineSegment2D :=
  LineSegment2D.length
    (LineSegment2D.calcSlope ⟨Binary64.lit 0 1, Slope.finite (Binary64.lit 0 1), a, b⟩)

/-- The method `LineSegment2D::setPointA`. -/
def LineSegment2D.setPointA (s : LineSegment2D) (newA : MyPoint) : LineSegment2D :=
  LineSegment2D.length (LineSegment2D.calcSlope { s with pointA := newA })

/-- The method `LineSegment2D::setPointB`. -/
def LineSegment2D.setPointB (s : LineSegment2D) (newB : MyPoint) : LineSegment2D :=
  LineSegment2D.length (LineSegment2D.calcSlope { s with pointB := newB })

/-- The method `LineSegment2D::move`: four coordinate writes, then `calcSlope()`
(and no `length()`). -/
def LineSegment2D.move (s : LineSegment2D) (dx dy : Binary64) : LineSegment2D :=
  let s1 := { s with pointA := s.pointA.setX (Binary64.add s.pointA.x dx) }
  let s2 := { s1 with pointB := s1.pointB.setX (Binary64.add s1.pointB.x dx) }
  let s3 := { s2 with pointA := s2.pointA.setY (Binary64.add s2.pointA.y dy) }
  let s4 := { s3 with pointB := s3.pointB.setY (Binary64.add s3.pointB.y dy) }
  LineSegment2D.calcSlope s4

/-- The method `LineSegment2D::isNonZeroLength`: `length_ > epsilon`. -/
def LineSegment2D.isNonZeroLength (s : LineSegment2D) (epsilon : Binary64) : Bool :=
  Binary64.lt epsilon s.length_

/-- The constant `Contour2D::defaultEpsilon`, the literal `1e-5`, which
initialises the const member `epsilon`. -/
def epsilon : Binary64 := Binary64.lit 1 100000

/-- The data members of a `Contour2D` whose segments are all line segments. -/
structure Contour2D where
  segments : List LineSegment2D
  cachedIsValid : Bool
  cacheValidity : Bool

/-- The defaulted constructor `Contour2D()`. -/
def Contour2D.empty : Contour2D := ⟨[], false, false⟩

/-- The method `addSegment(std::unique_ptr<Segment2D>)`. -/
def Contour2D.addSegment (c : Contour2D) (segment : LineSegment2D) : Contour2D :=
  { c with segments := c.segments ++ [segment], cacheValidity := false }

/-- The body of the loop of `isValid` for one `i`: segment `i` is `p.1`,
segment `i + 1` is `p.2`, and `acc` is `cachedIsValid`. -/
def isValidStep (acc : Bool) (p : LineSegment2D × LineSegment2D) : Bool :=
  if Binary64.lt epsilon (p.1.pointB.distanceTo_2D p.2.pointA) then false else acc

/-- The loop of `isValid`, run from `cachedIsValid = true`. -/
def isValidLoop (segs : List LineSegment2D) : Bool :=
  (segs.zip segs.tail).foldl isValidStep true

/-- The method `isValid`. -/
def Contour2D.isValid (c : Contour2D) : Bool × Contour2D :=
  if !c.cacheValidity then
    let c1 := { c with cachedIsValid := isValidLoop c.segments }
    let c2 := { c1 with cacheValidity := true }
    (c2.cachedIsValid, c2)
  else
    (c.cachedIsValid, c)

/-- The method `Contour2D::move`. -/
def Contour2D.move (c : Contour2D) (dx dy : Binary64) : Contour2D :=
  { c with segments := c.segments.map (fun segPtr => segPtr.move dx dy) }

/-- The method `isClosedShape`. -/
def Contour2D.isClosedShape (c : Contour2D) : Bool × Contour2D :=
  let r := c.isValid
  let c1 := r.2
  if !r.1 then
    (false, c1)
  else if c1.segments.length = 1 then
    match c1.segments.head? with
    | some front =>
      if front.isNonZeroLength epsilon then
        (Binary64.lt (front.pointA.distanceTo_2D front.pointB) epsilon, c1)
      else (false, c1)
    | none => (false, c1)
  else if c1.segments.length > 1 then
    match c1.segments.getLast?, c1.segments.head? with
    | some back, some front =>
      if Binary64.lt (back.pointB.distanceTo_2D front.pointA) epsilon then (true, c1)
      else (false, c1)
    | _, _ => (false, c1)
  else
    (false, c1)

/-- The members `radius`, `pointA` and `pointB` of an `ArcSegment2D`.  The
other members (`center`, the two angles, `length_`, `clockwise`) are computed
from these with `atan2`, whose values IEEE 754 does not fix, and no statement
that writes one of the three members kept here reads them. -/
structure ArcSegment2D where
  radius : Binary64
  pointA : MyPoint
  pointB : MyPoint

/-- The statements of `ArcSegment2D::calculateFromEndpoints` up to and
including the radius clamp.  The statements after the clamp write `center`,
`startAngle`, `endAngle` and `length_` only. -/
def ArcSegment2D.calculateFromEndpoints (s : ArcSegment2D) : ArcSegment2D :=
  let dx := Binary64.sub s.pointB.x s.pointA.x
  let dy := Binary64.sub s.pointB.y s.pointA.y
  let chordLen := Binary64.sqrt (Binary64.add (Binary64.mul dx dx) (Binary64.mul dy dy))
  let minRadius := Binary64.div chordLen (Binary64.lit 2 1)
  if Binary64.lt s.radius minRadius then
    { s with radius := Binary64.mul minRadius (Binary64.lit 11 10) }
  else s

/-- The constructor `ArcSegment2D(start, end, radius_, clockwise_)`. -/
def ArcSegment2D.ctorEndpoints (start end_ : MyPoint) (radius_ : Binary64) : ArcSegment2D :=
  ArcSegment2D.calculateFromEndpoints ⟨radius_, start, end_⟩

/-- The method `ArcSegment2D::move`. -/
def ArcSegment2D.move (s : ArcSegment2D) (dx dy : Binary64) : ArcSegment2D :=
  let s1 := { s with pointA := s.pointA.setX (Binary64.add s.pointA.x dx) }
  let s2 := { s1 with pointA := s1.pointA.setY (Binary64.add s1.pointA.y dy) }
  let s3 := { s2 with pointB := s2.pointB.setX (Binary64.add s2.pointB.x dx) }
  let s4 := { s3 with pointB := s3.pointB.setY (Binary64.add s3.pointB.y dy) }
  ArcSegment2D.calculateFromEndpoints s4

/-- The line `LineSegment2D(MyPoint(0, 0), MyPoint(1, 0))`. -/
def unitLine : LineSegment2D :=
  LineSegment2D.ctor (MyPoint.mk2 (Binary64.lit 0 1) (Binary64.lit 0 1))
    (MyPoint.mk2 (Binary64.lit 1 1) (Binary64.lit 0 1))

/-- The line `unitLine` after `move(1e17, 0)`. -/
def unitLineMoved : LineSegment2D :=
  unitLine.move (Binary64.lit 100000000000000000 1) (Binary64.lit 0 1)

/-- The contour of the calls `c.addSegment(unitLine); c.move(1e17, 0);`. -/
def movedLineContour : Contour2D :=
  (Contour2D.empty.addSegment unitLine).move (Binary64.lit 100000000000000000 1)
    (Binary64.lit 0 1)

/-- The arc `ArcSegment2D(MyPoint(0, 0), MyPoint(10, 0), 5, clockwise)`, a
half circle. -/
def halfCircle : ArcSegment2D :=
  ArcSegment2D.ctorEndpoints (MyPoint.mk2 (Binary64.lit 0 1) (Binary64.lit 0 1))
    (MyPoint.mk2 (Binary64.lit 10 1) (Binary64.lit 0 1)) (Binary64.lit 5 1)

/-- The arc `halfCircle` after `move(6.1, 0)`. -/
def halfCircleMoved : ArcSegment2D :=
  halfCircle.move (Binary64.lit 61 10) (Binary64.lit 0 1)

/-- The contour of the lines `(0,0)-(1,0)` and `(1.000009,0)-(2,0)`, whose
junction is `9e-6` wide. -/
def nearJunction : Contour2D :=
  (Contour2D.empty.addSegment unitLine).addSegment
    (LineSegment2D.ctor (MyPoint.mk2 (Binary64.lit 1000009 1000000) (Binary64.lit 0 1))
      (MyPoint.mk2 (Binary64.lit 2 1) (Binary64.lit 0 1)))

end B64

/-! ## Lemmas on the validity loop -/

theorem isValidStep_foldl (l : List (Segment2D × Segment2D)) (acc : Bool) :
    l.foldl isValidStep acc = (acc && l.foldl isValidStep true) := by
  induction l generalizing acc with
  | nil => simp
  | cons p l ih =>
    simp only [List.foldl_cons]
    rw [ih (isValidStep acc p), ih (isValidStep true p)]
    unfold isValidStep
    split_ifs <;> simp

theorem isValidLoop_nil : isValidLoop [] = true := rfl

theorem isValidLoop_single (a : Segment2D) : isValidLoop [a] = true := rfl

theorem isValidLoop_cons_cons (a b : Segment2D) (rest : List Segment2D) :
    isValidLoop (a :: b :: rest) =
      (decide (a.getPointB.distanceTo_2D b.getPointA ≤ epsilon) && isValidLoop (b :: rest)) := by
  unfold isValidLoop
  simp only [List.tail_cons, List.zip_cons_cons, List.foldl_cons]
  rw [isValidStep_foldl]
  congr 1
  unfold isValidStep
  split_ifs with h
  · simp [h]
  · simp [not_lt.mp h]

theorem connected_cons_cons (a b : Segment2D) (rest : List Segment2D) :
    Connected (a :: b :: rest) ↔
      a.getPointB.distanceTo_2D b.getPointA ≤ epsilon ∧ Connected (b :: rest) := by
  constructor
  · intro h
    refine ⟨h 0 (by simp), ?_⟩
    intro i hi
    have := h (i + 1) (by simpa using hi)
    simpa using this
  · rintro ⟨h0, h⟩ i hi
    cases i with
    | zero => simpa using h0
    | succ j =>
      have := h j (by simpa using hi)
      simpa using this

/-- The loop of `isValid` computes the connectivity predicate. -/
theorem isValidLoop_iff (segs : List Segment2D) :
    isValidLoop segs = true ↔ Connected segs := by
  induction segs with
  | nil => simp [isValidLoop_nil, Connected]
  | cons a rest ih =>
    cases rest with
    | nil => simp [isValidLoop_single, Connected]
    | cons b rest =>
      rw [isValidLoop_cons_cons, connected_cons_cons, Bool.and_eq_true, ih]
      simp

theorem buildByAdds_append (calls : List AddCall) (k : AddCall) :
    buildByAdds (calls ++ [k]) = AddCall.run (buildByAdds calls) k := by
  simp [buildByAdds, List.foldl_append]

theorem buildByAdds_cacheValidity (calls : List AddCall) :
    (buildByAdds calls).cacheValidity = false := by
  induction calls using List.reverseRecOn with
  | nil => rfl
  | append_singleton l k _ =>
    rw [buildByAdds_append]
    cases k <;> rfl

theorem isValid_of_stale (c : Contour2D) (h : c.cacheValidity = false) :
    c.isValid = (isValidLoop c.segments,
      { segments := c.segments
        cachedIsValid := isValidLoop c.segments
        cacheValidity := true }) := by
  simp [Contour2D.isValid, h]

theorem isValid_of_fresh (c : Contour2D) (h : c.cacheValidity = true) :
    c.isValid = (c.cachedIsValid, c) := by
  simp [Contour2D.isValid, h]

/-! ## Lemmas on segments: endpoints and distances -/

theorem epsilon_pos : 0 < epsilon := by
  unfold epsilon defaultEpsilon; norm_num

theorem dist_le_iff (p q : MyPoint) (e : ℝ) (he : 0 ≤ e) :
    p.distanceTo_2D q ≤ e ↔ (p.x - q.x) ^ 2 + (p.y - q.y) ^ 2 ≤ e ^ 2 := by
  unfold MyPoint.distanceTo_2D
  exact Real.sqrt_le_left he

theorem dist_lt_iff (p q : MyPoint) (e : ℝ) (he : 0 < e) :
    p.distanceTo_2D q < e ↔ (p.x - q.x) ^ 2 + (p.y - q.y) ^ 2 < e ^ 2 := by
  unfold MyPoint.distanceTo_2D
  exact Real.sqrt_lt' he

theorem dist_gt_iff (p q : MyPoint) (e : ℝ) (he : 0 ≤ e) :
    p.distanceTo_2D q > e ↔ (p.x - q.x) ^ 2 + (p.y - q.y) ^ 2 > e ^ 2 := by
  unfold MyPoint.distanceTo_2D
  exact Real.lt_sqrt he

theorem dist_self (p : MyPoint) : p.distanceTo_2D p = 0 := by
  simp [MyPoint.distanceTo_2D]

theorem calcSlope_pointA (s : LineSegment2D) : s.calcSlope.pointA = s.pointA := by
  unfold LineSegment2D.calcSlope
  dsimp only
  split_ifs <;> rfl

theorem calcSlope_pointB (s : LineSegment2D) : s.calcSlope.pointB = s.pointB := by
  unfold LineSegment2D.calcSlope
  dsimp only
  split_ifs <;> rfl

theorem calcSlope_length (s : LineSegment2D) : s.calcSlope.length_ = s.length_ := by
  unfold LineSegment2D.calcSlope
  dsimp only
  split_ifs <;> rfl

theorem line_ctor_pointA (a b : MyPoint) : (LineSegment2D.ctor a b).pointA = a := by
  simp [LineSegment2D.ctor, LineSegment2D.length, calcSlope_pointA]

theorem line_ctor_pointB (a b : MyPoint) : (LineSegment2D.ctor a b).pointB = b := by
  simp [LineSegment2D.ctor, LineSegment2D.length, calcSlope_pointB]

theorem line_ctor_length (a b : MyPoint) :
    (LineSegment2D.ctor a b).length_ = a.distanceTo_2D b := by
  simp [LineSegment2D.ctor, LineSegment2D.length, calcSlope_pointA, calcSlope_pointB]

theorem arc_calc_pointA (s : ArcSegment2D) : s.calculateFromEndpoints.pointA = s.pointA := rfl

theorem arc_calc_pointB (s : ArcSegment2D) : s.calculateFromEndpoints.pointB = s.pointB := rfl

theorem arc_ctor_pointA (a b : MyPoint) (r : ℝ) (cw : Bool) :
    (ArcSegment2D.ctorEndpoints a b r cw).pointA = a := rfl

theorem arc_ctor_pointB (a b : MyPoint) (r : ℝ) (cw : Bool) :
    (ArcSegment2D.ctorEndpoints a b r cw).pointB = b := rfl

theorem line_move_pointA (s : LineSegment2D) (dx dy : ℝ) :
    (s.move dx dy).pointA = ⟨s.pointA.x + dx, s.pointA.y + dy, s.pointA.z⟩ := by
  simp [LineSegment2D.move, calcSlope_pointA, MyPoint.setX, MyPoint.setY]

theorem line_move_pointB (s : LineSegment2D) (dx dy : ℝ) :
    (s.move dx dy).pointB = ⟨s.pointB.x + dx, s.pointB.y + dy, s.pointB.z⟩ := by
  simp [LineSegment2D.move, calcSlope_pointB, MyPoint.setX, MyPoint.setY]

theorem arc_move_pointA (s : ArcSegment2D) (dx dy : ℝ) :
    (s.move dx dy).pointA = ⟨s.pointA.x + dx, s.pointA.y + dy, s.pointA.z⟩ := rfl

theorem arc_move_pointB (s : ArcSegment2D) (dx dy : ℝ) :
    (s.move dx dy).pointB = ⟨s.pointB.x + dx, s.pointB.y + dy, s.pointB.z⟩ := rfl

theorem seg_move_pointA (s : Segment2D) (dx dy : ℝ) :
    (s.move dx dy).getPointA = ⟨s.getPointA.x + dx, s.getPointA.y + dy, s.getPointA.z⟩ := by
  cases s with
  | line l => exact line_move_pointA l dx dy
  | arc a => exact arc_move_pointA a dx dy

theorem seg_move_pointB (s : Segment2D) (dx dy : ℝ) :
    (s.move dx dy).getPointB = ⟨s.getPointB.x + dx, s.getPointB.y + dy, s.getPointB.z⟩ := by
  cases s with
  | line l => exact line_move_pointB l dx dy
  | arc a => exact arc_move_pointB a dx dy

theorem clone_eq (s : Segment2D) : s.clone = s := by
  cases s <;> rfl

theorem clone_loop_eq (segs acc : List Segment2D) :
    segs.foldl (fun l seg => l ++ [seg.clone]) acc = acc ++ segs := by
  induction segs generalizing acc with
  | nil => simp
  | cons a rest ih =>
    simp only [List.foldl_cons]
    rw [ih, clone_eq]
    simp

/-! ## Claims -/

/-- C1: for a contour built from the empty contour by `addSegment` calls only,
`isValid()` returns true exactly when every junction `segment[i].pointB`,
`segment[i+1].pointA` (for `i + 1 < count`) is at most `epsilon` apart in X/Y;
in particular it returns true when the contour has 0 or 1 segments. -/
theorem C1_isValid_iff_connected (calls : List AddCall) :
    ((buildByAdds calls).isValid.1 = true ↔
      ∀ (i : Nat) (h : i + 1 < (buildByAdds calls).segments.length),
        (((buildByAdds calls).segments[i]).getPointB.distanceTo_2D
          ((buildByAdds calls).segments[i + 1]).getPointA ≤ (1e-5 : ℝ))) ∧
    ((buildByAdds calls).getSegmentCount ≤ 1 → (buildByAdds calls).isValid.1 = true) := by
  have hst := isValid_of_stale _ (buildByAdds_cacheValidity calls)
  have hiff := isValidLoop_iff (buildByAdds calls).segments
  refine ⟨?_, ?_⟩
  · rw [hst]
    exact hiff
  · intro hle
    rw [hst]
    apply hiff.mpr
    intro i hi
    unfold Contour2D.getSegmentCount at hle
    omega

theorem isValid_fst_of_consistent (c : Contour2D) (hc : CacheConsistent c) :
    c.isValid.1 = true ↔ Connected c.segments := by
  cases hv : c.cacheValidity with
  | false => rw [isValid_of_stale c hv]; exact isValidLoop_iff _
  | true => rw [isValid_of_fresh c hv]; exact hc hv

theorem isValid_segments (c : Contour2D) : c.isValid.2.segments = c.segments := by
  cases hv : c.cacheValidity with
  | false => rw [isValid_of_stale c hv]
  | true => rw [isValid_of_fresh c hv]

theorem isClosedShape_of_invalid (c : Contour2D) (h : c.isValid.1 = false) :
    c.isClosedShape.1 = false := by
  simp [Contour2D.isClosedShape, h]

theorem isClosedShape_nil (c : Contour2D) (h : c.segments = []) :
    c.isClosedShape.1 = false := by
  have hs := isValid_segments c
  unfold Contour2D.isClosedShape
  simp only [hs, h]
  split_ifs <;> simp_all

theorem isClosedShape_single (c : Contour2D) (s : Segment2D) (h : c.segments = [s])
    (hv : c.isValid.1 = true) :
    c.isClosedShape.1 = true ↔
      (s.isNonZeroLength epsilon = true ∧ s.getPointA.distanceTo_2D s.getPointB < epsilon) := by
  have hs := isValid_segments c
  unfold Contour2D.isClosedShape
  simp only [hs, h, hv]
  by_cases hz : s.isNonZeroLength epsilon = true <;> simp [hz]

theorem isClosedShape_many (c : Contour2D) (hlen : 1 < c.segments.length)
    (hv : c.isValid.1 = true) :
    c.isClosedShape.1 = true ↔
      ∃ hne : c.segments ≠ [],
        (c.segments.getLast hne).getPointB.distanceTo_2D (c.segments.head hne).getPointA
          < epsilon := by
  have hs := isValid_segments c
  have hne : c.segments ≠ [] := by
    intro h0; rw [h0] at hlen; simp at hlen
  have h1 : ¬ c.segments.length = 1 := by omega
  unfold Contour2D.isClosedShape
  simp only [hs, hv, h1, hlen, List.getLast?_eq_getLast _ hne, List.head?_eq_head hne]
  by_cases hd : (c.segments.getLast hne).getPointB.distanceTo_2D
      (c.segments.head hne).getPointA < epsilon
  · simp [hd, hne]
  · simp [hd]

/-- C2: for a contour whose cache is stale or consistent, `isClosedShape()` is
true exactly when either the contour is one segment `s` with
`s.isNonZeroLength(epsilon)` and `dist2D(s.pointA, s.pointB) < epsilon`, or it
has more than one segment, `isValid()` is true and
`dist2D(last.pointB, first.pointA) < epsilon`.  It is false for the empty
contour, whenever `isValid()` is false, and whenever some junction is more than
`epsilon` apart. -/
theorem C2_isClosedShape_cases (c : Contour2D) (hc : CacheConsistent c) :
    (c.isClosedShape.1 = true ↔
      ((∃ s, c.segments = [s] ∧ s.isNonZeroLength (1e-5 : ℝ) = true ∧
          s.getPointA.distanceTo_2D s.getPointB < (1e-5 : ℝ)) ∨
       (c.getSegmentCount > 1 ∧ c.isValid.1 = true ∧
          ∃ hne : c.segments ≠ [],
            (c.segments.getLast hne).getPointB.distanceTo_2D (c.segments.head hne).getPointA
              < (1e-5 : ℝ)))) ∧
    (c.getSegmentCount = 0 → c.isClosedShape.1 = false) ∧
    (c.isValid.1 = false → c.isClosedShape.1 = false) ∧
    ((∃ (i : Nat) (h : i + 1 < c.segments.length),
        (c.segments[i]).getPointB.distanceTo_2D (c.segments[i + 1]).getPointA > (1e-5 : ℝ)) →
      c.isClosedShape.1 = false) := by
  have hvalid := isValid_fst_of_consistent c hc
  refine ⟨?_, ?_, isClosedShape_of_invalid c, ?_⟩
  · rcases hseg : c.segments with _ | ⟨a, _ | ⟨b, rest⟩⟩
    · have h0 := isClosedShape_nil c hseg
      simp [h0, Contour2D.getSegmentCount, hseg]
    · have hv : c.isValid.1 = true := by
        rw [hvalid, hseg]; intro i hi; simp at hi
      have h1 := isClosedShape_single c a hseg hv
      rw [h1]
      simp [Contour2D.getSegmentCount, hseg, epsilon, defaultEpsilon]
    · have hlen : 1 < c.segments.length := by rw [hseg]; simp
      cases hv : c.isValid.1 with
      | false =>
        have h0 := isClosedShape_of_invalid c hv
        simp [h0]
      | true =>
        have h2 := isClosedShape_many c hlen hv
        rw [h2]
        constructor
        · intro h
          right
          refine ⟨by simpa [Contour2D.getSegmentCount] using hlen, rfl, ?_⟩
          simpa [hseg, epsilon, defaultEpsilon] using h
        · rintro (⟨s, hs, _⟩ | ⟨_, _, h⟩)
          · simp at hs
          · simpa [hseg, epsilon, defaultEpsilon] using h
  · intro h0
    apply isClosedShape_nil
    exact List.length_eq_zero.mp h0
  · rintro ⟨i, hi, hgt⟩
    apply isClosedShape_of_invalid
    cases hv : c.isValid.1 with
    | false => rfl
    | true =>
      have := hvalid.mp hv i hi
      exact absurd hgt (not_lt.mpr this)

/-- Witness for C2: the triangle has a stale cache and is a closed shape. -/
theorem C2_isClosedShape_cases_witness :
    CacheConsistent triangle ∧ triangle.isClosedShape.1 = true :=
  have hc : CacheConsistent triangle := fun h => by
    simp [triangle, buildByAdds_cacheValidity] at h
  ⟨hc, (C2_isClosedShape_cases triangle hc).1.mpr (Or.inr
    ⟨by simp [triangle, buildByAdds, AddCall.run, Contour2D.addSegment, Contour2D.empty,
        Contour2D.getSegmentCount],
     by
      unfold triangle
      rw [isValid_of_stale _ (buildByAdds_cacheValidity _)]
      simp [buildByAdds, AddCall.run, Contour2D.addSegment, Contour2D.empty,
        isValidLoop_cons_cons, isValidLoop_single, Segment2D.getPointA, Segment2D.getPointB,
        line_ctor_pointA, line_ctor_pointB, dist_self, epsilon_pos.le],
     by simp [triangle, buildByAdds, AddCall.run, Contour2D.addSegment, Contour2D.empty],
     by
      simp [triangle, buildByAdds, AddCall.run, Contour2D.addSegment, Contour2D.empty,
        Segment2D.getPointA, Segment2D.getPointB, line_ctor_pointA, line_ctor_pointB, dist_self]
      norm_num⟩)⟩

theorem isClosedShape_snd (c : Contour2D) : c.isClosedShape.2 = c.isValid.2 := by
  unfold Contour2D.isClosedShape
  dsimp only
  split_ifs <;> (try rfl) <;> (split <;> (try split_ifs) <;> rfl)

theorem isValid_snd_consistent (c : Contour2D) (hc : CacheConsistent c) :
    CacheConsistent c.isValid.2 := by
  cases hv : c.cacheValidity with
  | false =>
    rw [isValid_of_stale c hv]
    intro _
    exact isValidLoop_iff _
  | true =>
    rw [isValid_of_fresh c hv]
    exact hc

theorem consistent_of_stale (c : Contour2D) (h : c.cacheValidity = false) :
    CacheConsistent c := by
  intro h1; rw [h] at h1; cases h1

theorem insertSegment_snd_consistent (c : Contour2D) (hc : CacheConsistent c)
    (segment : Segment2D) (position : Int) :
    CacheConsistent (c.insertSegment segment position).2 := by
  unfold Contour2D.insertSegment
  split_ifs
  · exact hc
  · exact consistent_of_stale _ rfl

theorem removeSegment_snd_consistent (c : Contour2D) (hc : CacheConsistent c)
    (position : Int) :
    CacheConsistent (c.removeSegment position).2 := by
  unfold Contour2D.removeSegment
  split_ifs
  · exact hc
  · exact consistent_of_stale _ rfl

theorem run_consistent (c : Contour2D) (hc : CacheConsistent c) (op : ContourOp) :
    CacheConsistent (op.run c) := by
  cases op with
  | addSegment s => exact consistent_of_stale _ rfl
  | addSegmentCopy s => exact consistent_of_stale _ rfl
  | insertSegment s p => exact insertSegment_snd_consistent c hc s p
  | removeSegment p => exact removeSegment_snd_consistent c hc p
  | isValid => exact isValid_snd_consistent c hc
  | isClosedShape =>
    show CacheConsistent c.isClosedShape.2
    rw [isClosedShape_snd]
    exact isValid_snd_consistent c hc

theorem foldl_run_consistent (ops : List ContourOp) (c : Contour2D) (hc : CacheConsistent c) :
    CacheConsistent (ops.foldl ContourOp.run c) := by
  induction ops generalizing c with
  | nil => exact hc
  | cons op rest ih => exact ih _ (run_consistent c hc op)

/-- C3: in every state reached from the empty contour by `addSegment` (either
overload), `insertSegment`, `removeSegment` (succeeding or throwing), `isValid`
and `isClosedShape` calls in any order, when the freshness flag `cacheValidity`
is set the cached value `cachedIsValid` is the connectivity of the current
segment sequence; and `isValid()` called in that state returns the connectivity
of the current segment sequence. -/
theorem C3_cache_invariant (ops : List ContourOp) :
    ((runOps ops).cacheValidity = true →
      ((runOps ops).cachedIsValid = true ↔ Connected (runOps ops).segments)) ∧
    ((runOps ops).isValid.1 = true ↔ Connected (runOps ops).segments) := by
  have hc : CacheConsistent (runOps ops) :=
    foldl_run_consistent ops Contour2D.empty (consistent_of_stale _ rfl)
  exact ⟨hc, isValid_fst_of_consistent _ hc⟩

theorem run_segments (c : Contour2D) (k : AddCall) :
    (AddCall.run c k).segments = c.segments ++ [k.segment] := by
  cases k with
  | byPtr s => rfl
  | byRef s => simp [AddCall.run, Contour2D.addSegmentCopy, AddCall.segment, clone_eq]

theorem buildByAdds_segments (calls : List AddCall) :
    (buildByAdds calls).segments = calls.map AddCall.segment := by
  induction calls using List.reverseRecOn with
  | nil => rfl
  | append_singleton l k ih =>
    rw [buildByAdds_append, run_segments, ih]
    simp

theorem addCall_segment (a : SegmentArgs) : a.addCall.segment = a.construct := by
  cases a with
  | line a b v => cases v <;> rfl
  | arc a b r cw v => cases v <;> rfl

theorem contourOf_segments (args : List SegmentArgs) :
    (contourOf args).segments = args.map SegmentArgs.construct := by
  unfold contourOf
  rw [buildByAdds_segments, List.map_map]
  congr 1
  funext a
  exact addCall_segment a

theorem construct_pointA (a : SegmentArgs) : a.construct.getPointA = a.givenA := by
  cases a with
  | line a b v => exact line_ctor_pointA a b
  | arc a b r cw v => rfl

theorem construct_pointB (a : SegmentArgs) : a.construct.getPointB = a.givenB := by
  cases a with
  | line a b v => exact line_ctor_pointB a b
  | arc a b r cw v => rfl

theorem contourOf_isValid (args : List SegmentArgs) :
    (contourOf args).isValid.1 = true ↔
      ∀ (i : Nat) (h : i + 1 < args.length),
        (args[i]).givenB.distanceTo_2D (args[i + 1]).givenA ≤ epsilon := by
  unfold contourOf
  rw [isValid_of_stale _ (buildByAdds_cacheValidity _)]
  show isValidLoop (contourOf args).segments = true ↔ _
  rw [isValidLoop_iff, contourOf_segments]
  unfold Connected
  constructor
  · intro h i hi
    have := h i (by simpa using hi)
    simpa [construct_pointA, construct_pointB] using this
  · intro h i hi
    have := h i (by simpa using hi)
    simpa [construct_pointA, construct_pointB] using this

/-- C4: `LineSegment2D(a, b)` and `ArcSegment2D(a, b, radius, clockwise)` keep
the endpoints they are given.  So when `N >= 2` segments are constructed with
each given end point equal to the next given start point and added in order,
the contour is valid; and when at some junction the two given points are more
than `epsilon` apart in X/Y, `isValid()` is false. -/
theorem C4_endpoints_kept_and_chain_valid :
    (∀ a b : MyPoint,
      (Segment2D.line (LineSegment2D.ctor a b)).getPointA = a ∧
      (Segment2D.line (LineSegment2D.ctor a b)).getPointB = b) ∧
    (∀ (a b : MyPoint) (radius : ℝ) (clockwise : Bool),
      (Segment2D.arc (ArcSegment2D.ctorEndpoints a b radius clockwise)).getPointA = a ∧
      (Segment2D.arc (ArcSegment2D.ctorEndpoints a b radius clockwise)).getPointB = b) ∧
    (∀ args : List SegmentArgs, 2 ≤ args.length →
      (∀ (i : Nat) (h : i + 1 < args.length), (args[i]).givenB = (args[i + 1]).givenA) →
      (contourOf args).getSegmentCount = args.length ∧ (contourOf args).isValid.1 = true) ∧
    (∀ args : List SegmentArgs,
      (∃ (i : Nat) (h : i + 1 < args.length),
        (args[i]).givenB.distanceTo_2D (args[i + 1]).givenA > (1e-5 : ℝ)) →
      (contourOf args).isValid.1 = false) := by
  refine ⟨fun a b => ⟨line_ctor_pointA a b, line_ctor_pointB a b⟩,
    fun a b r cw => ⟨rfl, rfl⟩, ?_, ?_⟩
  · intro args _ hchain
    refine ⟨by simp [Contour2D.getSegmentCount, contourOf_segments], ?_⟩
    rw [contourOf_isValid]
    intro i hi
    rw [hchain i hi, dist_self]
    exact epsilon_pos.le
  · rintro args ⟨i, hi, hgt⟩
    cases hv : (contourOf args).isValid.1 with
    | false => rfl
    | true =>
      have := (contourOf_isValid args).mp hv i hi
      exact absurd hgt (not_lt.mpr this)

theorem static_cast_int_of_lt (n : Nat) (h : n < 2 ^ 31) : static_cast_int n = n := by
  unfold static_cast_int
  rw [Int.bmod_def]
  have hmod : ((n : Int)) % ((2 ^ 32 : Nat) : Int) = n := by
    apply Int.emod_eq_of_lt <;> omega
  rw [hmod]
  norm_num
  omega

theorem insertSegment_throw_iff (c : Contour2D) (hsize : c.segments.length < 2 ^ 31)
    (seg : Segment2D) (p : Int) :
    threw (c.insertSegment seg p).1 = true ↔ (p < 0 ∨ p > (c.segments.length : Int)) := by
  unfold Contour2D.insertSegment
  rw [static_cast_int_of_lt _ hsize]
  split_ifs with h <;> simp [threw, h]

theorem removeSegment_throw_iff (c : Contour2D) (hsize : c.segments.length < 2 ^ 31)
    (p : Int) :
    threw (c.removeSegment p).1 = true ↔ (p < 0 ∨ p ≥ (c.segments.length : Int)) := by
  unfold Contour2D.removeSegment
  rw [static_cast_int_of_lt _ hsize]
  split_ifs with h <;> simp [threw, h]

theorem insertSegment_throw_state (c : Contour2D) (seg : Segment2D) (p : Int)
    (h : threw (c.insertSegment seg p).1 = true) : (c.insertSegment seg p).2 = c := by
  unfold Contour2D.insertSegment at h ⊢
  split_ifs at h ⊢ with hp
  · rfl
  · simp [threw] at h

theorem removeSegment_throw_state (c : Contour2D) (p : Int)
    (h : threw (c.removeSegment p).1 = true) : (c.removeSegment p).2 = c := by
  unfold Contour2D.removeSegment at h ⊢
  split_ifs at h ⊢ with hp
  · rfl
  · simp [threw] at h

theorem getSegmentAt_snd (c : Contour2D) (i : Nat) : (c.getSegmentAt i).2 = c := by
  unfold Contour2D.getSegmentAt
  split_ifs <;> rfl

/-- C5: with the segment count in the range of `int`, `insertSegment(seg, p)`
throws out-of-range iff `p < 0` or `p > count`, `removeSegment(p)` throws iff
`p < 0` or `p >= count`, and `getSegmentAt(i)` throws iff `i >= count` (an index
in range is served as it is, not clamped).  A call that throws leaves the
segment sequence, the cached validity and the freshness flag unchanged. -/
theorem C5_out_of_range (c : Contour2D) (hsize : c.segments.length < 2 ^ 31) :
    (∀ (seg : Segment2D) (p : Int),
      (threw (c.insertSegment seg p).1 = true ↔ (p < 0 ∨ p > (c.getSegmentCount : Int))) ∧
      (threw (c.insertSegment seg p).1 = true → (c.insertSegment seg p).2 = c)) ∧
    (∀ p : Int,
      (threw (c.removeSegment p).1 = true ↔ (p < 0 ∨ p ≥ (c.getSegmentCount : Int))) ∧
      (threw (c.removeSegment p).1 = true → (c.removeSegment p).2 = c)) ∧
    (∀ i : Nat,
      (threw (c.getSegmentAt i).1 = true ↔ i ≥ c.getSegmentCount) ∧
      (threw (c.getSegmentAt i).1 = true → (c.getSegmentAt i).2 = c) ∧
      (∀ h : i < c.segments.length, (c.getSegmentAt i).1 = .ok (c.segments[i]))) := by
  refine ⟨fun seg p =>
      ⟨insertSegment_throw_iff c hsize seg p, insertSegment_throw_state c seg p⟩,
    fun p => ⟨removeSegment_throw_iff c hsize p, removeSegment_throw_state c p⟩,
    fun i => ⟨?_, fun _ => getSegmentAt_snd c i, ?_⟩⟩
  · unfold Contour2D.getSegmentAt Contour2D.getSegmentCount
    split_ifs with h <;> simp [threw, h]
  · intro h
    unfold Contour2D.getSegmentAt
    have : ¬ i ≥ c.segments.length := by omega
    simp [this]

/-- Witness for C5: on the triangle (3 segments) inserting at position 4
throws, and the contour is as before. -/
theorem C5_out_of_range_witness :
    triangle.segments.length < 2 ^ 31 ∧
    threw (triangle.insertSegment
      (.line (LineSegment2D.ctor (MyPoint.mk2 0 0) (MyPoint.mk2 1 0))) 4).1 = true ∧
    (triangle.insertSegment
      (.line (LineSegment2D.ctor (MyPoint.mk2 0 0) (MyPoint.mk2 1 0))) 4).2 = triangle :=
  have hsize : triangle.segments.length < 2 ^ 31 := by
    simp [triangle, buildByAdds_segments]
  have hthrow := ((C5_out_of_range triangle hsize).1
      (.line (LineSegment2D.ctor (MyPoint.mk2 0 0) (MyPoint.mk2 1 0))) 4).1.mpr
      (Or.inr (by simp [Contour2D.getSegmentCount, triangle, buildByAdds_segments]))
  ⟨hsize, hthrow,
    ((C5_out_of_range triangle hsize).1
      (.line (LineSegment2D.ctor (MyPoint.mk2 0 0) (MyPoint.mk2 1 0))) 4).2 hthrow⟩

theorem insertIdx_take_drop (l : List Segment2D) (x : Segment2D) (n : Nat)
    (h : n ≤ l.length) : l.insertIdx n x = l.take n ++ x :: l.drop n := by
  induction n generalizing l with
  | zero => simp
  | succ k ih =>
    cases l with
    | nil => simp at h
    | cons a rest =>
      have hk : k ≤ rest.length := by simpa using h
      simp [List.insertIdx_succ_cons, ih rest hk]

theorem insertSegment_ok (c : Contour2D) (seg : Segment2D) (p : Nat)
    (hp : p ≤ c.segments.length) (hsize : c.segments.length < 2 ^ 31) :
    c.insertSegment seg (p : Int) =
      (.ok (), { segments := c.segments.insertIdx p seg
                 cachedIsValid := c.cachedIsValid
                 cacheValidity := false }) := by
  unfold Contour2D.insertSegment
  rw [static_cast_int_of_lt _ hsize]
  have h1 : ¬ ((p : Int) < 0 ∨ (p : Int) > (c.segments.length : Int)) := by omega
  rw [if_neg h1]
  simp

theorem removeSegment_ok (c : Contour2D) (p : Nat)
    (hp : p < c.segments.length) (hsize : c.segments.length < 2 ^ 31) :
    c.removeSegment (p : Int) =
      (.ok (), { segments := c.segments.eraseIdx p
                 cachedIsValid := c.cachedIsValid
                 cacheValidity := false }) := by
  unfold Contour2D.removeSegment
  rw [static_cast_int_of_lt _ hsize]
  have h1 : ¬ ((p : Int) < 0 ∨ (p : Int) ≥ (c.segments.length : Int)) := by omega
  rw [if_neg h1]
  simp

/-- C6: with the count in the range of `int` and `0 <= p <= count`,
`insertSegment(seg, p)` succeeds and yields `S[0..p) ++ [seg] ++ S[p..count)`:
`seg` is at index `p`, the segments before `p` keep their index, those from `p`
on move up by one, the count grows by one and the cache is marked stale.  For
`p = count` the resulting contour is the one `addSegment(seg)` gives. -/
theorem C6_insertSegment_splice (c : Contour2D) (seg : Segment2D) (p : Nat)
    (hp : p ≤ c.getSegmentCount) (hsize : c.getSegmentCount < 2 ^ 31) :
    (c.insertSegment seg (p : Int)).1 = .ok () ∧
    (c.insertSegment seg (p : Int)).2.segments
      = c.segments.take p ++ [seg] ++ c.segments.drop p ∧
    (c.insertSegment seg (p : Int)).2.segments[p]? = some seg ∧
    (∀ i, i < p → (c.insertSegment seg (p : Int)).2.segments[i]? = c.segments[i]?) ∧
    (∀ i, p ≤ i → (c.insertSegment seg (p : Int)).2.segments[i + 1]? = c.segments[i]?) ∧
    (c.insertSegment seg (p : Int)).2.getSegmentCount = c.getSegmentCount + 1 ∧
    (c.insertSegment seg (p : Int)).2.cacheValidity = false ∧
    (c.insertSegment seg (p : Int)).2.cachedIsValid = c.cachedIsValid ∧
    (p = c.getSegmentCount → (c.insertSegment seg (p : Int)).2 = c.addSegment seg) := by
  unfold Contour2D.getSegmentCount at hp hsize ⊢
  rw [insertSegment_ok c seg p hp hsize]
  have hsplit := insertIdx_take_drop c.segments seg p hp
  have hlen : (c.segments.take p).length = p := by simp [hp]
  refine ⟨rfl, by simp [hsplit], ?_, ?_, ?_, ?_, rfl, rfl, ?_⟩
  · show (c.segments.insertIdx p seg)[p]? = some seg
    rw [hsplit, List.getElem?_append_right (by omega)]
    simp [hlen]
  · intro i hi
    show (c.segments.insertIdx p seg)[i]? = c.segments[i]?
    rw [hsplit, List.getElem?_append_left (by omega), List.getElem?_take_of_lt hi]
  · intro i hi
    show (c.segments.insertIdx p seg)[i + 1]? = c.segments[i]?
    rw [hsplit, List.getElem?_append_right (by omega), hlen]
    have : i + 1 - p = (i - p) + 1 := by omega
    rw [this, List.getElem?_cons_succ, List.getElem?_drop]
    congr 1
    omega
  · show (c.segments.insertIdx p seg).length = c.segments.length + 1
    exact List.length_insertIdx p c.segments hp
  · intro hpe
    subst hpe
    show Contour2D.mk _ _ _ = c.addSegment seg
    rw [List.insertIdx_length_self]
    rfl

/-- Witness for C6: inserting at position 1 of the triangle puts the new
segment at index 1. -/
theorem C6_insertSegment_splice_witness :
    1 ≤ triangle.getSegmentCount ∧ triangle.getSegmentCount < 2 ^ 31 ∧
    (triangle.insertSegment
        (.line (LineSegment2D.ctor (MyPoint.mk2 5 5) (MyPoint.mk2 6 6)))
        ((1 : Nat) : Int)).2.segments[1]?
      = some (.line (LineSegment2D.ctor (MyPoint.mk2 5 5) (MyPoint.mk2 6 6))) :=
  have hp : 1 ≤ triangle.getSegmentCount := by
    simp [Contour2D.getSegmentCount, triangle, buildByAdds_segments]
  have hsize : triangle.getSegmentCount < 2 ^ 31 := by
    simp [Contour2D.getSegmentCount, triangle, buildByAdds_segments]
  ⟨hp, hsize, (C6_insertSegment_splice triangle _ 1 hp hsize).2.2.1⟩

theorem getSegmentAt_ok (c : Contour2D) (i : Nat) (h : i < c.segments.length) :
    (c.getSegmentAt i).1 = .ok (c.segments[i]) := by
  unfold Contour2D.getSegmentAt
  have : ¬ i ≥ c.segments.length := by omega
  simp [this]

/-- C7: with `count + 1` in the range of `int` and `0 <= p < count`,
`removeSegment(p)` succeeds and yields `S` without its `p`-th segment: the count
drops by one and `getSegmentAt(i)` afterwards returns old `S[i]` for `i < p` and
old `S[i+1]` for `i >= p`.  A following `insertSegment` that does not throw
restores the count, and `insertSegment(seg, p)` followed by `removeSegment(p)`
restores the sequence `S`. -/
theorem C7_removeSegment_deletes (c : Contour2D) (p : Nat)
    (hp : p < c.segments.length) (hsize : c.segments.length + 1 < 2 ^ 31) :
    (c.removeSegment (p : Int)).1 = .ok () ∧
    (c.removeSegment (p : Int)).2.segments = c.segments.take p ++ c.segments.drop (p + 1) ∧
    (c.removeSegment (p : Int)).2.getSegmentCount + 1 = c.getSegmentCount ∧
    (∀ (i : Nat) (_ : i + 1 < c.segments.length),
      ((c.removeSegment (p : Int)).2.getSegmentAt i).1
        = .ok (if i < p then c.segments[i] else c.segments[i + 1])) ∧
    (∀ (seg : Segment2D) (q : Int),
      threw ((c.removeSegment (p : Int)).2.insertSegment seg q).1 = false →
      ((c.removeSegment (p : Int)).2.insertSegment seg q).2.getSegmentCount
        = c.getSegmentCount) ∧
    (∀ seg : Segment2D,
      (c.insertSegment seg (p : Int)).1 = .ok () ∧
      ((c.insertSegment seg (p : Int)).2.removeSegment (p : Int)).1 = .ok () ∧
      ((c.insertSegment seg (p : Int)).2.removeSegment (p : Int)).2.segments = c.segments) := by
  have hsz : c.segments.length < 2 ^ 31 := by omega
  have hrm := removeSegment_ok c p hp hsz
  have hlen : (c.segments.eraseIdx p).length + 1 = c.segments.length := by
    rw [List.length_eraseIdx, if_pos hp]; omega
  refine ⟨by rw [hrm], ?_, ?_, ?_, ?_, ?_⟩
  · rw [hrm]
    exact List.eraseIdx_eq_take_drop_succ c.segments p
  · rw [hrm]
    exact hlen
  · intro i hi
    rw [hrm]
    have hi2 : i < (c.segments.eraseIdx p).length := by omega
    rw [getSegmentAt_ok _ i hi2]
    refine congrArg Except.ok ?_
    show (c.segments.eraseIdx p)[i] = _
    rw [List.getElem_eraseIdx]
    split_ifs <;> rfl
  · intro seg q hq
    rw [hrm] at hq ⊢
    unfold Contour2D.insertSegment at hq ⊢
    dsimp only at hq ⊢
    rw [static_cast_int_of_lt _ (by omega)] at hq ⊢
    split_ifs at hq ⊢ with hcond
    · simp [threw] at hq
    · push_neg at hcond
      have hq2 : q.toNat ≤ (c.segments.eraseIdx p).length := by omega
      show (List.insertIdx q.toNat seg (c.segments.eraseIdx p)).length = c.segments.length
      rw [List.length_insertIdx _ _ hq2]
      exact hlen
  · intro seg
    have hins := insertSegment_ok c seg p hp.le hsz
    rw [hins]
    refine ⟨rfl, ?_⟩
    have hlen2 : (c.segments.insertIdx p seg).length = c.segments.length + 1 :=
      List.length_insertIdx p c.segments hp.le
    have hrm2 := removeSegment_ok
      { segments := c.segments.insertIdx p seg, cachedIsValid := c.cachedIsValid,
        cacheValidity := false } p
      (by show p < (c.segments.insertIdx p seg).length; omega)
      (by show (c.segments.insertIdx p seg).length < 2 ^ 31; omega)
    rw [hrm2]
    exact ⟨rfl, List.eraseIdx_insertIdx p c.segments⟩

/-- Witness for C7: removing position 1 of the triangle leaves 2 segments. -/
theorem C7_removeSegment_deletes_witness :
    1 < triangle.segments.length ∧ triangle.segments.length + 1 < 2 ^ 31 ∧
    (triangle.removeSegment ((1 : Nat) : Int)).2.getSegmentCount + 1
      = triangle.getSegmentCount :=
  have hp : 1 < triangle.segments.length := by
    simp [triangle, buildByAdds_segments]
  have hsize : triangle.segments.length + 1 < 2 ^ 31 := by
    simp [triangle, buildByAdds_segments]
  ⟨hp, hsize, (C7_removeSegment_deletes triangle 1 hp hsize).2.2.1⟩

theorem assign_segments (self other : Contour2D) :
    (self.assign other).segments = other.segments := by
  simp [Contour2D.assign, clone_loop_eq]

theorem broken_segments :
    broken.segments =
      [.line (LineSegment2D.ctor (MyPoint.mk2 0 0) (MyPoint.mk2 1 0)),
       .line (LineSegment2D.ctor (MyPoint.mk2 5 5) (MyPoint.mk2 6 6))] := by
  simp [broken, buildByAdds_segments, AddCall.segment]

theorem broken_isValid : broken.isValid.1 = false := by
  unfold broken
  rw [isValid_of_stale _ (buildByAdds_cacheValidity _)]
  show isValidLoop broken.segments = false
  rw [broken_segments, isValidLoop_cons_cons]
  have : ¬ ((MyPoint.mk2 1 0).distanceTo_2D (MyPoint.mk2 5 5) ≤ epsilon) := by
    rw [dist_le_iff _ _ _ epsilon_pos.le]
    simp only [MyPoint.mk2, epsilon, defaultEpsilon]
    norm_num
  simp [Segment2D.getPointA, Segment2D.getPointB, line_ctor_pointA, line_ctor_pointB, this]

/-- C8 (the code at the failing input): `c2` is default-constructed and
queried with `isValid()`, then assigned from the disconnected contour `broken`.
The assignment copies the two segments and leaves `broken` as it is, but
`c2.isValid()` still answers `true`, the value cached for the empty contour,
while `broken.isValid()` is `false`. -/
theorem C8_assign_keeps_stale_cache :
    assignedAfterQuery.getSegmentCount = broken.getSegmentCount ∧
    assignedAfterQuery.cacheValidity = true ∧
    assignedAfterQuery.isValid.1 = true ∧
    broken.isValid.1 = false := by
  refine ⟨?_, rfl, rfl, broken_isValid⟩
  simp [Contour2D.getSegmentCount, assignedAfterQuery, assign_segments]

theorem dist_translate (p q : MyPoint) (dx dy : ℝ) :
    MyPoint.distanceTo_2D ⟨p.x + dx, p.y + dy, p.z⟩ ⟨q.x + dx, q.y + dy, q.z⟩
      = p.distanceTo_2D q := by
  unfold MyPoint.distanceTo_2D
  congr 1
  ring

theorem connected_move (segs : List Segment2D) (dx dy : ℝ) :
    Connected (segs.map (fun segPtr => segPtr.move dx dy)) ↔ Connected segs := by
  unfold Connected
  constructor
  · intro h i hi
    have := h i (by simpa using hi)
    simpa [seg_move_pointA, seg_move_pointB, dist_translate] using this
  · intro h i hi
    have := h i (by simpa using hi)
    simpa [seg_move_pointA, seg_move_pointB, dist_translate] using this

theorem twoLines_segments :
    twoLines.segments =
      [.line (LineSegment2D.ctor (MyPoint.mk2 0 0) (MyPoint.mk2 1 0)),
       .line (LineSegment2D.ctor (MyPoint.mk2 1 0) (MyPoint.mk2 2 0))] := by
  simp [twoLines, buildByAdds_segments, AddCall.segment]

theorem twoLines_isValid :
    twoLines.isValid = (true,
      { segments := twoLines.segments, cachedIsValid := true, cacheValidity := true }) := by
  have hst : twoLines.cacheValidity = false := by
    unfold twoLines; exact buildByAdds_cacheValidity _
  have hloop : isValidLoop twoLines.segments = true := by
    rw [twoLines_segments, isValidLoop_cons_cons, isValidLoop_single]
    simp [Segment2D.getPointA, Segment2D.getPointB, line_ctor_pointA, line_ctor_pointB,
      dist_self, epsilon_pos.le]
  rw [isValid_of_stale _ hst, hloop]

theorem segmentMovedAfterQuery_eq :
    segmentMovedAfterQuery =
      { segments :=
          [.line (LineSegment2D.ctor (MyPoint.mk2 0 0) (MyPoint.mk2 1 0)),
           (Segment2D.line (LineSegment2D.ctor (MyPoint.mk2 1 0) (MyPoint.mk2 2 0))).move 5 5]
        cachedIsValid := true
        cacheValidity := true } := by
  unfold segmentMovedAfterQuery
  rw [twoLines_isValid, twoLines_segments]
  rfl

/-- C10 (as stated, at a reachable contour): two connected lines are added,
`isValid()` is called and returns `true`, the second segment is moved by
`(5, 5)` through `getSegmentAt(1)`, and the contour is moved by `(1, 1)`.
`isValid()` then returns `true`, the value it had before the move, although the
junction of the moved segments is more than `epsilon` apart, so the
connectivity recomputed from the moved segments is false. -/
theorem C10_stale_cache_counterexample :
    (segmentMovedAfterQuery.move 1 1).isValid.1 = true ∧
    segmentMovedAfterQuery.isValid.1 = true ∧
    ¬ Connected (segmentMovedAfterQuery.move 1 1).segments ∧
    ∃ h : 0 + 1 < (segmentMovedAfterQuery.move 1 1).segments.length,
      ((segmentMovedAfterQuery.move 1 1).segments[0]).getPointB.distanceTo_2D
        ((segmentMovedAfterQuery.move 1 1).segments[0 + 1]).getPointA > (1e-5 : ℝ) := by
  have hsegs : (segmentMovedAfterQuery.move 1 1).segments =
      [(Segment2D.line (LineSegment2D.ctor (MyPoint.mk2 0 0) (MyPoint.mk2 1 0))).move 1 1,
       ((Segment2D.line (LineSegment2D.ctor (MyPoint.mk2 1 0) (MyPoint.mk2 2 0))).move 5 5).move
         1 1] := by
    rw [segmentMovedAfterQuery_eq]
    rfl
  have hgt : ((Segment2D.line (LineSegment2D.ctor (MyPoint.mk2 0 0) (MyPoint.mk2 1 0))).move 1 1
        ).getPointB.distanceTo_2D
      (((Segment2D.line (LineSegment2D.ctor (MyPoint.mk2 1 0) (MyPoint.mk2 2 0))).move 5 5).move
        1 1).getPointA > (1e-5 : ℝ) := by
    rw [seg_move_pointA, seg_move_pointB, dist_translate]
    rw [dist_gt_iff _ _ _ (by norm_num)]
    simp only [seg_move_pointA]
    simp only [Segment2D.getPointA, Segment2D.getPointB, line_ctor_pointA,
      line_ctor_pointB, MyPoint.mk2]
    norm_num
  have hex : ∃ h : 0 + 1 < (segmentMovedAfterQuery.move 1 1).segments.length,
      ((segmentMovedAfterQuery.move 1 1).segments[0]).getPointB.distanceTo_2D
        ((segmentMovedAfterQuery.move 1 1).segments[0 + 1]).getPointA > (1e-5 : ℝ) := by
    refine ⟨by rw [hsegs]; simp, ?_⟩
    simpa [hsegs] using hgt
  refine ⟨?_, ?_, ?_, hex⟩
  · rw [segmentMovedAfterQuery_eq]; rfl
  · rw [segmentMovedAfterQuery_eq]; rfl
  · intro hconn
    obtain ⟨h, hlt⟩ := hex
    exact absurd (hconn 0 h) (not_le.mpr hlt)

/-! ## Lemmas on the store -/

theorem load_fresh (l m : List Segment2D) :
    (List.range' l.length m.length).filterMap (fun p => (l ++ m)[p]?) = m := by
  induction m generalizing l with
  | nil => simp
  | cons v m ih =>
    rw [List.length_cons, List.range'_succ, List.filterMap_cons]
    have h0 : (l ++ v :: m)[l.length]? = some v := by
      rw [List.getElem?_append_right (le_refl _)]; simp
    rw [h0]
    have := ih (l ++ [v])
    simp only [List.length_append, List.length_singleton, List.append_assoc,
      List.singleton_append] at this
    simp [this]

theorem filterMap_frame (ptrs : List Nat) (l l2 : List Segment2D)
    (hwf : ∀ p ∈ ptrs, p < l.length)
    (hsame : ∀ p, p < l.length → l2[p]? = l[p]?) :
    ptrs.filterMap (fun p => l2[p]?) = ptrs.filterMap (fun p => l[p]?) :=
  List.filterMap_congr (fun p hp => hsame p (hwf p hp))

theorem filterMap_length_of_wf (ptrs : List Nat) (l : List Segment2D)
    (hwf : ∀ p ∈ ptrs, p < l.length) :
    (ptrs.filterMap (fun p => l[p]?)).length = ptrs.length := by
  induction ptrs with
  | nil => rfl
  | cons p rest ih =>
    have hp : p < l.length := hwf p (by simp)
    have hrest : ∀ q ∈ rest, q < l.length := fun q hq => hwf q (by simp [hq])
    simp [List.filterMap_cons, List.getElem?_eq_getElem hp, ih hrest]

theorem copy_loop (ptrs : List Nat) (st : Store) (out : List Nat)
    (hwf : ∀ p ∈ ptrs, p < st.cells.length) :
    ptrs.foldl copyCtorStep (st, out) =
      (⟨st.cells ++ ptrs.filterMap (fun p => st.cells[p]?)⟩,
        out ++ List.range' st.cells.length ptrs.length) := by
  induction ptrs generalizing st out with
  | nil => simp
  | cons p rest ih =>
    have hp : p < st.cells.length := hwf p (by simp)
    have hrest : ∀ q ∈ rest, q < st.cells.length := fun q hq => hwf q (by simp [hq])
    have hstep : copyCtorStep (st, out) p
        = (⟨st.cells ++ [st.cells[p]]⟩, out ++ [st.cells.length]) := by
      simp [copyCtorStep, List.getElem?_eq_getElem hp, Store.make_unique, clone_eq]
    rw [List.foldl_cons, hstep, ih]
    · have hfm : rest.filterMap (fun q => (st.cells ++ [st.cells[p]])[q]?)
          = rest.filterMap (fun q => st.cells[q]?) :=
        filterMap_frame rest st.cells _ hrest
          (fun q hq => List.getElem?_append_left hq)
      simp [hfm, List.filterMap_cons, List.getElem?_eq_getElem hp, List.range'_succ]
    · intro q hq
      have := hrest q hq
      simp only [List.length_append, List.length_singleton]
      omega

theorem moveAt_length (st : Store) (p : Nat) (dx dy : ℝ) :
    (st.moveAt p dx dy).cells.length = st.cells.length := by
  unfold Store.moveAt
  split <;> simp

theorem moveAt_frame (st : Store) (p q : Nat) (dx dy : ℝ) (h : p ≠ q) :
    (st.moveAt p dx dy).cells[q]? = st.cells[q]? := by
  unfold Store.moveAt
  split
  · simp [List.getElem?_set, h]
  · rfl

theorem move_loop_frame (ptrs : List Nat) (st : Store) (dx dy : ℝ) (n : Nat)
    (hge : ∀ p ∈ ptrs, n ≤ p) (q : Nat) (hq : q < n) :
    (ptrs.foldl (fun s segPtr => s.moveAt segPtr dx dy) st).cells[q]? = st.cells[q]? := by
  induction ptrs generalizing st with
  | nil => rfl
  | cons p rest ih =>
    have hp : n ≤ p := hge p (by simp)
    rw [List.foldl_cons, ih _ (fun r hr => hge r (by simp [hr]))]
    exact moveAt_frame st p q dx dy (by omega)

theorem move_loop_fresh (l m : List Segment2D) (dx dy : ℝ) :
    (List.range' l.length m.length).foldl (fun s segPtr => s.moveAt segPtr dx dy)
        (Store.mk (l ++ m))
      = Store.mk (l ++ m.map (fun obj => obj.move dx dy)) := by
  induction m generalizing l with
  | nil => simp
  | cons v m ih =>
    rw [List.length_cons, List.range'_succ, List.foldl_cons]
    have h0 : (l ++ v :: m)[l.length]? = some v := by
      rw [List.getElem?_append_right (le_refl _)]; simp
    have hstep : (Store.mk (l ++ v :: m)).moveAt l.length dx dy
        = Store.mk ((l ++ [v.move dx dy]) ++ m) := by
      simp [Store.moveAt, h0, List.set_append]
    rw [hstep]
    have := ih (l ++ [v.move dx dy])
    simp only [List.length_append, List.length_singleton] at this
    rw [this]
    simp

theorem copyCtor_eq (st : Store) (c : Contour2DMem)
    (hwf : ∀ p ∈ c.segments, p < st.cells.length) :
    Contour2DMem.copyCtor st c =
      (⟨st.cells ++ (c.load st).segments⟩,
        { segments := List.range' st.cells.length (c.load st).segments.length
          cachedIsValid := false
          cacheValidity := false }) := by
  unfold Contour2DMem.copyCtor
  rw [copy_loop c.segments st [] hwf]
  simp [Contour2DMem.load, filterMap_length_of_wf c.segments st.cells hwf]

theorem load_frame (c : Contour2DMem) (st st2 : Store)
    (hwf : ∀ p ∈ c.segments, p < st.cells.length)
    (hsame : ∀ p, p < st.cells.length → st2.cells[p]? = st.cells[p]?) :
    c.load st2 = c.load st := by
  unfold Contour2DMem.load
  rw [filterMap_frame c.segments st.cells st2.cells hwf hsame]

theorem value_copyCtor_eq (c : Contour2D) :
    c.copyCtor = { segments := c.segments, cachedIsValid := false, cacheValidity := false } := by
  simp [Contour2D.copyCtor, clone_loop_eq]

/-- C9: let `c` be a contour object whose pointers designate live segments,
in any cache state, and let `cp` be copy-constructed from it.  Then `cp` has the
same segment count and at every index a segment of the same kind and field
values (it is the value-level copy of `c`), its cache is stale, and `isValid()`
on it is the connectivity of the segments of `c`.  The construction does not
touch `c`; and after `cp.move(dx, dy)`, or after
`cp.getSegmentAt(i).move(dx, dy)`, the contour `c` is what it was, every
segment field and so every endpoint coordinate and the result of `c.isValid()`,
while the segments of `cp` did move. -/
theorem C9_copy_independent (st st1 : Store) (c cp : Contour2DMem)
    (hwf : ∀ p ∈ c.segments, p < st.cells.length)
    (hcopy : Contour2DMem.copyCtor st c = (st1, cp)) :
    (cp.load st1).getSegmentCount = (c.load st).getSegmentCount ∧
    (cp.load st1).segments = (c.load st).segments ∧
    cp.load st1 = (c.load st).copyCtor ∧
    (cp.load st1).cacheValidity = false ∧
    ((cp.load st1).isValid.1 = true ↔ Connected (c.load st).segments) ∧
    c.load st1 = c.load st ∧
    (∀ dx dy : ℝ,
      c.load (cp.move st1 dx dy) = c.load st ∧
      (c.load (cp.move st1 dx dy)).isValid.1 = (c.load st).isValid.1 ∧
      (cp.load (cp.move st1 dx dy)).segments
        = (c.load st).segments.map (fun seg => seg.move dx dy)) ∧
    (∀ (i : Nat) (dx dy : ℝ),
      c.load (cp.moveSegmentAt st1 i dx dy).2 = c.load st ∧
      (c.load (cp.moveSegmentAt st1 i dx dy).2).isValid.1 = (c.load st).isValid.1) := by
  rw [copyCtor_eq st c hwf] at hcopy
  have hst1 : st1 = ⟨st.cells ++ (c.load st).segments⟩ := (congrArg Prod.fst hcopy).symm
  have hcp : cp = { segments := List.range' st.cells.length (c.load st).segments.length
                    cachedIsValid := false
                    cacheValidity := false } := (congrArg Prod.snd hcopy).symm
  have hsegs : (cp.load st1).segments = (c.load st).segments := by
    rw [hst1, hcp]
    exact load_fresh st.cells (c.load st).segments
  have hload : cp.load st1 = (c.load st).copyCtor := by
    rw [value_copyCtor_eq, ← hsegs, hcp]
    rfl
  have hstale : (cp.load st1).cacheValidity = false := by rw [hcp]; rfl
  have horig : c.load st1 = c.load st := by
    apply load_frame c st st1 hwf
    intro p hp
    rw [hst1]
    exact List.getElem?_append_left hp
  have hbase : ∀ p, p < st.cells.length → st1.cells[p]? = st.cells[p]? := by
    intro p hp
    rw [hst1]
    exact List.getElem?_append_left hp
  have hfresh : ∀ p ∈ cp.segments, st.cells.length ≤ p := by
    intro p hp
    rw [hcp] at hp
    exact (List.mem_range'_1.mp hp).1
  refine ⟨by rw [Contour2D.getSegmentCount, Contour2D.getSegmentCount, hsegs], hsegs, hload,
    hstale, ?_, horig, ?_, ?_⟩
  · rw [isValid_fst_of_consistent _ (consistent_of_stale _ hstale), hsegs]
  · intro dx dy
    have hkeep : c.load (cp.move st1 dx dy) = c.load st := by
      apply load_frame c st _ hwf
      intro q hq
      rw [← hbase q hq]
      exact move_loop_frame cp.segments st1 dx dy st.cells.length hfresh q hq
    refine ⟨hkeep, by rw [hkeep], ?_⟩
    have hmoved : cp.move st1 dx dy
        = Store.mk (st.cells ++ (c.load st).segments.map (fun obj => obj.move dx dy)) := by
      rw [hst1, hcp]
      exact move_loop_fresh st.cells (c.load st).segments dx dy
    rw [hmoved, hcp]
    have := load_fresh st.cells ((c.load st).segments.map (fun obj => obj.move dx dy))
    rw [List.length_map] at this
    exact this
  · intro i dx dy
    have hkeep : c.load (cp.moveSegmentAt st1 i dx dy).2 = c.load st := by
      unfold Contour2DMem.moveSegmentAt Contour2DMem.getSegmentAt
      split_ifs with hi
      · exact horig
      · apply load_frame c st _ hwf
        intro q hq
        rw [← hbase q hq]
        have hmem : cp.segments[i] ∈ cp.segments := List.getElem_mem _
        have hge := hfresh _ hmem
        exact moveAt_frame st1 _ q dx dy (by omega)
    exact ⟨hkeep, by rw [hkeep]⟩

/-- Witness for C9: the contour object over `demoStore` is copy-constructed and
the copy moved by `(1, 2)`; the original contour is what it was. -/
theorem C9_copy_independent_witness :
    (∀ p ∈ demoContour.segments, p < demoStore.cells.length) ∧
    demoContour.load
        ((Contour2DMem.copyCtor demoStore demoContour).2.move
          (Contour2DMem.copyCtor demoStore demoContour).1 1 2)
      = demoContour.load demoStore :=
  have hwf : ∀ p ∈ demoContour.segments, p < demoStore.cells.length := by
    simp [demoContour, demoStore]
  ⟨hwf, ((C9_copy_independent demoStore (Contour2DMem.copyCtor demoStore demoContour).1
      demoContour (Contour2DMem.copyCtor demoStore demoContour).2 hwf rfl).2.2.2.2.2.2.1 1 2).1⟩

/-- Witness for C1: a contour of one segment is valid. -/
theorem C1_isValid_iff_connected_witness :
    (buildByAdds
      [.byPtr (.line (LineSegment2D.ctor (MyPoint.mk2 0 0) (MyPoint.mk2 1 0)))]).isValid.1
      = true :=
  (C1_isValid_iff_connected
    [.byPtr (.line (LineSegment2D.ctor (MyPoint.mk2 0 0) (MyPoint.mk2 1 0)))]).2
    (by simp [Contour2D.getSegmentCount, buildByAdds_segments])

/-- Witness for C3: after two adds and an `isValid()` the flag is set and the
cached value is the connectivity of the two segments. -/
theorem C3_cache_invariant_witness :
    (runOps brokenThenQuery).cacheValidity = true ∧
    ((runOps brokenThenQuery).cachedIsValid = true ↔
      Connected (runOps brokenThenQuery).segments) :=
  ⟨rfl, (C3_cache_invariant brokenThenQuery).1 rfl⟩

/-- Witness for C4: a line followed by an arc that starts where the line ends
is a valid contour of two segments. -/
theorem C4_endpoints_kept_and_chain_valid_witness :
    (contourOf lineThenArc).getSegmentCount = lineThenArc.length ∧
    (contourOf lineThenArc).isValid.1 = true :=
  C4_endpoints_kept_and_chain_valid.2.2.1 lineThenArc (by simp [lineThenArc])
    (by
      intro i h
      have hi : i = 0 := by
        simp [lineThenArc] at h
        omega
      subst hi
      rfl)

/-! ## Arc geometry -/

theorem chord_eq_dist (a b : MyPoint) :
    Real.sqrt ((b.x - a.x) * (b.x - a.x) + (b.y - a.y) * (b.y - a.y)) = a.distanceTo_2D b := by
  unfold MyPoint.distanceTo_2D
  congr 1
  ring

theorem calc_radius (s : ArcSegment2D) :
    s.calculateFromEndpoints.radius =
      if s.pointA.distanceTo_2D s.pointB / 2 > s.radius then
        s.pointA.distanceTo_2D s.pointB / 2 * 1.1
      else s.radius := by
  rw [← chord_eq_dist]
  rfl

theorem calc_radius_ge (s : ArcSegment2D) :
    s.pointA.distanceTo_2D s.pointB / 2 ≤ s.calculateFromEndpoints.radius := by
  rw [calc_radius]
  have h0 : 0 ≤ s.pointA.distanceTo_2D s.pointB := Real.sqrt_nonneg _
  split_ifs with h
  · nlinarith
  · exact not_lt.mp h

theorem calc_clockwise (s : ArcSegment2D) :
    s.calculateFromEndpoints.clockwise = s.clockwise := rfl

/-- C13: the arc built from `(a, b, r, direction)` stores radius `r` when
`dist2D(a, b) / 2 <= r` and `1.1 * dist2D(a, b) / 2` otherwise, so the stored
radius is never smaller than the half chord; for `a = (0,0)`, `b = (10,0)`,
`r = 1` the stored radius is `5.5`. -/
theorem C13_radius_clamp :
    (∀ (a b : MyPoint) (r : ℝ) (clockwise : Bool),
      (a.distanceTo_2D b / 2 ≤ r → (ArcSegment2D.ctorEndpoints a b r clockwise).radius = r) ∧
      (¬ a.distanceTo_2D b / 2 ≤ r →
        (ArcSegment2D.ctorEndpoints a b r clockwise).radius = 1.1 * (a.distanceTo_2D b / 2)) ∧
      a.distanceTo_2D b / 2 ≤ (ArcSegment2D.ctorEndpoints a b r clockwise).radius) ∧
    (∀ clockwise : Bool,
      (ArcSegment2D.ctorEndpoints (MyPoint.mk2 0 0) (MyPoint.mk2 10 0) 1 clockwise).radius
        = 5.5) := by
  have hrad : ∀ (a b : MyPoint) (r : ℝ) (cw : Bool),
      (ArcSegment2D.ctorEndpoints a b r cw).radius =
        if a.distanceTo_2D b / 2 > r then a.distanceTo_2D b / 2 * 1.1 else r := by
    intro a b r cw
    unfold ArcSegment2D.ctorEndpoints
    rw [calc_radius]
  refine ⟨fun a b r cw => ⟨?_, ?_, ?_⟩, ?_⟩
  · intro h
    rw [hrad, if_neg (not_lt.mpr h)]
  · intro h
    rw [hrad, if_pos (not_le.mp h)]
    ring
  · exact calc_radius_ge
      { radius := r, startAngle := 0, endAngle := 0, length_ := 0, clockwise := cw,
        center := MyPoint.mk2 0 0, pointA := a, pointB := b }
  · intro cw
    have hd : (MyPoint.mk2 0 0).distanceTo_2D (MyPoint.mk2 10 0) = 10 := by
      simp only [MyPoint.distanceTo_2D, MyPoint.mk2]
      rw [Real.sqrt_eq_iff_mul_self_eq (by norm_num) (by norm_num)]
      norm_num
    have h1 := hrad (MyPoint.mk2 0 0) (MyPoint.mk2 10 0) 1 cw
    rw [hd] at h1
    rw [h1]
    norm_num

theorem length_eq (s : ArcSegment2D) : s.length.length_ = s.radius * s.sweep := rfl

theorem calc_length (s : ArcSegment2D) :
    s.calculateFromEndpoints.length_
      = s.calculateFromEndpoints.radius * s.calculateFromEndpoints.sweep := rfl

theorem single_isClosedShape (s : Segment2D) :
    (buildByAdds [.byPtr s]).isClosedShape.1 = true ↔
      (s.isNonZeroLength epsilon = true ∧ s.getPointA.distanceTo_2D s.getPointB < epsilon) := by
  have hv : (buildByAdds [.byPtr s]).isValid.1 = true := by
    rw [isValid_of_stale _ (buildByAdds_cacheValidity _)]
    rfl
  exact isClosedShape_single _ s rfl hv

/-- The centre computed by `calculateFromEndpoints`, written with the half
chord vector `(ex, ey)`, the clamped radius `R` and the chord length `L`. -/
theorem calc_center (s : ArcSegment2D) :
    s.calculateFromEndpoints.center =
      MyPoint.mk2
        ((s.pointB.x + s.pointA.x) / 2 +
          Real.sqrt (s.calculateFromEndpoints.radius * s.calculateFromEndpoints.radius
              - (Real.sqrt ((s.pointB.x - s.pointA.x) * (s.pointB.x - s.pointA.x)
                  + (s.pointB.y - s.pointA.y) * (s.pointB.y - s.pointA.y))
                * Real.sqrt ((s.pointB.x - s.pointA.x) * (s.pointB.x - s.pointA.x)
                  + (s.pointB.y - s.pointA.y) * (s.pointB.y - s.pointA.y))) / 4)
            * (if !s.clockwise then
                -(-(s.pointB.y - s.pointA.y)
                  / Real.sqrt (-(s.pointB.y - s.pointA.y) * -(s.pointB.y - s.pointA.y)
                      + (s.pointB.x - s.pointA.x) * (s.pointB.x - s.pointA.x)))
               else
                -(s.pointB.y - s.pointA.y)
                  / Real.sqrt (-(s.pointB.y - s.pointA.y) * -(s.pointB.y - s.pointA.y)
                      + (s.pointB.x - s.pointA.x) * (s.pointB.x - s.pointA.x))))
        ((s.pointB.y + s.pointA.y) / 2 +
          Real.sqrt (s.calculateFromEndpoints.radius * s.calculateFromEndpoints.radius
              - (Real.sqrt ((s.pointB.x - s.pointA.x) * (s.pointB.x - s.pointA.x)
                  + (s.pointB.y - s.pointA.y) * (s.pointB.y - s.pointA.y))
                * Real.sqrt ((s.pointB.x - s.pointA.x) * (s.pointB.x - s.pointA.x)
                  + (s.pointB.y - s.pointA.y) * (s.pointB.y - s.pointA.y))) / 4)
            * (if !s.clockwise then
                -((s.pointB.x - s.pointA.x)
                  / Real.sqrt (-(s.pointB.y - s.pointA.y) * -(s.pointB.y - s.pointA.y)
                      + (s.pointB.x - s.pointA.x) * (s.pointB.x - s.pointA.x)))
               else
                (s.pointB.x - s.pointA.x)
                  / Real.sqrt (-(s.pointB.y - s.pointA.y) * -(s.pointB.y - s.pointA.y)
                      + (s.pointB.x - s.pointA.x) * (s.pointB.x - s.pointA.x)))) := rfl

theorem calc_angles_def (s : ArcSegment2D) :
    s.calculateFromEndpoints.startAngle
      = atan2 (s.pointA.y - s.calculateFromEndpoints.center.y)
          (s.pointA.x - s.calculateFromEndpoints.center.x) ∧
    s.calculateFromEndpoints.endAngle
      = atan2 (s.pointB.y - s.calculateFromEndpoints.center.y)
          (s.pointB.x - s.calculateFromEndpoints.center.x) := ⟨rfl, rfl⟩

theorem arc_move_eq (s : ArcSegment2D) (dx dy : ℝ) :
    s.move dx dy = (s.shiftEndpoints dx dy).calculateFromEndpoints := rfl

/-- The centre in closed form when the radius is not clamped: `ρ` is the ratio
of the centre offset to the chord length. -/
theorem calc_center_ratio (s : ArcSegment2D) (ρ : ℝ)
    (hQ : 0 < (s.pointB.x - s.pointA.x) * (s.pointB.x - s.pointA.x)
      + (s.pointB.y - s.pointA.y) * (s.pointB.y - s.pointA.y))
    (hr : 0 ≤ s.radius)
    (hfit : (s.pointB.x - s.pointA.x) * (s.pointB.x - s.pointA.x)
      + (s.pointB.y - s.pointA.y) * (s.pointB.y - s.pointA.y) ≤ (2 * s.radius) ^ 2)
    (hρ0 : 0 ≤ ρ)
    (hρ : ρ * ρ * ((s.pointB.x - s.pointA.x) * (s.pointB.x - s.pointA.x)
      + (s.pointB.y - s.pointA.y) * (s.pointB.y - s.pointA.y))
      = s.radius * s.radius - ((s.pointB.x - s.pointA.x) * (s.pointB.x - s.pointA.x)
      + (s.pointB.y - s.pointA.y) * (s.pointB.y - s.pointA.y)) / 4) :
    s.calculateFromEndpoints.radius = s.radius ∧
    s.calculateFromEndpoints.center =
      MyPoint.mk2
        ((s.pointB.x + s.pointA.x) / 2
          + ρ * (if !s.clockwise then s.pointB.y - s.pointA.y else -(s.pointB.y - s.pointA.y)))
        ((s.pointB.y + s.pointA.y) / 2
          + ρ * (if !s.clockwise then -(s.pointB.x - s.pointA.x)
              else s.pointB.x - s.pointA.x)) := by
  have hR : s.calculateFromEndpoints.radius = s.radius := by
    rw [calc_radius, ← chord_eq_dist]
    apply if_neg
    have : Real.sqrt ((s.pointB.x - s.pointA.x) * (s.pointB.x - s.pointA.x)
        + (s.pointB.y - s.pointA.y) * (s.pointB.y - s.pointA.y)) ≤ 2 * s.radius :=
      (Real.sqrt_le_left (by linarith)).mpr hfit
    linarith
  refine ⟨hR, ?_⟩
  rw [calc_center, hR]
  have hmag : -(s.pointB.y - s.pointA.y) * -(s.pointB.y - s.pointA.y)
      + (s.pointB.x - s.pointA.x) * (s.pointB.x - s.pointA.x)
      = (s.pointB.x - s.pointA.x) * (s.pointB.x - s.pointA.x)
      + (s.pointB.y - s.pointA.y) * (s.pointB.y - s.pointA.y) := by ring
  rw [hmag, Real.mul_self_sqrt hQ.le, ← hρ, Real.sqrt_mul (mul_self_nonneg ρ),
    Real.sqrt_mul_self hρ0]
  have hL0 : Real.sqrt ((s.pointB.x - s.pointA.x) * (s.pointB.x - s.pointA.x)
      + (s.pointB.y - s.pointA.y) * (s.pointB.y - s.pointA.y)) ≠ 0 :=
    ne_of_gt (Real.sqrt_pos.mpr hQ)
  generalize Real.sqrt ((s.pointB.x - s.pointA.x) * (s.pointB.x - s.pointA.x)
      + (s.pointB.y - s.pointA.y) * (s.pointB.y - s.pointA.y)) = L at hL0
  simp only [MyPoint.mk2, MyPoint.mk.injEq, and_true]
  constructor
  · split_ifs <;> field_simp <;> ring
  · split_ifs <;> field_simp <;> ring

/-! ## The polyline builder -/

theorem polylineStep_foldl (pairs : List (MyPoint × MyPoint)) (c : Contour2D)
    (hc : c.cacheValidity = false) :
    pairs.foldl polylineStep c =
      { segments := c.segments ++ pairs.filterMap keptSpan
        cachedIsValid := c.cachedIsValid
        cacheValidity := false } := by
  induction pairs generalizing c with
  | nil =>
    cases c
    simp at hc ⊢
    exact hc
  | cons p rest ih =>
    rw [List.foldl_cons]
    by_cases hp : p.1.distanceTo_2D p.2 > defaultEpsilon
    · have hstep : polylineStep c p = c.addSegment (.line (LineSegment2D.ctor p.1 p.2)) := by
        simp [polylineStep, hp]
      rw [hstep, ih _ rfl]
      simp [Contour2D.addSegment, List.filterMap_cons, keptSpan, hp]
    · have hstep : polylineStep c p = c := by simp [polylineStep, hp]
      rw [hstep, ih _ hc]
      simp [List.filterMap_cons, keptSpan, hp]

theorem zip_tail_eq_range (P : List MyPoint) :
    P.zip P.tail = (List.range (P.length - 1)).filterMap
      (fun i => match P[i]?, P[i + 1]? with
        | some a, some b => some (a, b)
        | _, _ => none) := by
  induction P with
  | nil => simp
  | cons a rest ih =>
    cases rest with
    | nil => simp
    | cons b rest2 =>
      have hlen : (a :: b :: rest2).length - 1 = ((b :: rest2).length - 1) + 1 := by simp
      rw [hlen, List.range_succ_eq_map, List.filterMap_cons]
      simp only [List.tail_cons, List.zip_cons_cons, List.getElem?_cons_zero,
        List.getElem?_cons_succ, List.filterMap_map]
      rw [List.tail_cons] at ih
      rw [ih]
      congr 1
      apply List.filterMap_congr
      intro i _
      simp

theorem kept_eq_spanAt (P : List MyPoint) (i : Nat) :
    (match P[i]?, P[i + 1]? with
      | some a, some b => some (a, b)
      | _, _ => none).bind keptSpan = spanAt P i := by
  unfold spanAt keptSpan defaultEpsilon
  cases P[i]? <;> cases P[i + 1]? <;> simp

theorem polyline_fold (P : List MyPoint) :
    (P.zip P.tail).foldl polylineStep Contour2D.empty =
      { segments := (List.range (P.length - 1)).filterMap (spanAt P)
        cachedIsValid := false
        cacheValidity := false } := by
  rw [polylineStep_foldl _ _ rfl, zip_tail_eq_range, List.filterMap_filterMap]
  simp only [Contour2D.empty, List.nil_append]
  congr 1
  apply List.filterMap_congr
  intro i _
  exact kept_eq_spanAt P i

theorem polyline_segments (P : List MyPoint) (close : Bool) :
    (polylineContourFromPoints P close).segments = polylineSpec P close := by
  unfold polylineContourFromPoints polylineSpec closingSpan
  cases hh : P.head? with
  | none =>
    have : P = [] := List.head?_eq_none_iff.mp hh
    subst this
    simp [Contour2D.empty]
  | some front =>
    cases hl : P.getLast? with
    | none =>
      have : P = [] := List.getLast?_eq_none_iff.mp hl
      subst this
      simp at hh
    | some back =>
      simp only [polyline_fold]
      cases close with
      | false => simp
      | true =>
        by_cases hd : front.distanceTo_2D back > defaultEpsilon
        · have hd2 : front.distanceTo_2D back > (1e-5 : ℝ) := hd
          simp [hd, hd2, Contour2D.addSegment]
        · have hd2 : ¬ front.distanceTo_2D back > (1e-5 : ℝ) := hd
          simp [hd, hd2]

theorem polyline_cacheValidity (P : List MyPoint) (close : Bool) :
    (polylineContourFromPoints P close).cacheValidity = false := by
  unfold polylineContourFromPoints
  cases hh : P.head? with
  | none => rfl
  | some front =>
    cases hl : P.getLast? with
    | none => rfl
    | some back =>
      simp only [polyline_fold]
      cases close with
      | false => rfl
      | true =>
        by_cases hd : front.distanceTo_2D back > defaultEpsilon
        · simp [hd, Contour2D.addSegment]
        · simp [hd]

theorem spanAt_mem (P : List MyPoint) (i : Nat) (s : Segment2D) (h : spanAt P i = some s) :
    ∃ a b : MyPoint, P[i]? = some a ∧ P[i + 1]? = some b ∧
      a.distanceTo_2D b > (1e-5 : ℝ) ∧
      s = .line (LineSegment2D.ctor a b) := by
  unfold spanAt at h
  cases ha : P[i]? with
  | none => simp [ha] at h
  | some a =>
    cases hb : P[i + 1]? with
    | none => simp [ha, hb] at h
    | some b =>
      simp only [ha, hb] at h
      split_ifs at h with hd
      exact ⟨a, b, rfl, rfl, hd, (Option.some.inj h).symm⟩

theorem polylineSpec_mem (P : List MyPoint) (close : Bool) (s : Segment2D)
    (h : s ∈ polylineSpec P close) :
    ∃ a b : MyPoint, a ∈ P ∧ b ∈ P ∧ a.distanceTo_2D b > (1e-5 : ℝ) ∧
      s = .line (LineSegment2D.ctor a b) := by
  unfold polylineSpec at h
  rcases List.mem_append.mp h with h1 | h2
  · obtain ⟨i, _, hi⟩ := List.mem_filterMap.mp h1
    obtain ⟨a, b, ha, hb, hd, hs⟩ := spanAt_mem P i s hi
    exact ⟨a, b, List.getElem?_mem ha, List.getElem?_mem hb, hd, hs⟩
  · unfold closingSpan at h2
    cases hh : P.head? with
    | none => simp [hh] at h2
    | some first =>
      cases hl : P.getLast? with
      | none => simp [hh, hl] at h2
      | some last =>
        simp only [hh, hl] at h2
        split_ifs at h2 with hc
        · have hs : s = .line (LineSegment2D.ctor last first) := by simpa using h2
          have hd : last.distanceTo_2D first > (1e-5 : ℝ) := by
            have := hc.2
            unfold MyPoint.distanceTo_2D at this ⊢
            have e : (last.x - first.x) ^ 2 + (last.y - first.y) ^ 2
                = (first.x - last.x) ^ 2 + (first.y - last.y) ^ 2 := by ring
            rw [e]
            exact this
          exact ⟨last, first, List.mem_of_mem_getLast? hl, List.mem_of_mem_head? hh, hd, hs⟩
        · simp at h2

theorem dist_on_axis (a b : ℝ) :
    ((MyPoint.mk2 a 0).distanceTo_2D (MyPoint.mk2 b 0) > (1e-5 : ℝ)) ↔ (a - b) ^ 2 > 1e-10 := by
  rw [dist_gt_iff _ _ _ (by norm_num)]
  simp only [MyPoint.mk2]
  norm_num

/-- C18: `polylineContourFromPoints(P, close)` returns the contour whose
segments are, in order, the straight segments `(P[i], P[i+1])` for exactly those
`i` with `dist2D(P[i], P[i+1]) > 1e-5`, followed by one segment
`(P.last, P.first)` iff `close` is set, `P` is non-empty and
`dist2D(P.first, P.last) > 1e-5`.  Every emitted segment has length greater than
`epsilon`, and for `P = [(0,0), (0,0), (1,0)]` with `close = false` the contour
has exactly 1 segment. -/
theorem C18_polyline_segments (P : List MyPoint) (close : Bool) :
    (polylineContourFromPoints P close).segments = polylineSpec P close ∧
    (∀ s ∈ (polylineContourFromPoints P close).segments,
      s.isNonZeroLength (1e-5) = true ∧
      s.getPointA.distanceTo_2D s.getPointB > (1e-5 : ℝ)) ∧
    (polylineContourFromPoints duplicatePoints false).getSegmentCount = 1 := by
  refine ⟨polyline_segments P close, ?_, ?_⟩
  · intro s hs
    rw [polyline_segments] at hs
    obtain ⟨a, b, _, _, hd, rfl⟩ := polylineSpec_mem P close s hs
    constructor
    · simp only [Segment2D.isNonZeroLength, LineSegment2D.isNonZeroLength, line_ctor_length,
        decide_eq_true_eq]
      exact hd
    · simp only [Segment2D.getPointA, Segment2D.getPointB, line_ctor_pointA, line_ctor_pointB]
      exact hd
  · have h1 : ¬ ((MyPoint.mk2 0 0).distanceTo_2D (MyPoint.mk2 0 0) > (1e-5 : ℝ)) := by
      rw [dist_on_axis]; norm_num
    have h2 : (MyPoint.mk2 0 0).distanceTo_2D (MyPoint.mk2 1 0) > (1e-5 : ℝ) := by
      rw [dist_on_axis]; norm_num
    simp [Contour2D.getSegmentCount, polyline_segments, polylineSpec, spanAt, closingSpan,
      duplicatePoints, List.range_succ, h1, h2]

/-- C19 (the code at the failing input): for the points
`(0,0), (1,0), (1.000008,0), (1.000016,0), (2,0)` and `close = false` the builder
skips the two spans between the three crowded points and emits `(0,0)-(1,0)` and
`(1.000016,0)-(2,0)`; the junction `(1,0)`, `(1.000016,0)` is `1.6e-5` apart, so
`isValid()` is false. -/
theorem C19_polyline_gap_invalid :
    (polylineContourFromPoints crowdedPoints false).segments =
      [.line (LineSegment2D.ctor (MyPoint.mk2 0 0) (MyPoint.mk2 1 0)),
       .line (LineSegment2D.ctor (MyPoint.mk2 1.000016 0) (MyPoint.mk2 2 0))] ∧
    (polylineContourFromPoints crowdedPoints false).isValid.1 = false := by
  have h01 : (MyPoint.mk2 0 0).distanceTo_2D (MyPoint.mk2 1 0) > (1e-5 : ℝ) := by
    rw [dist_on_axis]; norm_num
  have h12 : ¬ ((MyPoint.mk2 1 0).distanceTo_2D (MyPoint.mk2 1.000008 0) > (1e-5 : ℝ)) := by
    rw [dist_on_axis]; norm_num
  have h23 : ¬ ((MyPoint.mk2 1.000008 0).distanceTo_2D (MyPoint.mk2 1.000016 0)
      > (1e-5 : ℝ)) := by
    rw [dist_on_axis]; norm_num
  have h34 : (MyPoint.mk2 1.000016 0).distanceTo_2D (MyPoint.mk2 2 0) > (1e-5 : ℝ) := by
    rw [dist_on_axis]; norm_num
  have hgap : ¬ ((MyPoint.mk2 1 0).distanceTo_2D (MyPoint.mk2 1.000016 0) ≤ epsilon) := by
    rw [not_le]
    show _ > (1e-5 : ℝ)
    rw [dist_on_axis]; norm_num
  have hsegs : (polylineContourFromPoints crowdedPoints false).segments =
      [.line (LineSegment2D.ctor (MyPoint.mk2 0 0) (MyPoint.mk2 1 0)),
       .line (LineSegment2D.ctor (MyPoint.mk2 1.000016 0) (MyPoint.mk2 2 0))] := by
    simp [polyline_segments, polylineSpec, spanAt, closingSpan, crowdedPoints, List.range_succ,
      h01, h12, h23, h34]
  refine ⟨hsegs, ?_⟩
  rw [isValid_of_stale _ (polyline_cacheValidity _ _)]
  show isValidLoop (polylineContourFromPoints crowdedPoints false).segments = false
  rw [hsegs, isValidLoop_cons_cons]
  simp [Segment2D.getPointA, Segment2D.getPointB, line_ctor_pointA, line_ctor_pointB, hgap]

theorem chainLines_length (Q : List MyPoint) : (chainLines Q).length = Q.length - 1 := by
  induction Q with
  | nil => rfl
  | cons a rest ih =>
    cases rest with
    | nil => rfl
    | cons b rest2 =>
      simp only [chainLines, List.length_cons] at ih ⊢
      omega

theorem chainLines_valid (Q : List MyPoint) : isValidLoop (chainLines Q) = true := by
  induction Q with
  | nil => rfl
  | cons a rest ih =>
    cases rest with
    | nil => rfl
    | cons b rest2 =>
      cases rest2 with
      | nil => rfl
      | cons c rest3 =>
        simp only [chainLines] at ih ⊢
        rw [isValidLoop_cons_cons, ih]
        simp [Segment2D.getPointA, Segment2D.getPointB, line_ctor_pointA, line_ctor_pointB,
          dist_self, epsilon_pos.le]

theorem chainLines_head (a b : MyPoint) (rest : List MyPoint) :
    (chainLines (a :: b :: rest)).head? = some (.line (LineSegment2D.ctor a b)) := rfl

theorem chainLines_getLast (Q : List MyPoint) (hQ : 2 ≤ Q.length) :
    ∃ (a b : MyPoint), Q.getLast? = some b ∧
      (chainLines Q).getLast? = some (.line (LineSegment2D.ctor a b)) := by
  induction Q with
  | nil => simp at hQ
  | cons a rest ih =>
    cases rest with
    | nil => simp at hQ
    | cons b rest2 =>
      cases rest2 with
      | nil => exact ⟨a, b, rfl, rfl⟩
      | cons c rest3 =>
        obtain ⟨a2, b2, h1, h2⟩ := ih (by simp)
        refine ⟨a2, b2, ?_, ?_⟩
        · rw [List.getLast?_cons_cons]; exact h1
        · simp only [chainLines] at h2 ⊢
          rw [List.getLast?_cons_cons]; exact h2

theorem chainLines_snoc (a : MyPoint) (rest : List MyPoint) (z : MyPoint) :
    ∃ last, (a :: rest).getLast? = some last ∧
      chainLines ((a :: rest) ++ [z])
        = chainLines (a :: rest) ++ [.line (LineSegment2D.ctor last z)] := by
  induction rest generalizing a with
  | nil => exact ⟨a, rfl, rfl⟩
  | cons b rest2 ih =>
    obtain ⟨last, h1, h2⟩ := ih b
    refine ⟨last, ?_, ?_⟩
    · rw [List.getLast?_cons_cons]; exact h1
    · show Segment2D.line (LineSegment2D.ctor a b) :: chainLines ((b :: rest2) ++ [z]) = _
      rw [h2]
      rfl

theorem filterMap_kept_all (P : List MyPoint)
    (hcons : ∀ (i : Nat) (h : i + 1 < P.length),
      (P[i]).distanceTo_2D (P[i + 1]) > (1e-5 : ℝ)) :
    (P.zip P.tail).filterMap keptSpan = chainLines P := by
  induction P with
  | nil => rfl
  | cons a rest ih =>
    cases rest with
    | nil => rfl
    | cons b rest2 =>
      have h0 : a.distanceTo_2D b > defaultEpsilon := hcons 0 (by simp)
      have hrest : ∀ (i : Nat) (h : i + 1 < (b :: rest2).length),
          ((b :: rest2)[i]).distanceTo_2D ((b :: rest2)[i + 1]) > (1e-5 : ℝ) := by
        intro i hi
        have := hcons (i + 1) (by simpa using hi)
        simpa using this
      have := ih hrest
      simp only [List.tail_cons] at this
      simp only [List.tail_cons, List.zip_cons_cons, List.filterMap_cons, keptSpan, h0,
        if_true, chainLines]
      rw [← this]

theorem dist_comm (p q : MyPoint) : p.distanceTo_2D q = q.distanceTo_2D p := by
  unfold MyPoint.distanceTo_2D
  congr 1
  ring

theorem polyline_open_eq (P : List MyPoint)
    (hcons : ∀ (i : Nat) (h : i + 1 < P.length),
      (P[i]).distanceTo_2D (P[i + 1]) > (1e-5 : ℝ)) :
    polylineContourFromPoints P false =
      { segments := chainLines P, cachedIsValid := false, cacheValidity := false } := by
  unfold polylineContourFromPoints
  cases P with
  | nil => rfl
  | cons a rest =>
    have hl : (a :: rest).getLast? = some ((a :: rest).getLast (List.cons_ne_nil _ _)) :=
      List.getLast?_eq_getLast _ _
    simp only [List.head?_cons, hl]
    rw [polylineStep_foldl _ _ rfl, filterMap_kept_all _ hcons]
    simp [Contour2D.empty]

theorem polyline_closed_eq (P : List MyPoint) (hne : P ≠ [])
    (hcons : ∀ (i : Nat) (h : i + 1 < P.length),
      (P[i]).distanceTo_2D (P[i + 1]) > (1e-5 : ℝ))
    (hclose : (P.getLast hne).distanceTo_2D (P.head hne) > (1e-5 : ℝ)) :
    polylineContourFromPoints P true =
      { segments := chainLines (P ++ [P.head hne])
        cachedIsValid := false
        cacheValidity := false } := by
  unfold polylineContourFromPoints
  cases P with
  | nil => exact absurd rfl hne
  | cons a rest =>
    have hl : (a :: rest).getLast? = some ((a :: rest).getLast hne) :=
      List.getLast?_eq_getLast _ _
    obtain ⟨last, hlast, hsnoc⟩ := chainLines_snoc a rest a
    have hlast2 : last = (a :: rest).getLast hne := by
      rw [hl] at hlast
      exact (Option.some.inj hlast).symm
    have hd : a.distanceTo_2D ((a :: rest).getLast hne) > defaultEpsilon := by
      rw [dist_comm]
      exact hclose
    simp only [List.head?_cons, hl, List.head_cons]
    rw [polylineStep_foldl _ _ rfl, filterMap_kept_all _ hcons]
    simp only [hd, if_true, Contour2D.addSegment, Contour2D.empty, List.nil_append]
    rw [hsnoc, hlast2]

/-- C20: for `n >= 2` points in which every consecutive pair and the pair
`(last, first)` are more than `1e-5` apart in X/Y,
`polylineContourFromPoints(points, true)` has exactly `n` segments, is valid and
`isClosedShape()` is true; with `close = false` and `n >= 3` the same points
give `n - 1` segments and `isClosedShape()` is false. -/
theorem C20_closed_polyline (P : List MyPoint) (hne : P ≠ []) (hn : 2 ≤ P.length)
    (hcons : ∀ (i : Nat) (h : i + 1 < P.length),
      (P[i]).distanceTo_2D (P[i + 1]) > (1e-5 : ℝ))
    (hclose : (P.getLast hne).distanceTo_2D (P.head hne) > (1e-5 : ℝ)) :
    ((polylineContourFromPoints P true).getSegmentCount = P.length ∧
      (polylineContourFromPoints P true).isValid.1 = true ∧
      (polylineContourFromPoints P true).isClosedShape.1 = true) ∧
    (3 ≤ P.length →
      (polylineContourFromPoints P false).getSegmentCount = P.length - 1 ∧
      (polylineContourFromPoints P false).isClosedShape.1 = false) := by
  obtain ⟨a, b, rest, rfl⟩ : ∃ a b rest, P = a :: b :: rest := by
    match P, hn with
    | a :: b :: rest, _ => exact ⟨a, b, rest, rfl⟩
  constructor
  · rw [polyline_closed_eq _ hne hcons hclose]
    have hv : (Contour2D.mk (chainLines ((a :: b :: rest) ++ [(a :: b :: rest).head hne]))
        false false).isValid.1 = true := by
      rw [isValid_of_stale _ rfl]
      exact chainLines_valid _
    have hlen : (chainLines ((a :: b :: rest) ++ [(a :: b :: rest).head hne])).length
        = (a :: b :: rest).length := by
      rw [chainLines_length]
      simp
    refine ⟨hlen, hv, ?_⟩
    rw [isClosedShape_many _ (by show 1 < (chainLines _).length; rw [hlen]; simp) hv]
    have hnil : chainLines ((a :: b :: rest) ++ [(a :: b :: rest).head hne]) ≠ [] := by
      intro h0
      rw [h0] at hlen
      simp at hlen
    refine ⟨hnil, ?_⟩
    obtain ⟨last, _, hsnoc⟩ := chainLines_snoc a (b :: rest) a
    have hhead : (chainLines ((a :: b :: rest) ++ [(a :: b :: rest).head hne])).head hnil
        = .line (LineSegment2D.ctor a b) := rfl
    have hlastseg : (chainLines ((a :: b :: rest) ++ [(a :: b :: rest).head hne])).getLast hnil
        = .line (LineSegment2D.ctor last a) := by
      have : (chainLines ((a :: b :: rest) ++ [(a :: b :: rest).head hne])).getLast?
          = some (.line (LineSegment2D.ctor last a)) := by
        show (chainLines ((a :: b :: rest) ++ [a])).getLast? = _
        rw [hsnoc, List.getLast?_append]
        rfl
      rw [List.getLast?_eq_getLast _ hnil] at this
      exact Option.some.inj this
    show ((chainLines ((a :: b :: rest) ++ [(a :: b :: rest).head hne])).getLast hnil
      ).getPointB.distanceTo_2D
        ((chainLines ((a :: b :: rest) ++ [(a :: b :: rest).head hne])).head hnil).getPointA
        < epsilon
    rw [hhead, hlastseg]
    simp only [Segment2D.getPointA, Segment2D.getPointB, line_ctor_pointA, line_ctor_pointB,
      dist_self]
    exact epsilon_pos
  · intro h3
    rw [polyline_open_eq _ hcons]
    have hlen : (chainLines (a :: b :: rest)).length = (a :: b :: rest).length - 1 :=
      chainLines_length _
    refine ⟨hlen, ?_⟩
    have hv : (Contour2D.mk (chainLines (a :: b :: rest)) false false).isValid.1 = true := by
      rw [isValid_of_stale _ rfl]
      exact chainLines_valid _
    have hlen1 : 1 < (chainLines (a :: b :: rest)).length := by
      rw [hlen]
      simp only [List.length_cons] at h3 ⊢
      omega
    cases hcl : (Contour2D.mk (chainLines (a :: b :: rest)) false false).isClosedShape.1 with
    | false => rfl
    | true =>
      obtain ⟨hnil, hd⟩ := (isClosedShape_many _ hlen1 hv).mp hcl
      obtain ⟨a2, b2, hb2, hl2⟩ := chainLines_getLast (a :: b :: rest) hn
      have hb2' : b2 = (a :: b :: rest).getLast hne := by
        rw [List.getLast?_eq_getLast _ hne] at hb2
        exact (Option.some.inj hb2).symm
      have hlastseg : (chainLines (a :: b :: rest)).getLast hnil
          = .line (LineSegment2D.ctor a2 b2) := by
        rw [List.getLast?_eq_getLast _ hnil] at hl2
        exact Option.some.inj hl2
      have hhead : (chainLines (a :: b :: rest)).head hnil = .line (LineSegment2D.ctor a b) := rfl
      have hd2 : ((chainLines (a :: b :: rest)).getLast hnil).getPointB.distanceTo_2D
          ((chainLines (a :: b :: rest)).head hnil).getPointA < epsilon := hd
      rw [hhead, hlastseg] at hd2
      simp only [Segment2D.getPointA, Segment2D.getPointB, line_ctor_pointA,
        line_ctor_pointB] at hd2
      rw [hb2'] at hd2
      have hcl2 : (1e-5 : ℝ) < ((a :: b :: rest).getLast hne).distanceTo_2D a := hclose
      have heps : epsilon = (1e-5 : ℝ) := rfl
      rw [heps] at hd2
      exact absurd hd2 (not_lt.mpr hcl2.le)

/-! ## Moving an arc built from centre and angles -/

theorem quarterArc_fields :
    quarterArc.radius = 1 ∧ quarterArc.center = MyPoint.mk2 0 0 ∧
    quarterArc.startAngle = 0 ∧ quarterArc.endAngle = Real.pi / 2 ∧
    quarterArc.clockwise = false ∧
    quarterArc.pointA = ⟨1, 0, 0⟩ ∧ quarterArc.pointB = ⟨0, 1, 0⟩ ∧
    quarterArc.length_ = Real.pi / 2 := by
  have hpi := Real.pi_pos
  refine ⟨rfl, rfl, rfl, rfl, ?_, ?_, ?_, ?_⟩
  · show decide ((if Real.pi / 2 - 0 < 0 then Real.pi / 2 - 0 + 2 * Real.pi
        else Real.pi / 2 - 0) > Real.pi) = false
    rw [if_neg (by linarith)]
    simp only [decide_eq_false_iff_not]
    linarith
  · show ArcSegment2D.polarToCartesian (MyPoint.mk2 0 0) 1 0 = _
    simp [ArcSegment2D.polarToCartesian, MyPoint.mk2]
  · show ArcSegment2D.polarToCartesian (MyPoint.mk2 0 0) 1 (Real.pi / 2) = _
    simp [ArcSegment2D.polarToCartesian, MyPoint.mk2]
  · show (1 : ℝ) * (if Real.pi / 2 - 0 < 0 then Real.pi / 2 - 0 + 2 * Real.pi
        else Real.pi / 2 - 0) = _
    rw [if_neg (by linarith)]
    ring

theorem shift_fields (u : ArcSegment2D) (dx dy : ℝ) :
    (u.shiftEndpoints dx dy).radius = u.radius ∧
    (u.shiftEndpoints dx dy).clockwise = u.clockwise ∧
    (u.shiftEndpoints dx dy).pointA = ⟨u.pointA.x + dx, u.pointA.y + dy, u.pointA.z⟩ ∧
    (u.shiftEndpoints dx dy).pointB = ⟨u.pointB.x + dx, u.pointB.y + dy, u.pointB.z⟩ :=
  ⟨rfl, rfl, rfl, rfl⟩

/-- Evaluation of `calculateFromEndpoints` on concrete data: unclamped radius
`r`, endpoints `(x1, y1)`, `(x2, y2)`, offset ratio `ρ`. -/
theorem calc_eval (u : ArcSegment2D) (x1 y1 z1 x2 y2 z2 r ρ : ℝ) (cw : Bool)
    (hA : u.pointA = ⟨x1, y1, z1⟩) (hB : u.pointB = ⟨x2, y2, z2⟩)
    (hr : u.radius = r) (hcw : u.clockwise = cw)
    (hQ : 0 < (x2 - x1) * (x2 - x1) + (y2 - y1) * (y2 - y1))
    (hr0 : 0 ≤ r)
    (hfit : (x2 - x1) * (x2 - x1) + (y2 - y1) * (y2 - y1) ≤ (2 * r) ^ 2)
    (hρ0 : 0 ≤ ρ)
    (hρ : ρ * ρ * ((x2 - x1) * (x2 - x1) + (y2 - y1) * (y2 - y1))
      = r * r - ((x2 - x1) * (x2 - x1) + (y2 - y1) * (y2 - y1)) / 4) :
    u.calculateFromEndpoints.radius = r ∧
    u.calculateFromEndpoints.center =
      MyPoint.mk2 ((x2 + x1) / 2 + ρ * (if !cw then y2 - y1 else -(y2 - y1)))
        ((y2 + y1) / 2 + ρ * (if !cw then -(x2 - x1) else x2 - x1)) := by
  have hx1 : u.pointA.x = x1 := by rw [hA]
  have hy1 : u.pointA.y = y1 := by rw [hA]
  have hx2 : u.pointB.x = x2 := by rw [hB]
  have hy2 : u.pointB.y = y2 := by rw [hB]
  have := calc_center_ratio u ρ (by rw [hx1, hy1, hx2, hy2]; exact hQ) (by rw [hr]; exact hr0)
    (by rw [hx1, hy1, hx2, hy2, hr]; exact hfit) hρ0
    (by rw [hx1, hy1, hx2, hy2, hr]; exact hρ)
  rw [hx1, hy1, hx2, hy2, hr, hcw] at this
  exact this

/-- C17 (the code at the failing input): the arc
`ArcSegment2D(MyPoint(0, 0), 1, 0, M_PI / 2)` has centre `(0, 0)` and length
`π / 2`.  After `move(1, 2)` its endpoints are `(2, 2)` and `(1, 3)`, shifted as
they should be, but its centre is `(2, 3)` and not `(1, 2)`, its angles are
`-π / 2` and `π` and not `0` and `π / 2`, and its length is `3π / 2`. -/
theorem C17_polar_arc_move_changes_arc :
    quarterArc.center = MyPoint.mk2 0 0 ∧
    quarterArc.length_ = Real.pi / 2 ∧
    (quarterArc.move 1 2).pointA = ⟨2, 2, 0⟩ ∧
    (quarterArc.move 1 2).pointB = ⟨1, 3, 0⟩ ∧
    (quarterArc.move 1 2).center = MyPoint.mk2 2 3 ∧
    (quarterArc.move 1 2).startAngle = -(Real.pi / 2) ∧
    (quarterArc.move 1 2).endAngle = Real.pi ∧
    (quarterArc.move 1 2).length_ = 3 * Real.pi / 2 := by
  obtain ⟨hr, hc, hsa, hea, hcw, hA, hB, hlen⟩ := quarterArc_fields
  have hA' : (quarterArc.shiftEndpoints 1 2).pointA = ⟨2, 2, 0⟩ := by
    rw [(shift_fields _ _ _).2.2.1, hA]; norm_num
  have hB' : (quarterArc.shiftEndpoints 1 2).pointB = ⟨1, 3, 0⟩ := by
    rw [(shift_fields _ _ _).2.2.2, hB]; norm_num
  obtain ⟨hR, hC⟩ := calc_eval (quarterArc.shiftEndpoints 1 2) 2 2 0 1 3 0 1 (1 / 2) false
    hA' hB' hr hcw (by norm_num) (by norm_num) (by norm_num) (by norm_num) (by norm_num)
  have hC' : (quarterArc.shiftEndpoints 1 2).calculateFromEndpoints.center = MyPoint.mk2 2 3 := by
    rw [hC]
    simp only [MyPoint.mk2, MyPoint.mk.injEq, and_true]
    norm_num
  have hS : (quarterArc.shiftEndpoints 1 2).calculateFromEndpoints.startAngle
      = -(Real.pi / 2) := by
    rw [(calc_angles_def _).1, hC', hA']
    simp only [MyPoint.mk2, atan2]
    rw [Complex.arg_eq_neg_pi_div_two_iff]
    norm_num
  have hE : (quarterArc.shiftEndpoints 1 2).calculateFromEndpoints.endAngle = Real.pi := by
    rw [(calc_angles_def _).2, hC', hB']
    simp only [MyPoint.mk2, atan2]
    rw [Complex.arg_eq_pi_iff]
    norm_num
  have hpi := Real.pi_pos
  refine ⟨hc, hlen, ?_, ?_, ?_, ?_, ?_, ?_⟩
  · rw [arc_move_eq, arc_calc_pointA, hA']
  · rw [arc_move_eq, arc_calc_pointB, hB']
  · rw [arc_move_eq, hC']
  · rw [arc_move_eq, hS]
  · rw [arc_move_eq, hE]
  · rw [arc_move_eq, calc_length, hR]
    unfold ArcSegment2D.sweep
    rw [hS, hE, if_neg (by linarith)]
    ring

theorem cos_sin_three_pi_div_two :
    Real.cos (3 * Real.pi / 2) = 0 ∧ Real.sin (3 * Real.pi / 2) = -1 := by
  have e : 3 * Real.pi / 2 = 2 * Real.pi - Real.pi / 2 := by ring
  rw [e, Real.cos_two_pi_sub, Real.sin_two_pi_sub, Real.cos_pi_div_two, Real.sin_pi_div_two]
  exact ⟨rfl, rfl⟩

theorem smallArc_fields :
    smallArc.radius = 4e-6 ∧ smallArc.clockwise = true ∧
    smallArc.pointA = ⟨4e-6, 0, 0⟩ ∧ smallArc.pointB = ⟨0, -4e-6, 0⟩ ∧
    smallArc.length_ = 4e-6 * (3 * Real.pi / 2) := by
  have hpi := Real.pi_pos
  refine ⟨rfl, ?_, ?_, ?_, ?_⟩
  · show decide ((if 3 * Real.pi / 2 - 0 < 0 then 3 * Real.pi / 2 - 0 + 2 * Real.pi
        else 3 * Real.pi / 2 - 0) > Real.pi) = true
    rw [if_neg (by linarith)]
    simp only [decide_eq_true_eq]
    linarith
  · show ArcSegment2D.polarToCartesian (MyPoint.mk2 0 0) 4e-6 0 = _
    simp [ArcSegment2D.polarToCartesian, MyPoint.mk2]
  · show ArcSegment2D.polarToCartesian (MyPoint.mk2 0 0) 4e-6 (3 * Real.pi / 2) = _
    simp [ArcSegment2D.polarToCartesian, MyPoint.mk2, cos_sin_three_pi_div_two.1,
      cos_sin_three_pi_div_two.2]
  · show (4e-6 : ℝ) * (if 3 * Real.pi / 2 - 0 < 0 then 3 * Real.pi / 2 - 0 + 2 * Real.pi
        else 3 * Real.pi / 2 - 0) = _
    rw [if_neg (by linarith)]
    ring

theorem smallArc_moved_length : (smallArc.move 1 2).length_ = 4e-6 * (Real.pi / 2) := by
  obtain ⟨hr, hcw, hA, hB, _⟩ := smallArc_fields
  have hA' : (smallArc.shiftEndpoints 1 2).pointA = ⟨1.000004, 2, 0⟩ := by
    rw [(shift_fields _ _ _).2.2.1, hA]; norm_num
  have hB' : (smallArc.shiftEndpoints 1 2).pointB = ⟨1, 1.999996, 0⟩ := by
    rw [(shift_fields _ _ _).2.2.2, hB]; norm_num
  obtain ⟨hR, hC⟩ := calc_eval (smallArc.shiftEndpoints 1 2) 1.000004 2 0 1 1.999996 0 4e-6
    (1 / 2) true hA' hB' hr hcw (by norm_num) (by norm_num) (by norm_num) (by norm_num)
    (by norm_num)
  have hC' : (smallArc.shiftEndpoints 1 2).calculateFromEndpoints.center
      = MyPoint.mk2 1.000004 1.999996 := by
    rw [hC]
    simp only [MyPoint.mk2, MyPoint.mk.injEq, and_true]
    norm_num
  have hS : (smallArc.shiftEndpoints 1 2).calculateFromEndpoints.startAngle
      = Real.pi / 2 := by
    rw [(calc_angles_def _).1, hC', hA']
    simp only [MyPoint.mk2, atan2]
    rw [Complex.arg_eq_pi_div_two_iff]
    norm_num
  have hE : (smallArc.shiftEndpoints 1 2).calculateFromEndpoints.endAngle = Real.pi := by
    rw [(calc_angles_def _).2, hC', hB']
    simp only [MyPoint.mk2, atan2]
    rw [Complex.arg_eq_pi_iff]
    norm_num
  have hpi := Real.pi_pos
  rw [arc_move_eq, calc_length, hR]
  unfold ArcSegment2D.sweep
  rw [hS, hE, if_neg (by linarith)]
  ring

theorem smallArcContour_isValid :
    smallArcContour.isValid =
      (true, { segments := [.arc smallArc], cachedIsValid := true, cacheValidity := true }) := by
  unfold smallArcContour
  rw [isValid_of_stale _ (buildByAdds_cacheValidity _)]
  rfl

/-- C11 (the code at the failing input): the contour holding the single arc
`ArcSegment2D(MyPoint(0, 0), 4e-6, 0, 3 * M_PI / 2)` is valid and closed
(`isValid()` and `isClosedShape()` both return true).  After `move(1, 2)`
`isValid()` is still true, but `isClosedShape()` is false: `move` re-derives the
arc from its endpoints as the short arc of length `4e-6 * π / 2`, which does not
exceed `epsilon`. -/
theorem C11_single_arc_not_closed_after_move :
    smallArcContour.isValid.1 = true ∧
    smallArcContour.isValid.2.isClosedShape.1 = true ∧
    smallArcMoved.segments = [.arc (smallArc.move 1 2)] ∧
    smallArcMoved.isValid.1 = true ∧
    smallArcMoved.isClosedShape.1 = false := by
  obtain ⟨hr, hcw, hA, hB, hlen⟩ := smallArc_fields
  have hpi3 := Real.pi_gt_three
  have hpi4 := Real.pi_lt_four
  have hq : smallArcContour.isValid.2
      = { segments := [.arc smallArc], cachedIsValid := true, cacheValidity := true } := by
    rw [smallArcContour_isValid]
  have hclosed : smallArcContour.isValid.2.isClosedShape.1 = true := by
    rw [hq, isClosedShape_single
      { segments := [.arc smallArc], cachedIsValid := true, cacheValidity := true }
      (.arc smallArc) rfl rfl]
    simp only [Segment2D.isNonZeroLength, ArcSegment2D.isNonZeroLength, Segment2D.getPointA,
      Segment2D.getPointB, decide_eq_true_eq, hlen, hA, hB]
    constructor
    · unfold epsilon defaultEpsilon
      norm_num
      linarith
    · rw [dist_lt_iff _ _ _ epsilon_pos]
      unfold epsilon defaultEpsilon
      norm_num
  have hmoved : smallArcMoved
      = { segments := [.arc (smallArc.move 1 2)], cachedIsValid := true,
          cacheValidity := true } := by
    unfold smallArcMoved
    rw [isClosedShape_snd, hq]
    rfl
  refine ⟨by rw [smallArcContour_isValid], hclosed, by rw [hmoved], by rw [hmoved]; rfl, ?_⟩
  cases hcl : smallArcMoved.isClosedShape.1 with
  | false => rfl
  | true =>
    rw [hmoved] at hcl
    have h1 := (isClosedShape_single
      { segments := [.arc (smallArc.move 1 2)], cachedIsValid := true, cacheValidity := true }
      (.arc (smallArc.move 1 2)) rfl rfl).mp hcl
    have h2 := h1.1
    simp only [Segment2D.isNonZeroLength, ArcSegment2D.isNonZeroLength, decide_eq_true_eq,
      smallArc_moved_length] at h2
    unfold epsilon defaultEpsilon at h2
    norm_num at h2
    linarith

/-- A contour of more than one segment that is valid and closed stays valid and
closed under `move`: the two queries read only the cache and endpoint
distances, which a translation keeps. -/
theorem closed_after_move_of_many (c : Contour2D) (dx dy : ℝ)
    (hlen : 1 < c.segments.length)
    (hv : c.isValid.1 = true) (hcl : c.isClosedShape.1 = true) :
    (c.move dx dy).isValid.1 = true ∧ (c.move dx dy).isClosedShape.1 = true := by
  have hv2 : (c.move dx dy).isValid.1 = true := by
    cases hf : c.cacheValidity with
    | true =>
      rw [isValid_of_fresh c hf] at hv
      have hf2 : (c.move dx dy).cacheValidity = true := hf
      rw [isValid_of_fresh _ hf2]
      exact hv
    | false =>
      rw [isValid_of_stale c hf] at hv
      have hf2 : (c.move dx dy).cacheValidity = false := hf
      rw [isValid_of_stale _ hf2]
      show isValidLoop (c.segments.map (fun segPtr => segPtr.move dx dy)) = true
      rw [isValidLoop_iff, connected_move, ← isValidLoop_iff]
      exact hv
  refine ⟨hv2, ?_⟩
  have hlen2 : 1 < (c.move dx dy).segments.length := by
    show 1 < (c.segments.map (fun segPtr => segPtr.move dx dy)).length
    rw [List.length_map]
    exact hlen
  obtain ⟨hne, hd⟩ := (isClosedShape_many c hlen hv).mp hcl
  rw [isClosedShape_many _ hlen2 hv2]
  have hne2 : (c.move dx dy).segments ≠ [] := by
    show c.segments.map (fun segPtr => segPtr.move dx dy) ≠ []
    simpa using hne
  refine ⟨hne2, ?_⟩
  have hlast : (c.move dx dy).segments.getLast hne2 = (c.segments.getLast hne).move dx dy := by
    show (c.segments.map (fun segPtr => segPtr.move dx dy)).getLast _ = _
    rw [List.getLast_map]
  have hhead : (c.move dx dy).segments.head hne2 = (c.segments.head hne).move dx dy := by
    show (c.segments.map (fun segPtr => segPtr.move dx dy)).head _ = _
    rw [List.head_map]
  rw [hlast, hhead, seg_move_pointA, seg_move_pointB, dist_translate]
  exact hd

/-! ## Witnesses for the arc and polyline claims -/

theorem dist_mk2_gt (a b c d : ℝ) :
    ((MyPoint.mk2 a b).distanceTo_2D (MyPoint.mk2 c d) > (1e-5 : ℝ))
      ↔ (a - c) ^ 2 + (b - d) ^ 2 > 1e-10 := by
  rw [dist_gt_iff _ _ _ (by norm_num)]
  simp only [MyPoint.mk2]
  norm_num

/-- Witness for C13: between `(0,0)` and `(10,0)` the requested radius 7 is
kept. -/
theorem C13_radius_clamp_witness :
    (ArcSegment2D.ctorEndpoints (MyPoint.mk2 0 0) (MyPoint.mk2 10 0) 7 true).radius = 7 :=
  (C13_radius_clamp.1 (MyPoint.mk2 0 0) (MyPoint.mk2 10 0) 7 true).1 (by
    have hd : (MyPoint.mk2 0 0).distanceTo_2D (MyPoint.mk2 10 0) = 10 := by
      simp only [MyPoint.distanceTo_2D, MyPoint.mk2]
      rw [Real.sqrt_eq_iff_mul_self_eq (by norm_num) (by norm_num)]
      norm_num
    rw [hd]
    norm_num)

/-- Witness for C18: the skip-degenerate example. -/
theorem C18_polyline_segments_witness :
    (polylineContourFromPoints duplicatePoints false).segments
      = polylineSpec duplicatePoints false :=
  (C18_polyline_segments duplicatePoints false).1

theorem trianglePoints_cons :
    ∀ (i : Nat) (h : i + 1 < trianglePoints.length),
      (trianglePoints[i]).distanceTo_2D (trianglePoints[i + 1]) > (1e-5 : ℝ) := by
  intro i h
  have hi : i = 0 ∨ i = 1 := by
    simp [trianglePoints] at h
    omega
  rcases hi with rfl | rfl
  · show (MyPoint.mk2 0 0).distanceTo_2D (MyPoint.mk2 1 0) > (1e-5 : ℝ)
    rw [dist_mk2_gt]; norm_num
  · show (MyPoint.mk2 1 0).distanceTo_2D (MyPoint.mk2 0 1) > (1e-5 : ℝ)
    rw [dist_mk2_gt]; norm_num

/-- Witness for C20: the closed polyline through three points of a triangle has
3 segments, is valid and closed. -/
theorem C20_closed_polyline_witness :
    (polylineContourFromPoints trianglePoints true).getSegmentCount = trianglePoints.length ∧
    (polylineContourFromPoints trianglePoints true).isValid.1 = true ∧
    (polylineContourFromPoints trianglePoints true).isClosedShape.1 = true :=
  (C20_closed_polyline trianglePoints (List.cons_ne_nil _ _) (by simp [trianglePoints])
    trianglePoints_cons
    (by
      show (MyPoint.mk2 0 1).distanceTo_2D (MyPoint.mk2 0 0) > (1e-5 : ℝ)
      rw [dist_mk2_gt]; norm_num)).1

/-! ## Idempotent validity, reversed segments, arc direction, stale cache -/

theorem isValid_idem (c : Contour2D) : c.isValid.2.isValid = (c.isValid.1, c.isValid.2) := by
  cases hf : c.cacheValidity with
  | false =>
    rw [isValid_of_stale c hf]
    rfl
  | true =>
    rw [isValid_of_fresh c hf]
    exact isValid_of_fresh c hf

theorem findValid_foldl (cs : List Contour2D) (res : List Nat) (done : List Contour2D) :
    cs.foldl findValidStep (res, done) =
      (res ++ idxWhere (fun c => c.isValid.1) cs done.length,
        done ++ cs.map (fun c => c.isValid.2)) := by
  induction cs generalizing res done with
  | nil => simp [idxWhere]
  | cons c rest ih =>
    rw [List.foldl_cons]
    by_cases hv : c.isValid.1 = true
    · have hstep : findValidStep (res, done) c
          = (res ++ [done.length], done ++ [c.isValid.2]) := by
        simp [findValidStep, hv]
      rw [hstep, ih]
      simp [idxWhere, hv]
    · have hstep : findValidStep (res, done) c = (res, done ++ [c.isValid.2]) := by
        simp [findValidStep, hv]
      rw [hstep, ih]
      simp [idxWhere, hv]

theorem findInvalid_foldl (cs : List Contour2D) (res : List Nat) (done : List Contour2D) :
    cs.foldl findInvalidStep (res, done) =
      (res ++ idxWhere (fun c => !c.isValid.1) cs done.length,
        done ++ cs.map (fun c => c.isValid.2)) := by
  induction cs generalizing res done with
  | nil => simp [idxWhere]
  | cons c rest ih =>
    rw [List.foldl_cons]
    by_cases hv : c.isValid.1 = true
    · have hstep : findInvalidStep (res, done) c = (res, done ++ [c.isValid.2]) := by
        simp [findInvalidStep, hv]
      rw [hstep, ih]
      simp [idxWhere, hv]
    · have hv2 : c.isValid.1 = false := by simpa using hv
      have hstep : findInvalidStep (res, done) c
          = (res ++ [done.length], done ++ [c.isValid.2]) := by
        simp [findInvalidStep, hv2]
      rw [hstep, ih]
      simp [idxWhere, hv2]

theorem idxWhere_map (p : Contour2D → Bool) (f : Contour2D → Contour2D)
    (cs : List Contour2D) (k : Nat) :
    idxWhere p (cs.map f) k = idxWhere (fun c => p (f c)) cs k := by
  induction cs generalizing k with
  | nil => rfl
  | cons c rest ih => simp [idxWhere, ih]

theorem mem_idxWhere (p : Contour2D → Bool) (cs : List Contour2D) (k i : Nat) :
    i ∈ idxWhere p cs k ↔ ∃ (j : Nat) (h : j < cs.length), i = k + j ∧ p (cs[j]) = true := by
  induction cs generalizing k with
  | nil => simp [idxWhere]
  | cons c rest ih =>
    unfold idxWhere
    constructor
    · intro h
      by_cases hp : p c = true
      · rw [if_pos hp] at h
        rcases List.mem_cons.mp h with h0 | h1
        · exact ⟨0, by simp, by simpa using h0, by simpa using hp⟩
        · obtain ⟨j, hj, hi, hpj⟩ := (ih (k + 1)).mp h1
          exact ⟨j + 1, by simpa using hj, by omega, by simpa using hpj⟩
      · rw [if_neg hp] at h
        obtain ⟨j, hj, hi, hpj⟩ := (ih (k + 1)).mp h
        exact ⟨j + 1, by simpa using hj, by omega, by simpa using hpj⟩
    · rintro ⟨j, hj, hi, hpj⟩
      cases j with
      | zero =>
        have hp : p c = true := by simpa using hpj
        rw [if_pos hp]
        simp [hi]
      | succ j' =>
        have hmem : i ∈ idxWhere p rest (k + 1) :=
          (ih (k + 1)).mpr ⟨j', by simpa using hj, by omega, by simpa using hpj⟩
        split_ifs
        · exact List.mem_cons_of_mem _ hmem
        · exact hmem

theorem idxWhere_length (p : Contour2D → Bool) (cs : List Contour2D) (k : Nat) :
    (idxWhere p cs k).length + (idxWhere (fun c => !p c) cs k).length = cs.length := by
  induction cs generalizing k with
  | nil => rfl
  | cons c rest ih =>
    have := ih (k + 1)
    unfold idxWhere
    cases hp : p c <;> simp <;> omega

theorem idxWhere_disjoint (p : Contour2D → Bool) (cs : List Contour2D) (k i : Nat)
    (h1 : i ∈ idxWhere p cs k) : i ∉ idxWhere (fun c => !p c) cs k := by
  intro h2
  obtain ⟨j, hj, hi, hpj⟩ := (mem_idxWhere p cs k i).mp h1
  obtain ⟨j2, hj2, hi2, hpj2⟩ := (mem_idxWhere _ cs k i).mp h2
  have : j = j2 := by omega
  subst this
  simp [hpj] at hpj2

theorem dist_mk2_le (a b c d : ℝ) :
    ((MyPoint.mk2 a b).distanceTo_2D (MyPoint.mk2 c d) ≤ epsilon)
      ↔ (a - c) ^ 2 + (b - d) ^ 2 ≤ 1e-10 := by
  rw [dist_le_iff _ _ _ epsilon_pos.le]
  simp only [MyPoint.mk2, epsilon, defaultEpsilon]
  norm_num

theorem copied_lines_isValid (calls : List AddCall) :
    (Contour2D.copyCtor (buildByAdds calls)).isValid.1
      = isValidLoop (calls.map AddCall.segment) := by
  rw [value_copyCtor_eq, isValid_of_stale _ rfl, buildByAdds_segments]

theorem contourVec_validity :
    contourVec.map (fun c => c.isValid.1) = [true, false, false, false] := by
  simp only [contourVec, List.map_cons, List.map_nil, copied_lines_isValid, addLine,
    AddCall.segment, isValidLoop_cons_cons, isValidLoop_single, Segment2D.getPointA,
    Segment2D.getPointB, line_ctor_pointA, line_ctor_pointB, dist_mk2_le]
  norm_num

/-- The scenario of the test `ValidInvalidContourSearch`, the two searches run
one after the other: one valid contour, three invalid ones. -/
theorem contourVec_partition :
    (findValidContours_test contourVec).1 = [0] ∧
    (findInvalidContours_test (findValidContours_test contourVec).2).1 = [1, 2, 3] := by
  have hval := contourVec_validity
  have hv : findValidContours_test contourVec =
      (idxWhere (fun c => c.isValid.1) contourVec 0, contourVec.map (fun c => c.isValid.2)) := by
    unfold findValidContours_test
    rw [findValid_foldl]
    simp
  have hw : findInvalidContours_test (contourVec.map (fun c => c.isValid.2)) =
      (idxWhere (fun c => !c.isValid.2.isValid.1) contourVec 0,
        (contourVec.map (fun c => c.isValid.2)).map (fun c => c.isValid.2)) := by
    unfold findInvalidContours_test
    rw [findInvalid_foldl, idxWhere_map]
    simp
  rw [hv]
  simp only
  rw [hw]
  simp only [isValid_idem]
  simp only [contourVec, List.map_cons, List.map_nil, List.cons.injEq, and_true] at hval
  obtain ⟨h1, h2, h3, h4⟩ := hval
  simp only [contourVec, idxWhere, h1, h2, h3, h4]
  simp

theorem contourWithReversed_segments (lines : List LineSegment2D) (k : Nat)
    (hk : k < lines.length) :
    (contourWithReversed lines k hk).segments =
      (lines.set k (LineSegment2D.ctor (lines[k]).pointB (lines[k]).pointA)).map
        (fun l => Segment2D.line l) := by
  unfold contourWithReversed
  rw [buildByAdds_segments, List.map_map]
  rfl

theorem callSegmentAt_flags (c : Contour2D) (index : Nat) (m : Segment2D → Segment2D) :
    (c.callSegmentAt index m).2.cacheValidity = c.cacheValidity ∧
    (c.callSegmentAt index m).2.cachedIsValid = c.cachedIsValid := by
  unfold Contour2D.callSegmentAt
  split <;> exact ⟨rfl, rfl⟩

theorem testChain_length_eq : testChain.length = 5 := rfl

theorem testChain_length : 3 < testChain.length := by
  rw [testChain_length_eq]
  decide

/-- C21: `isValid()` is idempotent: called again on the contour the first call
left, it returns the same value and leaves that contour as it is.  Hence for
every vector of contours, `findValidContours_test` followed by
`findInvalidContours_test` on the same vector select disjoint sets of elements
(written as indices into the vector) whose sizes sum to the size of the vector,
and the second search leaves the vector as the first one left it.  The two
searches run one after the other. -/
theorem C21_isValid_idempotent_partition :
    (∀ c : Contour2D, c.isValid.2.isValid = (c.isValid.1, c.isValid.2)) ∧
    (∀ contours : List Contour2D,
      (∀ i, i ∈ (findValidContours_test contours).1 →
        i ∉ (findInvalidContours_test (findValidContours_test contours).2).1) ∧
      (findValidContours_test contours).1.length
        + (findInvalidContours_test (findValidContours_test contours).2).1.length
        = contours.length ∧
      (findInvalidContours_test (findValidContours_test contours).2).2
        = (findValidContours_test contours).2) := by
  refine ⟨isValid_idem, fun contours => ?_⟩
  have hv : findValidContours_test contours =
      (idxWhere (fun c => c.isValid.1) contours 0, contours.map (fun c => c.isValid.2)) := by
    unfold findValidContours_test
    rw [findValid_foldl]
    simp
  have hw : findInvalidContours_test (contours.map (fun c => c.isValid.2)) =
      (idxWhere (fun c => !c.isValid.1) contours 0, contours.map (fun c => c.isValid.2)) := by
    unfold findInvalidContours_test
    rw [findInvalid_foldl, idxWhere_map]
    simp only [List.nil_append, List.length_nil, List.map_map]
    congr 1
    · congr 1
      funext c
      rw [isValid_idem]
    · apply List.map_congr_left
      intro c _
      simp only [Function.comp]
      rw [isValid_idem]
  rw [hv]
  simp only
  rw [hw]
  exact ⟨fun i hi => idxWhere_disjoint _ contours 0 i hi, idxWhere_length _ contours 0, rfl⟩

/-- Witness for C21: in the vector of the test `ValidInvalidContourSearch` the
two searches select `1 + 3 = 4` elements. -/
theorem C21_isValid_idempotent_partition_witness :
    (findValidContours_test contourVec).1.length
      + (findInvalidContours_test (findValidContours_test contourVec).2).1.length
      = contourVec.length :=
  (C21_isValid_idempotent_partition.2 contourVec).2.1

/-- C22: a contour with a reversed segment is invalid.  For every chain of
`N >= 2` line segments in which each `pointB` equals the next `pointA`, and
every index `k` whose segment has endpoints more than epsilon (`1e-5`) apart in
X/Y, the contour built from the chain with segment `k` replaced by
`LineSegment2D(pointB, pointA)` has `isValid()` false. -/
theorem C22_reversed_segment_invalid (lines : List LineSegment2D) (k : Nat)
    (hN : 2 ≤ lines.length) (hk : k < lines.length)
    (hchain : ∀ (i : Nat) (h : i + 1 < lines.length),
      (lines[i]).pointB = (lines[i + 1]).pointA)
    (hlong : (lines[k]).pointA.distanceTo_2D (lines[k]).pointB > (1e-5 : ℝ)) :
    (contourWithReversed lines k hk).isValid.1 = false := by
  cases hv : (contourWithReversed lines k hk).isValid.1 with
  | false => rfl
  | true =>
    exfalso
    have hst : (contourWithReversed lines k hk).cacheValidity = false :=
      buildByAdds_cacheValidity _
    rw [isValid_of_stale _ hst] at hv
    have hconn : Connected (contourWithReversed lines k hk).segments :=
      (isValidLoop_iff _).mp hv
    rw [contourWithReversed_segments] at hconn
    have heps : epsilon = (1e-5 : ℝ) := rfl
    by_cases hk0 : k = 0
    · subst hk0
      have h1 : 0 + 1 < lines.length := by omega
      have := hconn 0 (by simpa using h1)
      simp only [List.getElem_map, List.getElem_set_self, zero_add, Segment2D.getPointA,
        Segment2D.getPointB, line_ctor_pointB] at this
      rw [List.getElem_set_ne (by omega)] at this
      have hc := hchain 0 h1
      simp only [zero_add] at hc
      rw [← hc, heps] at this
      exact absurd hlong (not_lt.mpr this)
    · have h1 : (k - 1) + 1 < lines.length := by omega
      have := hconn (k - 1) (by simpa using h1)
      have hkk : k - 1 + 1 = k := by omega
      simp only [hkk, List.getElem_map, List.getElem_set_self, Segment2D.getPointA,
        Segment2D.getPointB, line_ctor_pointA] at this
      rw [List.getElem_set_ne (by omega)] at this
      have hc := hchain (k - 1) h1
      simp only [hkk] at hc
      rw [hc, heps] at this
      exact absurd hlong (not_lt.mpr this)

/-- Witness for C22: the valid five-line chain of the tests with its fourth
segment `(5,5)-(5,6)` reversed, the contour of the test `InvalidContour_B`. -/
theorem C22_reversed_segment_invalid_witness :
    (contourWithReversed testChain 3 testChain_length).isValid.1 = false :=
  C22_reversed_segment_invalid testChain 3 (by decide) testChain_length
    (by
      intro i h
      have hi : i < 4 := by
        have := testChain_length_eq
        omega
      interval_cases i <;>
        simp [testChain, line_ctor_pointA, line_ctor_pointB])
    (by
      have h3 : testChain[3] = LineSegment2D.ctor (MyPoint.mk2 5 5) (MyPoint.mk2 5 6) := rfl
      rw [h3, line_ctor_pointA, line_ctor_pointB, dist_mk2_gt]
      norm_num)

/-- C26: the cached validity can be made stale through `getSegmentAt`.  The
contour `twoLines` has two connected line segments and `isValid()` returns
true; `getSegmentAt(1).move(5, 5)`, a displacement longer than epsilon, does not
throw, and afterwards `isValid()` still returns true although `pointB` of
segment 0 and `pointA` of segment 1 are more than epsilon apart.  A call of any
member function through `getSegmentAt(index)`, `move` among them, leaves
`cacheValidity` and `cachedIsValid` of every contour as they were. -/
theorem C26_stale_cache_through_getSegmentAt :
    twoLines.segments.length = 2 ∧
    Connected twoLines.segments ∧
    twoLines.isValid.1 = true ∧
    Real.sqrt ((5 : ℝ) ^ 2 + (5 : ℝ) ^ 2) > epsilon ∧
    (Contour2D.moveSegmentAt twoLines.isValid.2 1 5 5).1 = .ok () ∧
    segmentMovedAfterQuery.isValid.1 = true ∧
    (∃ h : 0 + 1 < segmentMovedAfterQuery.segments.length,
      (segmentMovedAfterQuery.segments[0]).getPointB.distanceTo_2D
        (segmentMovedAfterQuery.segments[0 + 1]).getPointA > epsilon) ∧
    (∀ (c : Contour2D) (index : Nat) (dx dy : ℝ),
      c.moveSegmentAt index dx dy = c.callSegmentAt index (fun seg => seg.move dx dy)) ∧
    (∀ (c : Contour2D) (index : Nat) (m : Segment2D → Segment2D),
      (c.callSegmentAt index m).2.cacheValidity = c.cacheValidity ∧
      (c.callSegmentAt index m).2.cachedIsValid = c.cachedIsValid) := by
  have hconn : Connected twoLines.segments := by
    rw [twoLines_segments]
    intro i hi
    have hi0 : i = 0 := by
      simp only [List.length_cons, List.length_nil] at hi
      omega
    subst hi0
    simp [Segment2D.getPointA, Segment2D.getPointB, line_ctor_pointA, line_ctor_pointB,
      dist_self, epsilon_pos.le]
  have hgt : ((Segment2D.line (LineSegment2D.ctor (MyPoint.mk2 0 0) (MyPoint.mk2 1 0))
      ).getPointB).distanceTo_2D
        ((Segment2D.line (LineSegment2D.ctor (MyPoint.mk2 1 0) (MyPoint.mk2 2 0))).move 5 5
          ).getPointA > epsilon := by
    rw [seg_move_pointA]
    simp only [Segment2D.getPointA, Segment2D.getPointB, line_ctor_pointA, line_ctor_pointB]
    show (MyPoint.mk2 1 0).distanceTo_2D (MyPoint.mk2 (1 + 5) (0 + 5)) > (1e-5 : ℝ)
    rw [dist_mk2_gt]
    norm_num
  refine ⟨by rw [twoLines_segments]; rfl, hconn, by rw [twoLines_isValid], ?_, ?_, ?_, ?_,
    fun _ _ _ _ => rfl, callSegmentAt_flags⟩
  · show Real.sqrt ((5 : ℝ) ^ 2 + (5 : ℝ) ^ 2) > (1e-5 : ℝ)
    apply Real.lt_sqrt_of_sq_lt
    norm_num
  · rw [twoLines_isValid]
    simp [Contour2D.moveSegmentAt, Contour2D.getSegmentAt, twoLines_segments]
  · rw [segmentMovedAfterQuery_eq]
    rfl
  · have hsegs : segmentMovedAfterQuery.segments =
        [.line (LineSegment2D.ctor (MyPoint.mk2 0 0) (MyPoint.mk2 1 0)),
         (Segment2D.line (LineSegment2D.ctor (MyPoint.mk2 1 0) (MyPoint.mk2 2 0))).move 5 5] := by
      rw [segmentMovedAfterQuery_eq]
    refine ⟨by rw [hsegs]; simp, ?_⟩
    simpa [hsegs] using hgt

/-! ## Arc length, the move of a contour, the full circle -/

/-- C10 (amended): `Contour2D::move(dx, dy)` keeps the segment count and
order, and replaces `pointA` and `pointB` of every segment by the point with
`dx` added to x and `dy` added to y, z unchanged.  It leaves both cache members
as they are: when the freshness flag is set, `isValid()` afterwards returns the
cached value, which is what it returned before the move; when the flag is
clear, `isValid()` afterwards returns the connectivity recomputed from the
moved segments. -/
theorem C10_move_translation (c : Contour2D) (dx dy : ℝ) :
    (c.move dx dy).getSegmentCount = c.getSegmentCount ∧
    (∀ (i : Nat) (h : i < c.segments.length),
      ∃ h2 : i < (c.move dx dy).segments.length,
        (c.move dx dy).segments[i] = (c.segments[i]).move dx dy ∧
        ((c.move dx dy).segments[i]).getPointA
          = ⟨(c.segments[i]).getPointA.x + dx, (c.segments[i]).getPointA.y + dy,
              (c.segments[i]).getPointA.z⟩ ∧
        ((c.move dx dy).segments[i]).getPointB
          = ⟨(c.segments[i]).getPointB.x + dx, (c.segments[i]).getPointB.y + dy,
              (c.segments[i]).getPointB.z⟩) ∧
    (c.move dx dy).cacheValidity = c.cacheValidity ∧
    (c.move dx dy).cachedIsValid = c.cachedIsValid ∧
    (c.cacheValidity = true →
      (c.move dx dy).isValid.1 = c.cachedIsValid ∧
      (c.move dx dy).isValid.1 = c.isValid.1) ∧
    (c.cacheValidity = false →
      ((c.move dx dy).isValid.1 = true ↔ Connected (c.move dx dy).segments)) := by
  refine ⟨by simp [Contour2D.getSegmentCount, Contour2D.move], ?_, rfl, rfl, ?_, ?_⟩
  · intro i h
    have h2 : i < (c.move dx dy).segments.length := by simpa [Contour2D.move] using h
    have hget : (c.move dx dy).segments[i] = (c.segments[i]).move dx dy := by
      simp [Contour2D.move]
    exact ⟨h2, hget, by rw [hget, seg_move_pointA], by rw [hget, seg_move_pointB]⟩
  · intro hf
    have hm : (c.move dx dy).isValid = ((c.move dx dy).cachedIsValid, c.move dx dy) :=
      isValid_of_fresh (c.move dx dy) hf
    have h0 := isValid_of_fresh c hf
    rw [hm, h0]
    exact ⟨rfl, rfl⟩
  · intro hs
    have hm := isValid_fst_of_consistent _ (consistent_of_stale (c.move dx dy) hs)
    exact hm

/-- Witness for C10 (amended): the triangle has a stale cache, and after
`move(1, 2)` the value of `isValid()` is the connectivity of the moved
segments. -/
theorem C10_move_translation_witness :
    triangle.cacheValidity = false ∧
    ((triangle.move 1 2).isValid.1 = true ↔ Connected (triangle.move 1 2).segments) :=
  have hs : triangle.cacheValidity = false := by simp [triangle, buildByAdds_cacheValidity]
  ⟨hs, (C10_move_translation triangle 1 2).2.2.2.2.2 hs⟩

theorem M_PI_bounds :
    (1.2246e-16 : ℝ) < Real.pi - M_PI ∧ Real.pi - M_PI < (1.2248e-16 : ℝ) := by
  have h1 := Real.pi_gt_d20
  have h2 := Real.pi_lt_d20
  unfold M_PI
  constructor
  · norm_num at h1 ⊢
    linarith
  · norm_num at h2 ⊢
    linarith

theorem sin_M_PI_bounds :
    (1.2245e-16 : ℝ) < Real.sin M_PI ∧ Real.sin M_PI < (1.2248e-16 : ℝ) := by
  obtain ⟨h1, h2⟩ := M_PI_bounds
  have hs : Real.sin M_PI = Real.sin (Real.pi - M_PI) := (Real.sin_pi_sub M_PI).symm
  rw [hs]
  have hpos : 0 < Real.pi - M_PI := by linarith
  have hle : Real.pi - M_PI ≤ 1 := by linarith
  have hlt := Real.sin_lt hpos
  have hgt := Real.sin_gt_sub_cube hpos hle
  constructor
  · have hcube : (Real.pi - M_PI) ^ 3 / 4 < (1e-20 : ℝ) := by
      have h3 : (Real.pi - M_PI) ^ 3 < (1.2248e-16 : ℝ) ^ 3 :=
        pow_lt_pow_left₀ h2 hpos.le (by norm_num)
      have : (1.2248e-16 : ℝ) ^ 3 / 4 < (1e-20 : ℝ) := by norm_num
      linarith
    linarith
  · linarith

theorem fullCircle_points (center : MyPoint) (r : ℝ) :
    (ArcSegment2D.ctorPolar center r 0 (2 * M_PI)).pointA
      = ⟨center.x + r, center.y, center.z⟩ ∧
    (ArcSegment2D.ctorPolar center r 0 (2 * M_PI)).pointB
      = ⟨center.x + r * Real.cos (2 * M_PI), center.y + r * Real.sin (2 * M_PI), center.z⟩ := by
  constructor
  · show ArcSegment2D.polarToCartesian center r 0 = _
    simp [ArcSegment2D.polarToCartesian]
  · rfl

theorem fullCircle_length (center : MyPoint) (r : ℝ) :
    (ArcSegment2D.ctorPolar center r 0 (2 * M_PI)).length_ = r * (2 * M_PI) := by
  show r * (if 2 * M_PI - 0 < 0 then 2 * M_PI - 0 + 2 * Real.pi else 2 * M_PI - 0) = _
  have hpos : (0 : ℝ) < M_PI := by unfold M_PI; norm_num
  rw [if_neg (by linarith)]
  ring

/-- The distance of the two endpoints of the full circle written with
`2 * M_PI`: `2 |r| sin(M_PI)`, not `0`. -/
theorem fullCircle_gap (center : MyPoint) (r : ℝ) :
    (ArcSegment2D.ctorPolar center r 0 (2 * M_PI)).pointA.distanceTo_2D
        (ArcSegment2D.ctorPolar center r 0 (2 * M_PI)).pointB
      = 2 * |r| * Real.sin M_PI := by
  rw [(fullCircle_points center r).1, (fullCircle_points center r).2]
  unfold MyPoint.distanceTo_2D
  simp only
  have hs := sin_M_PI_bounds.1
  have hpos : 0 ≤ 2 * |r| * Real.sin M_PI :=
    mul_nonneg (mul_nonneg (by norm_num) (abs_nonneg r)) (by linarith)
  rw [Real.sqrt_eq_iff_mul_self_eq (by positivity) hpos]
  have hc : Real.cos (2 * M_PI) = 1 - 2 * Real.sin M_PI ^ 2 := by
    rw [Real.cos_two_mul, Real.cos_sq']
    ring
  have hsn : Real.sin (2 * M_PI) ^ 2 = 1 - Real.cos (2 * M_PI) ^ 2 := by
    rw [Real.sin_sq]
  have habs : |r| * |r| = r * r := abs_mul_abs_self r
  have e1 : (center.x + r - (center.x + r * Real.cos (2 * M_PI))) ^ 2
      + (center.y - (center.y + r * Real.sin (2 * M_PI))) ^ 2
      = r * r * ((1 - Real.cos (2 * M_PI)) ^ 2 + Real.sin (2 * M_PI) ^ 2) := by ring
  rw [e1, hsn, hc]
  have e2 : 2 * |r| * Real.sin M_PI * (2 * |r| * Real.sin M_PI)
      = (|r| * |r|) * (4 * Real.sin M_PI ^ 2) := by ring
  rw [e2, habs]
  ring

theorem fullCircle_closed_iff (center : MyPoint) (r : ℝ) :
    (fullCircle center r).isClosedShape.1 = true ↔
      (r * (2 * M_PI) > epsilon ∧ 2 * |r| * Real.sin M_PI < epsilon) := by
  unfold fullCircle
  rw [single_isClosedShape]
  simp only [Segment2D.isNonZeroLength, ArcSegment2D.isNonZeroLength, Segment2D.getPointA,
    Segment2D.getPointB, fullCircle_length, fullCircle_gap, decide_eq_true_eq]

/-- C12 (as stated, at a concrete radius): for the nonzero radius `1e-6` the
contour holding the single arc `ArcSegment2D((0,0), 1e-6, 0, 2 * M_PI)` is not a
closed shape, because the arc length `2 * M_PI * 1e-6` does not exceed
`epsilon`. -/
theorem C12_small_radius_counterexample :
    (1e-6 : ℝ) ≠ 0 ∧ (fullCircle (MyPoint.mk2 0 0) (1e-6)).isClosedShape.1 = false := by
  refine ⟨by norm_num, ?_⟩
  cases h : (fullCircle (MyPoint.mk2 0 0) (1e-6)).isClosedShape.1 with
  | false => rfl
  | true =>
    have h1 := ((fullCircle_closed_iff _ _).mp h).1
    unfold epsilon defaultEpsilon M_PI at h1
    norm_num at h1

/-- C12 (amended): for every centre and every radius `r` with
`1.6e-6 <= r <= 1e10`, the arc `ArcSegment2D(center, r, 0, 2 * M_PI)` has a
length above epsilon (`1e-5`) and endpoints less than epsilon apart, and the
contour holding this single arc is a closed shape.  The contour is not closed
when `2 * M_PI * r <= epsilon`, whatever the centre; and with the centre at the
origin it is not closed for `r >= 4.1e10`, where the two endpoints, which are
`2 |r| sin(M_PI)` apart because `2 * M_PI` is not `2π`, are more than epsilon
apart. -/
theorem C12_full_circle_closed (center : MyPoint) (r : ℝ) :
    ((1.6e-6 : ℝ) ≤ r → r ≤ (1e10 : ℝ) →
      (ArcSegment2D.ctorPolar center r 0 (2 * M_PI)).length_ > (1e-5 : ℝ) ∧
      (ArcSegment2D.ctorPolar center r 0 (2 * M_PI)).pointA.distanceTo_2D
        (ArcSegment2D.ctorPolar center r 0 (2 * M_PI)).pointB < (1e-5 : ℝ) ∧
      (fullCircle center r).isClosedShape.1 = true) ∧
    (2 * M_PI * r ≤ (1e-5 : ℝ) → (fullCircle center r).isClosedShape.1 = false) ∧
    ((4.1e10 : ℝ) ≤ r →
      (ArcSegment2D.ctorPolar (MyPoint.mk2 0 0) r 0 (2 * M_PI)).pointA.distanceTo_2D
        (ArcSegment2D.ctorPolar (MyPoint.mk2 0 0) r 0 (2 * M_PI)).pointB > (1e-5 : ℝ) ∧
      (fullCircle (MyPoint.mk2 0 0) r).isClosedShape.1 = false) := by
  obtain ⟨hs1, hs2⟩ := sin_M_PI_bounds
  have heps : epsilon = (1e-5 : ℝ) := rfl
  refine ⟨?_, ?_, ?_⟩
  · intro h1 h2
    have hr0 : 0 ≤ r := by linarith
    have hlen : r * (2 * M_PI) > (1e-5 : ℝ) := by
      unfold M_PI
      norm_num
      linarith
    have hgap : 2 * |r| * Real.sin M_PI < (1e-5 : ℝ) := by
      rw [abs_of_nonneg hr0]
      nlinarith
    refine ⟨by rw [fullCircle_length]; exact hlen, by rw [fullCircle_gap]; exact hgap, ?_⟩
    rw [fullCircle_closed_iff, heps]
    exact ⟨hlen, hgap⟩
  · intro h
    cases hc : (fullCircle center r).isClosedShape.1 with
    | false => rfl
    | true =>
      have := ((fullCircle_closed_iff _ _).mp hc).1
      rw [heps] at this
      linarith
  · intro h
    have hr0 : 0 ≤ r := by linarith
    have hgap : 2 * |r| * Real.sin M_PI > (1e-5 : ℝ) := by
      rw [abs_of_nonneg hr0]
      nlinarith
    refine ⟨by rw [fullCircle_gap]; exact hgap, ?_⟩
    cases hc : (fullCircle (MyPoint.mk2 0 0) r).isClosedShape.1 with
    | false => rfl
    | true =>
      have := ((fullCircle_closed_iff _ _).mp hc).2
      rw [heps] at this
      linarith

/-- Witness for C12 (amended): the full circle of radius 1 about the origin is
a closed shape. -/
theorem C12_full_circle_closed_witness :
    (fullCircle (MyPoint.mk2 0 0) 1).isClosedShape.1 = true :=
  ((C12_full_circle_closed (MyPoint.mk2 0 0) 1).1 (by norm_num) (by norm_num)).2.2

/-! ## Binary64 evaluations -/

theorem b64_calcSlope_length (s : B64.LineSegment2D) : s.calcSlope.length_ = s.length_ := by
  unfold B64.LineSegment2D.calcSlope
  dsimp only
  split_ifs <;> rfl

theorem b64_move_length (s : B64.LineSegment2D) (dx dy : Binary64) :
    (s.move dx dy).length_ = s.length_ := by
  unfold B64.LineSegment2D.move
  dsimp only
  rw [b64_calcSlope_length]

set_option maxRecDepth 100000 in
/-- In binary64 a translation can break a junction: the contour `nearJunction`
is valid, and after `move(1e11, 0)` it is not, because `1.000009 + 1e11` rounds
one unit in the last place (`2^-16 = 1.526e-5`) above `1 + 1e11`. -/
theorem b64_move_breaks_junction :
    B64.nearJunction.isValid.1 = true ∧
    (B64.nearJunction.move (Binary64.lit 100000000000 1) (Binary64.lit 0 1)).isValid.1
      = false :=
  ⟨rfl, rfl⟩

set_option maxRecDepth 100000 in
/-- C23 (at a failing input, binary64): `LineSegment2D::move` never writes
`length_`.  The line `LineSegment2D((0,0), (1,0))` has stored length 1, endpoint
distance 1 and slope 0.  After `move(1e17, 0)` both endpoints are `(1e17, 0)`,
because `1 + 1e17` rounds to `1e17`; the stored length is still 1 while the
distance of the endpoints is 0, and the slope has changed from 0 to
`+infinity`. -/
theorem C23_move_leaves_length_stale :
    (∀ (s : B64.LineSegment2D) (dx dy : Binary64), (s.move dx dy).length_ = s.length_) ∧
    B64.unitLine.length_ = Binary64.lit 1 1 ∧
    B64.unitLine.pointA.distanceTo_2D B64.unitLine.pointB = Binary64.lit 1 1 ∧
    B64.unitLine.slope = B64.Slope.finite (Binary64.lit 0 1) ∧
    B64.unitLineMoved.pointA
      = B64.MyPoint.mk2 (Binary64.lit 100000000000000000 1) (Binary64.lit 0 1) ∧
    B64.unitLineMoved.pointB
      = B64.MyPoint.mk2 (Binary64.lit 100000000000000000 1) (Binary64.lit 0 1) ∧
    B64.unitLineMoved.length_ = Binary64.lit 1 1 ∧
    B64.unitLineMoved.pointA.distanceTo_2D B64.unitLineMoved.pointB = Binary64.lit 0 1 ∧
    B64.unitLineMoved.slope = B64.Slope.infinity :=
  ⟨b64_move_length, rfl, rfl, rfl, rfl, rfl, rfl, rfl, rfl⟩

set_option maxRecDepth 100000 in
/-- C24 (at a failing input, binary64): the contour holding the single line
`LineSegment2D((0,0), (1,0))` is not a closed shape; after `move(1e17, 0)` it
holds the line whose endpoints are both `(1e17, 0)` and whose stored length is
still 1, so `isValid()` is true, `isNonZeroLength(epsilon)` is true, the
endpoints are less than epsilon apart, and `isClosedShape()` returns true. -/
theorem C24_moved_line_reported_closed :
    (B64.Contour2D.empty.addSegment B64.unitLine).isClosedShape.1 = false ∧
    B64.movedLineContour.segments = [B64.unitLineMoved] ∧
    B64.movedLineContour.isValid.1 = true ∧
    B64.unitLineMoved.isNonZeroLength B64.epsilon = true ∧
    Binary64.lt (B64.unitLineMoved.pointA.distanceTo_2D B64.unitLineMoved.pointB) B64.epsilon
      = true ∧
    B64.movedLineContour.isClosedShape.1 = true :=
  ⟨rfl, rfl, rfl, rfl, rfl, rfl⟩

set_option maxRecDepth 100000 in
/-- C16 (at a failing input, binary64): the arc built from the endpoints
`(0,0)` and `(10,0)` with requested radius 5 stores the radius 5.  After
`move(6.1, 0)` its endpoints are `(6.1, 0)` and `(10 + 6.1, 0)` in double
arithmetic, which are `10 + 2^-49` apart in x, so the clamp of
`calculateFromEndpoints` fires again and the stored radius is
`5.5 + 2^-49 = 5.500000000000002`, larger than before the move. -/
theorem C16_move_reclamps_radius :
    B64.halfCircle.radius = Binary64.lit 5 1 ∧
    B64.halfCircleMoved.pointA = B64.MyPoint.mk2 (Binary64.lit 61 10) (Binary64.lit 0 1) ∧
    B64.halfCircleMoved.pointB
      = B64.MyPoint.mk2 (Binary64.add (Binary64.lit 10 1) (Binary64.lit 61 10))
          (Binary64.lit 0 1) ∧
    Binary64.sub B64.halfCircleMoved.pointB.x B64.halfCircleMoved.pointA.x
      = ⟨10 * 2 ^ 49 + 1, -49⟩ ∧
    B64.halfCircleMoved.radius = ⟨11 * 2 ^ 48 + 1, -49⟩ ∧
    Binary64.lt B64.halfCircle.radius B64.halfCircleMoved.radius = true :=
  ⟨rfl, rfl, rfl, rfl, rfl, rfl⟩

end

end Contour
